import Mathlib

/-!
# gobeansdb bucket engine: versioned read/write path and compaction

A shallow embedding of `store/bucket.go` and `store/gc.go`.  Functions of those
two files are translated statement by statement; the collaborators they call
(hash-tree, hint subsystem, collision table, data log, position codec) live in
other files of the repository and are modelled from the interface contracts of
the specification.

Machine integers: `int32` versions are `Int` values wrapped with `wrap32`,
`uint32` sizes are `Nat` values reduced modulo `2^32`.
-/

namespace store

/-! ## Machine integers -/

/-- Two's-complement wrap of an integer into the `int32` range. -/
def wrap32 (n : Int) : Int := (n + 2147483648) % 4294967296 - 2147483648

/-- Wrap of a natural number into the `uint32` range. -/
def wrapU32 (n : Nat) : Nat := n % 4294967296

/-- Range predicate of `int32`. -/
def isInt32 (n : Int) : Prop := -2147483648 ≤ n ∧ n ≤ 2147483647

instance (n : Int) : Decidable (isInt32 n) := by unfold isInt32; infer_instance

/-- Function `abs` of bucket.go: `if n < 0 { return -n }; return n` on `int32`
(the negation wraps, so `abs32 (-2^31) = -2^31`). -/
def abs32 (n : Int) : Int := if n < 0 then wrap32 (-n) else n

/-! ## Version reconciliation -/

/-- Method `Bucket.checkVer` of bucket.go (the receiver is unused). -/
def checkVer (oldv ver : Int) : Int × Bool :=
  if ver = 0 then
    if oldv > 0 then (wrap32 (oldv + 1), true)
    else (wrap32 (wrap32 (-oldv) + 1), true)
  else if ver < 0 then (wrap32 (wrap32 (-(abs32 oldv)) - 1), true)
  else if abs32 ver ≤ abs32 oldv then (1, false)
  else (ver, true)

/-- The version reconciliation rule in the words of the specification, over
unbounded integers; `none` stands for a rejected write. -/
def reconcileRule (old req : Int) : Option Int :=
  if req = 0 then
    if old > 0 then some (old + 1) else some (-old + 1)
  else if req < 0 then some (-(Int.natAbs old : Int) - 1)
  else if Int.natAbs req > Int.natAbs old then some req
  else none


/-! ## Data model -/

/-- Raw key bytes; Go's `string(bytes)` keeps the byte sequence, so string keys
are byte lists as well. -/
abbrev Bytes := List Nat

/-- Go `error` values, by message. -/
abbrev Error := String

/-- Struct `Position`: chunk id (Go `int`) and byte offset (`uint32`). -/
structure Position where
  ChunkID : Int
  Offset : Nat
deriving DecidableEq, Repr

/-- Struct `HintID`: identifies hint segments and hash-tree snapshots. -/
structure HintID where
  Chunk : Int
  Split : Int
deriving DecidableEq, Repr

/-- Struct `Meta`: version (`int32`) and value hash. -/
structure Meta where
  Ver : Int
  ValueHash : Nat
deriving DecidableEq, Repr

/-- Struct `Payload`: embeds `Meta` and carries timestamp, flag, value bytes and the
record size. -/
structure Payload extends Meta where
  TS : Nat
  Flag : Nat
  Value : List Nat
  RecSize : Nat
deriving DecidableEq, Repr

/-- Struct `Record{Key, Payload}` as stored in the data log. -/
structure Record where
  Key : Bytes
  Payload : Payload
deriving DecidableEq, Repr

/-- Struct `KeyInfo`: the key descriptor. -/
structure KeyInfo where
  KeyHash : Nat
  Key : Bytes
  StringKey : Bytes
  KeyIsPath : Bool
deriving DecidableEq, Repr

/-- Struct `HintItem`: key hash, encoded position, version, value hash and exact key. -/
structure HintItem where
  Keyhash : Nat
  Pos : Nat
  Ver : Int
  Vhash : Nat
  Key : Bytes
deriving DecidableEq, Repr

/-- Modelled from the spec: the position codec (`Position.encode`, missing from
the sources) "encodes a (chunk id, byte offset) pair into one sortable integer":
the chunk id above the 32 offset bits. -/
def Position.encode (pos : Position) : Nat := pos.ChunkID.toNat * 4294967296 + pos.Offset

/-- Modelled from the spec: `decodePos`, the inverse of `Position.encode`. -/
def decodePos (n : Nat) : Position := ⟨(n / 4294967296 : Nat), n % 4294967296⟩

/-- Modelled from the spec: `newHintItem` (missing from the sources) builds a hint
item that stores the encoded position. -/
def newHintItem (khash : Nat) (ver : Int) (vhash : Nat) (pos : Position) (key : Bytes) : HintItem :=
  ⟨khash, pos.encode, ver, vhash, key⟩

/-- Modelled from the spec: `NewKeyInfoFromBytes` (missing from the sources)
derives the descriptor of a raw key. -/
def NewKeyInfoFromBytes (key : Bytes) (keyhash : Nat) (keyIsPath : Bool) : KeyInfo :=
  ⟨keyhash, key, key, keyIsPath⟩

/-! ## Collaborators -/

/-- Modelled from the spec: the hash-tree index (`HTree`, missing from the
sources), "the authoritative index from key hash to (meta, position); single
entry per hash bucket slot". -/
structure HTree where
  slots : Nat → Option (Meta × Position)

/-- Modelled from the spec: `HTree.get(key_descriptor) -> (meta, position, found)`;
when nothing is found the Go results keep their zero values. -/
def HTree.get (t : HTree) (ki : KeyInfo) : Meta × Position × Bool :=
  match t.slots ki.KeyHash with
  | some (m, p) => (m, p, true)
  | none => (⟨0, 0⟩, ⟨0, 0⟩, false)

/-- Modelled from the spec: `HTree.set(key_descriptor, meta, position)`. -/
def HTree.set (t : HTree) (ki : KeyInfo) (m : Meta) (pos : Position) : HTree :=
  ⟨fun h => if h = ki.KeyHash then some (m, pos) else t.slots h⟩

/-- Modelled from the spec: the bucket's collision table (`cTable`, missing from
the sources), a "map from (key hash, exact key string) to the last known record
location/version". -/
structure cTable where
  items : Nat → Bytes → Option HintItem

/-- Modelled from the spec: `cTable.get(hash, exact_key) -> entry|absent`. -/
def cTable.get (t : cTable) (keyhash : Nat) (key : Bytes) : Option HintItem := t.items keyhash key

/-- Modelled from the spec: `cTable.set(entry)`. -/
def cTable.set (t : cTable) (it : HintItem) : cTable :=
  ⟨fun h k => if h = it.Keyhash ∧ k = it.Key then some it else t.items h k⟩

/-- Modelled from the spec: the hint subsystem (`hintMgr`, missing from the
sources).  The fields the bucket engine reads and writes directly are kept; the
three lookups it queries are the current answers of the subsystem:
`getItem` (exact-key lookup, giving the item with its in-chunk offset and the
chunk id), `collisions` (the subsystem's own collision table, giving an item and
a collision flag) and `getItemCollision` (the in-memory buffers). -/
structure hintMgr where
  state : Nat
  maxDumpableChunkID : Int
  maxDumpedHintID : HintID
  getItem : Nat → Bytes → Bool → Option HintItem × Int × Option Error
  collisions : Nat → Bytes → Option HintItem × Bool
  getItemCollision : Nat → Bytes → Option HintItem × Bool

/-- One record of a chunk file as the stream reader reports it: the offset of the
record and the count of unparseable bytes skipped before it. -/
structure Slot where
  offset : Nat
  record : Record
  broken : Nat
deriving DecidableEq, Repr

/-- The fallible operations of the data log. -/
inductive IOp where
  | appendRecord
  | readAt (chunk : Int) (offset : Nat)
  | openReader (chunk : Int)
  | openWriter (chunk : Int)
  | next (chunk : Int) (n : Nat)
  | append (chunk : Int) (offset : Nat)
deriving DecidableEq, Repr

/-- Modelled from the spec: the data log (`dataStore`, missing from the sources),
"append-only per-chunk record storage with streaming sequential read and
positional random read".  `fault` tells which operation meets an I/O failure. -/
structure dataStore where
  newHead : Int
  files : Int → List Slot
  filesizes : Int → Nat
  fault : IOp → Option Error

/-- The parts of the repository and of its configuration that the two source
files use without defining them: the value hash, the key hash, the record size
(`Record.Sizes`), `conf.DataFileMax`, `MAX_CHUNK_ID`, the hint state flags, the
mutators of the hint subsystem, and the increment flag `FLAG_INCR`. -/
structure Env where
  Getvhash : List Nat → Nat
  getKeyHash : Bytes → Nat
  Sizes : Record → Nat
  DataFileMax : Nat
  MAX_CHUNK_ID : Int
  HintStateGC : Nat
  HintStateMerge : Nat
  hintsSet : hintMgr → KeyInfo → Meta → Position → Nat → hintMgr
  ClearChunks : hintMgr → Int → Int → hintMgr
  forceRotateSplit : hintMgr → hintMgr
  dumpAndMerge : hintMgr → Bool → hintMgr
  Merge : hintMgr → Bool → hintMgr
  FLAG_INCR : Nat

/-- Writes a record at a position of a chunk file: the slots that end before it
and the slots that start after it stay, what it overlaps is destroyed, and the
file grows when the record ends beyond its length. -/
def dataStore.put (E : Env) (ds : dataStore) (chunk : Int) (off : Nat) (rec : Record) : dataStore :=
  let stop := off + E.Sizes rec
  { ds with
    files := fun c => if c = chunk then
        (ds.files c).filter (fun s => decide (s.offset < off ∧ s.offset + E.Sizes s.record ≤ off)) ++
          [⟨off, rec, 0⟩] ++
          (ds.files c).filter (fun s => decide (off < s.offset ∧ stop ≤ s.offset))
      else ds.files c
    filesizes := fun c => if c = chunk then max (ds.filesizes c) stop else ds.filesizes c }

/-- Modelled from the spec: `dataStore.AppendRecord`, `append(record) -> Position`:
the record goes to the end of the head chunk, or to the start of the next chunk
when the head chunk would exceed the configured size. -/
def dataStore.AppendRecord (E : Env) (ds : dataStore) (rec : Record) :
    dataStore × Position × Option Error :=
  match ds.fault IOp.appendRecord with
  | some e => (ds, ⟨0, 0⟩, some e)
  | none =>
    if ds.filesizes ds.newHead + E.Sizes rec > E.DataFileMax then
      (({ ds with newHead := ds.newHead + 1 }).put E (ds.newHead + 1) 0 rec, ⟨ds.newHead + 1, 0⟩, none)
    else
      (ds.put E ds.newHead (ds.filesizes ds.newHead) rec, ⟨ds.newHead, ds.filesizes ds.newHead⟩, none)

/-- Modelled from the spec: `dataStore.GetRecordByPos`, `read_at(Position) -> Record`;
no record and no error when no record starts at the position. -/
def dataStore.GetRecordByPos (ds : dataStore) (pos : Position) : Option Record × Option Error :=
  match ds.fault (IOp.readAt pos.ChunkID pos.Offset) with
  | some e => (none, some e)
  | none => (((ds.files pos.ChunkID).find? (fun s => decide (s.offset = pos.Offset))).map Slot.record, none)

/-- Modelled from the spec: `dataStore.Truncate(chunk, size)`. -/
def dataStore.Truncate (E : Env) (ds : dataStore) (chunk : Int) (size : Nat) : dataStore :=
  { ds with
    files := fun c => if c = chunk then
        (ds.files c).filter (fun s => decide (s.offset + E.Sizes s.record ≤ size))
      else ds.files c
    filesizes := fun c => if c = chunk then size else ds.filesizes c }

/-- Modelled from the spec: `dataStore.DeleteFile(chunk)`. -/
def dataStore.DeleteFile (ds : dataStore) (chunk : Int) : dataStore :=
  { ds with
    files := fun c => if c = chunk then [] else ds.files c
    filesizes := fun c => if c = chunk then 0 else ds.filesizes c }

/-- Struct `DataStreamWriter`: the chunk written to and the current offset. -/
structure DataStreamWriter where
  chunk : Int
  offset : Nat
deriving DecidableEq, Repr

/-- Modelled from the spec: `dataStore.GetStreamWriter(chunk, append_mode)`: the
writer starts at the length of the chunk in append mode and at 0 otherwise. -/
def dataStore.GetStreamWriter (ds : dataStore) (chunk : Int) (isappend : Bool) :
    DataStreamWriter × Option Error :=
  match ds.fault (IOp.openWriter chunk) with
  | some e => (⟨chunk, 0⟩, some e)
  | none => (⟨chunk, if isappend then ds.filesizes chunk else 0⟩, none)

/-- Modelled from the spec: `DataStreamWriter.Append`: writes the record at the
current offset, returns that offset and advances by the record size. -/
def DataStreamWriter.Append (E : Env) (w : DataStreamWriter) (ds : dataStore) (rec : Record) :
    dataStore × DataStreamWriter × Nat × Option Error :=
  match ds.fault (IOp.append w.chunk w.offset) with
  | some e => (ds, w, 0, some e)
  | none => (ds.put E w.chunk w.offset rec, { w with offset := wrapU32 (w.offset + E.Sizes rec) },
      w.offset, none)

/-- Modelled from the spec: `dataStore.GetStreamReader(chunk)`, the "sequence of
(Record, offset, broken_byte_count)" of the chunk as it is when the reader opens. -/
def dataStore.GetStreamReader (ds : dataStore) (chunk : Int) : List Slot × Option Error :=
  match ds.fault (IOp.openReader chunk) with
  | some e => ([], some e)
  | none => (ds.files chunk, none)

/-! ## The bucket -/

/-- Struct `GCFileState`: per-chunk statistics (`int` counters, `uint32` sizes). -/
structure GCFileState where
  Src : Int
  NumBefore : Int
  NumReleased : Int
  NumReleasedDeleted : Int
  SizeBefore : Nat
  SizeReleased : Nat
  SizeDeleted : Nat
  SizeBroken : Nat
deriving DecidableEq, Repr

/-- Struct `GCState`: the audit entry of one compaction run (the time stamps are left
out). -/
structure GCState where
  Begin : Int
  End : Int
  Src : Int
  Dst : Int
  Err : Option Error
  Running : Bool
  GCFileState : store.GCFileState
deriving DecidableEq, Repr

/-- Struct `Bucket`: the collaborators it owns, the id of its hash-tree snapshot, the
snapshot files on disk (`none` for a file that does not load) and the audit
history.  The write lock and the directory name are left out. -/
structure Bucket where
  id : Int
  collisons : cTable
  htree : HTree
  hints : hintMgr
  datas : dataStore
  htreeID : HintID
  snapshots : List (HintID × Option HTree)
  GCHistory : List GCState


/-! ## Key-value operations (bucket.go) -/

/-- Modelled from the spec: `Payload.CalcValueHash` (missing from the sources),
"compute the value hash". -/
def Payload.CalcValueHash (E : Env) (v : Payload) : Payload :=
  { v with ValueHash := E.Getvhash v.Value }

/-- Go `new(Payload)`: the zero payload. -/
def Payload.zero : Payload := ⟨⟨0, 0⟩, 0, 0, [], 0⟩

/-- Method `Bucket.getRecordByPos`. -/
def Bucket.getRecordByPos (bkt : Bucket) (pos : Position) : Option Record × Option Error :=
  bkt.datas.GetRecordByPos pos

/-- Method `Bucket.set`: value hash, append to the data log, then hash-tree and hint
update.  Returns the bucket and the error. -/
def Bucket.set (E : Env) (bkt : Bucket) (ki : KeyInfo) (v : Payload) : Bucket × Option Error :=
  let v := v.CalcValueHash E
  match bkt.datas.AppendRecord E ⟨ki.Key, v⟩ with
  | (ds, _, some err) => ({ bkt with datas := ds }, some err)
  | (ds, pos, none) =>
    ({ bkt with
        datas := ds
        htree := bkt.htree.set ki v.toMeta pos
        hints := E.hintsSet bkt.hints ki v.toMeta pos v.RecSize }, none)

/-- Method `Bucket.get`: returns the bucket (the collision table may be filled), the
payload (`none` for `nil`), the position and the error.  The results of
`htree.get` are used only when the collision table has no entry for the key;
the assignment `hintit.Pos = pos.encode()` is applied to the item that
`hints.getItem` returned, not to the hint subsystem. -/
def Bucket.get (bkt : Bucket) (ki : KeyInfo) (memOnly : Bool) :
    Bucket × Option Payload × Position × Option Error :=
  let hintit := bkt.collisons.get ki.KeyHash ki.StringKey
  let (meta, pos0, found) := bkt.htree.get ki
  if hintit = none ∧ found = false then (bkt, none, pos0, none)
  else
    let pos := match hintit with
      | none => pos0
      | some it => decodePos it.Pos
    if memOnly then
      match hintit with
      | some it => (bkt, some { Payload.zero with Ver := it.Ver, ValueHash := it.Vhash }, pos, none)
      | none => (bkt, some { Payload.zero with toMeta := meta }, pos, none)
    else
      match bkt.getRecordByPos pos with
      | (_, some err) => (bkt, none, pos, some err)
      | (none, none) => (bkt, none, pos, none)
      | (some rec, none) =>
        if rec.Key = ki.Key then (bkt, some rec.Payload, pos, none)
        else
          match bkt.hints.getItem ki.KeyHash ki.StringKey false with
          | (_, _, some err) => (bkt, none, pos, some err)
          | (none, _, none) => (bkt, none, pos, none)
          | (some hintit, chunkID, none) =>
            let pos : Position := ⟨chunkID, hintit.Pos⟩
            let hintit := { hintit with Pos := pos.encode }
            let c1 := bkt.collisons.set hintit
            let hintit2 := newHintItem ki.KeyHash rec.Payload.Ver rec.Payload.ValueHash pos rec.Key
            let c2 := c1.set hintit2
            let bkt := { bkt with collisons := c2 }
            match bkt.getRecordByPos pos with
            | (_, some err) => (bkt, none, pos, some err)
            | (some rec, none) => (bkt, some rec.Payload, pos, none)
            | (none, none) => (bkt, none, pos, none)

/-- Method `Bucket.getset`: the compare-and-swap write.  Returns the bucket and the
error. -/
def Bucket.getset (E : Env) (bkt : Bucket) (ki : KeyInfo) (v : Payload) : Bucket × Option Error :=
  match bkt.get ki true with
  | (bkt, _, _, some err) => (bkt, some err)
  | (bkt, none, _, none) =>
    let ver := v.Ver
    ((bkt.set E ki { v with Ver := ver }).1, none)
  | (bkt, some payload, _, none) =>
    let (ver, valid) := checkVer payload.Ver v.Ver
    if valid = false then (bkt, none)
    else if payload.Ver > 1 ∧ E.Getvhash v.Value = payload.ValueHash then (bkt, none)
    else ((bkt.set E ki { v with Ver := ver }).1, none)

/-! ## Compaction (gc.go) -/

/-- Method `GCFileState.add`. -/
def GCFileState.add (s : GCFileState) (size : Nat) (isRetained isDeleted : Bool)
    (sizeBroken : Nat) : GCFileState :=
  let s := if isRetained = false then
      let s := { s with NumReleased := s.NumReleased + 1, SizeReleased := wrapU32 (s.SizeReleased + size) }
      if isDeleted then { s with NumReleasedDeleted := s.NumReleasedDeleted + 1 } else s
    else s
  { s with
    SizeReleased := wrapU32 (s.SizeReleased + sizeBroken)
    SizeBroken := wrapU32 (s.SizeBroken + sizeBroken)
    SizeBefore := wrapU32 (s.SizeBefore + wrapU32 (size + sizeBroken))
    NumBefore := s.NumBefore + 1 }

/-- Method `GCMgr.ShouldRetainRecord`: `(retain, isCollision, isDeleted)`.  The scratch
descriptor `mgr.ki` is local here. -/
def ShouldRetainRecord (E : Env) (bkt : Bucket) (rec : Record) (oldPos : Position) :
    Bool × Bool × Bool :=
  let ki : KeyInfo := ⟨E.getKeyHash rec.Key, rec.Key, rec.Key, false⟩
  let (meta, pos, found) := bkt.htree.get ki
  if found = false then (true, false, false)
  else if pos = oldPos then (true, false, decide (meta.Ver < 0))
  else
    let (it, collision) := bkt.hints.collisions ki.KeyHash ki.StringKey
    let (it, collision) :=
      if collision = false then bkt.hints.getItemCollision ki.KeyHash ki.StringKey
      else (it, collision)
    if collision then
      match it with
      | some it => (decide (decodePos it.Pos = oldPos), true, decide (it.Ver < 0))
      | none => (true, true, false)
    else (false, false, false)

/-- Method `GCMgr.UpdateCollision`: an empty body. -/
def UpdateCollision (bkt : Bucket) (_ki : KeyInfo) (_oldPos _newPos : Position) (_rec : Record) :
    Bucket := bkt

/-- Method `GCMgr.UpdateHtreePos`: the `found` result of `htree.get` is discarded. -/
def UpdateHtreePos (bkt : Bucket) (ki : KeyInfo) (oldPos newPos : Position) : Bucket :=
  let (meta, pos, _) := bkt.htree.get ki
  if pos ≠ oldPos then bkt
  else { bkt with htree := bkt.htree.set ki meta newPos }

/-- Method `Bucket.removeHtree`: removes the snapshot files and marks the tree id. -/
def Bucket.removeHtree (bkt : Bucket) : Bucket :=
  { bkt with snapshots := [], htreeID := { bkt.htreeID with Chunk := -1 } }

/-- Method `Bucket.dumpHtree`. -/
def Bucket.dumpHtree (bkt : Bucket) : Bucket :=
  let bkt := bkt.removeHtree
  let bkt := { bkt with htreeID := bkt.hints.maxDumpedHintID }
  { bkt with snapshots := [(bkt.htreeID, some bkt.htree)] }

/-- Go's `a &^ b` on naturals: the bits of `a` that are not in `b`. -/
def andNot (a b : Nat) : Nat := a ^^^ (a &&& b)

/-- Method `GCMgr.BeforeBucket`.  The loop that waits for a running merge is ended by
another goroutine only; in this sequential embedding a set merge flag means the
call never returns (`none`).  The sleeps are left out. -/
def BeforeBucket (E : Env) (bkt : Bucket) (_startChunkID endChunkID : Int) : Option Bucket :=
  let hints := { bkt.hints with state := bkt.hints.state ||| E.HintStateGC }
  if hints.state &&& E.HintStateMerge ≠ 0 then none
  else
    let hints := { hints with maxDumpableChunkID := endChunkID - 1 }
    let hints := E.forceRotateSplit hints
    let hints := E.dumpAndMerge hints true
    let hints := E.Merge hints true
    some ({ bkt with hints := hints }).removeHtree

/-- Method `GCMgr.AfterBucket`. -/
def AfterBucket (E : Env) (bkt : Bucket) : Bucket :=
  let hints := { bkt.hints with state := andNot bkt.hints.state E.HintStateGC }
  let hints := { hints with maxDumpableChunkID := E.MAX_CHUNK_ID }
  ({ bkt with hints := hints }).dumpHtree

/-- The variables of `GCMgr.gc` that its loops update: the bucket, the audit
entry `gc`, the writer `w`, `newPos` and the statistics of the current chunk. -/
structure GCRun where
  bkt : Bucket
  gc : GCState
  w : DataStreamWriter
  newPos : Position
  fileState : GCFileState

/-- The zero `GCFileState`. -/
def GCFileState.zero : GCFileState := ⟨0, 0, 0, 0, 0, 0, 0, 0⟩

/-- The body of the inner loop of `GCMgr.gc` for one record the reader returned:
roll the destination over when the record does not fit, decide liveness,
append and update the index when retained, count.  Returns the variables and
the error of an early return. -/
def gcRecord (E : Env) (s : Slot) (st : GCRun) : GCRun × Option Error :=
  let record := s.record
  let oldPos : Position := ⟨st.gc.Src, s.offset⟩
  let sizeBroken := s.broken
  let recsize := E.Sizes record
  let roll : GCRun × Option Error :=
    if wrapU32 (recsize + st.w.offset) > wrapU32 E.DataFileMax then
      let gc := { st.gc with Dst := st.gc.Dst + 1 }
      let newPos := { st.newPos with ChunkID := gc.Dst }
      match st.bkt.datas.GetStreamWriter gc.Dst (decide (gc.Dst ≠ gc.Src)) with
      | (w, some err) =>
        ({ st with gc := { gc with Err := some err }, newPos := newPos, w := w }, some err)
      | (w, none) => ({ st with gc := gc, newPos := newPos, w := w }, none)
    else (st, none)
  match roll with
  | (st, some err) => (st, some err)
  | (st, none) =>
    let (isRetained, isCollision, isDeleted) := ShouldRetainRecord E st.bkt record oldPos
    let kept : GCRun × Option Error :=
      if isRetained then
        match st.w.Append E st.bkt.datas record with
        | (_, _, _, some err) => ({ st with gc := { st.gc with Err := some err } }, some err)
        | (ds, w, off, none) =>
          let newPos := { st.newPos with Offset := off }
          let bkt := { st.bkt with datas := ds }
          let keyinfo := NewKeyInfoFromBytes record.Key (E.getKeyHash record.Key) false
          let bkt := if isCollision then UpdateCollision bkt keyinfo oldPos newPos record
            else UpdateHtreePos bkt keyinfo oldPos newPos
          ({ st with bkt := bkt, w := w, newPos := newPos }, none)
      else (st, none)
    match kept with
    | (st, some err) => (st, some err)
    | (st, none) =>
      ({ st with fileState := st.fileState.add recsize isRetained isDeleted sizeBroken }, none)

/-- The inner loop of `GCMgr.gc` over the records the reader still holds; `n`
counts the calls of `r.Next()`.  Returns the variables and the error of an
early return. -/
def gcRecords (E : Env) : List Slot → Nat → GCRun → GCRun × Option Error
  | [], n, st =>
    match st.bkt.datas.fault (IOp.next st.gc.Src n) with
    | some err => ({ st with gc := { st.gc with Err := some err } }, some err)
    | none => (st, none)
  | s :: rest, n, st =>
    match st.bkt.datas.fault (IOp.next st.gc.Src n) with
    | some err => ({ st with gc := { st.gc with Err := some err } }, some err)
    | none =>
      match gcRecord E s st with
      | (st, some err) => (st, some err)
      | (st, none) => gcRecords E rest (n + 1) st

/-- The body of the outer loop of `GCMgr.gc` for the source chunk `gc.Src`: open
the reader and the writer, run the inner loop, truncate the destination and
delete the migrated source. -/
def gcChunk (E : Env) (st : GCRun) : GCRun × Option Error :=
  let st := { st with fileState := GCFileState.zero }
  let st := { st with bkt := { st.bkt with hints := E.ClearChunks st.bkt.hints st.gc.Src st.gc.Src } }
  match st.bkt.datas.GetStreamReader st.gc.Src with
  | (_, some err) => ({ st with gc := { st.gc with Err := some err } }, some err)
  | (r, none) =>
    match st.bkt.datas.GetStreamWriter st.gc.Dst (decide (st.gc.Dst ≠ st.gc.Src)) with
    | (w, some err) => ({ st with w := w, gc := { st.gc with Err := some err } }, some err)
    | (w, none) =>
      match gcRecords E r 0 { st with w := w } with
      | (st, some err) => (st, some err)
      | (st, none) =>
        let size := st.w.offset
        let ds := st.bkt.datas.Truncate E st.gc.Dst size
        let ds := if st.gc.Src ≠ st.gc.Dst then ds.DeleteFile st.gc.Src else ds
        ({ st with bkt := { st.bkt with datas := ds } }, none)

/-- The outer loop of `GCMgr.gc`, `for gc.Src = gc.Begin; gc.Src <= gc.End; gc.Src++`;
the first argument bounds the number of iterations. -/
def gcChunks (E : Env) : Nat → GCRun → GCRun × Option Error
  | 0, st => (st, none)
  | fuel + 1, st =>
    if st.gc.Src ≤ st.gc.End then
      match gcChunk E st with
      | (st, some err) => (st, some err)
      | (st, none) => gcChunks E fuel { st with gc := { st.gc with Src := st.gc.Src + 1 } }
    else (st, none)

/-- Method `GCMgr.gc`: `none` when `BeforeBucket` never returns, otherwise the bucket
after the deferred calls and the returned error.  The audit entry (to which
`mgr.stat` points) is appended to the history with its final content; the
outer loop gets as many iterations as the range `[gc.Begin, gc.End]` has
chunks. -/
def gc (E : Env) (bkt : Bucket) (startChunkID endChunkID : Int) : Option (Bucket × Option Error) :=
  let endChunkID :=
    if endChunkID < 0 ∨ endChunkID ≥ bkt.datas.newHead then bkt.datas.newHead - 1 else endChunkID
  let gc : GCState := ⟨startChunkID, endChunkID, 0, 0, none, true, GCFileState.zero⟩
  match BeforeBucket E bkt startChunkID endChunkID with
  | none => none
  | some bkt1 =>
    let gc := { gc with Dst := startChunkID, Src := gc.Begin }
    let st : GCRun := ⟨bkt1, gc, ⟨0, 0⟩, ⟨0, 0⟩, GCFileState.zero⟩
    let (st, err) := gcChunks E (gc.End - gc.Begin + 1).toNat st
    let bkt2 := AfterBucket E st.bkt
    some ({ bkt2 with GCHistory := bkt.GCHistory ++ [{ st.gc with Running := false }] }, err)


/-! ## A concrete bucket for worked examples -/

/-- A concrete environment: byte-sum hashes (so `[1, 2]` and `[2, 1]` collide),
records of 256 bytes, chunks of 512 bytes, and a hint subsystem whose exact-key
lookup answers with the latest `set` of the key. -/
def demoEnv : Env where
  Getvhash := fun v => v.sum % 65536
  getKeyHash := fun k => k.sum
  Sizes := fun _ => 256
  DataFileMax := 512
  MAX_CHUNK_ID := 255
  HintStateGC := 4
  HintStateMerge := 2
  hintsSet := fun h ki m pos _ =>
    { h with
      getItem := fun kh k memOnly =>
        if kh = ki.KeyHash ∧ k = ki.StringKey then
          (some ⟨ki.KeyHash, pos.Offset, m.Ver, m.ValueHash, ki.StringKey⟩, pos.ChunkID, none)
        else h.getItem kh k memOnly }
  ClearChunks := fun h _ _ => h
  forceRotateSplit := fun h => h
  dumpAndMerge := fun h _ => h
  Merge := fun h _ => h
  FLAG_INCR := 516

/-- The bucket right after `open` on an empty directory. -/
def emptyBucket : Bucket where
  id := 0
  collisons := ⟨fun _ _ => none⟩
  htree := ⟨fun _ => none⟩
  hints := ⟨0, 255, ⟨0, 0⟩, fun _ _ _ => (none, 0, none), fun _ _ => (none, false),
    fun _ _ => (none, false)⟩
  datas := ⟨0, fun _ => [], fun _ => 0, fun _ => none⟩
  htreeID := ⟨0, 0⟩
  snapshots := []
  GCHistory := []

/-- The descriptor of a key under `demoEnv`. -/
def demoKey (key : Bytes) : KeyInfo := NewKeyInfoFromBytes key (demoEnv.getKeyHash key) false

/-- A payload with the given version and value, all other fields zero. -/
def demoPayload (ver : Int) (value : List Nat) : Payload :=
  { Payload.zero with Ver := ver, Value := value }



/-- The key `[7]` stored with version `-2^31`: one `getset` on the empty bucket
(the requested version of an absent key is stored as it is). -/
def minVerBucket : Bucket :=
  (emptyBucket.getset demoEnv (demoKey [7]) (demoPayload (-2147483648) [1])).1

/-- The key `[7]` stored as a tombstone of version `-5` whose value is `[1]`. -/
def tombstoneBucket : Bucket :=
  (emptyBucket.getset demoEnv (demoKey [7]) (demoPayload (-5) [1])).1

/-- Two keys of equal hash, `[1, 2]` written before `[2, 1]`; the hash-tree slot
of the hash points at the record of `[2, 1]`. -/
def collidingBucket : Bucket :=
  ((emptyBucket.set demoEnv (demoKey [1, 2]) (demoPayload 1 [10])).1.set demoEnv
    (demoKey [2, 1]) (demoPayload 1 [20])).1

/-- The bucket `collidingBucket` after a full read of `[1, 2]`, which fills the collision
table. -/
def disambiguatedBucket : Bucket := (collidingBucket.get (demoKey [1, 2]) false).1


/-- Five keys written in sequence; with two records per chunk the key `[3]` lies
at chunk 1, offset 0, the key `[4]` at chunk 1, offset 256, and chunk 2 is the
head. -/
def fiveBucket : Bucket :=
  (((((emptyBucket.set demoEnv (demoKey [1]) (demoPayload 1 [10])).1.set demoEnv
    (demoKey [2]) (demoPayload 1 [20])).1.set demoEnv
    (demoKey [3]) (demoPayload 1 [30])).1.set demoEnv
    (demoKey [4]) (demoPayload 1 [40])).1.set demoEnv
    (demoKey [5]) (demoPayload 1 [50])).1

/-- A bucket reopened over one chunk that holds the tombstone of the key `[7]`
at offset 0: the hash-tree has no slot for the key (hint replay skips
non-positive versions), chunk 1 is the head. -/
def reopenedBucket : Bucket :=
  { emptyBucket with
    datas := ⟨1, fun c => if c = 0 then [⟨0, ⟨[7], demoPayload (-1) []⟩, 0⟩] else [],
      fun c => if c = 0 then 256 else 0, fun _ => none⟩ }

/-! ## The liveness decision in the words of the specification -/

/-- What a lookup result `(item, collision)` of the hint subsystem reports about
the exact key: `none` no entry, `some none` an entry without position
information, `some (some p)` an entry with the stored position `p`. -/
def lookupEntry (r : Option HintItem × Bool) : Option (Option Position) :=
  if r.2 then some (r.1.map (fun it => decodePos it.Pos)) else none

/-- The exact key looked up in the collision table and then in the in-memory
buffer of the hint subsystem. -/
def exactEntry (b : Bucket) (keyhash : Nat) (key : Bytes) : Option (Option Position) :=
  match lookupEntry (b.hints.collisions keyhash key) with
  | some e => some e
  | none => lookupEntry (b.hints.getItemCollision keyhash key)

/-- The liveness decision `(retain, isCollision)` as the specification words it:
`tree` is the position the hash-tree holds for the key (`none` when the key is
not found), `entry` the outcome of the exact-key lookup. -/
def retainRule (tree : Option Position) (entry : Option (Option Position)) (oldPos : Position) :
    Bool × Bool :=
  match tree with
  | none => (true, false)
  | some pos =>
    if pos = oldPos then (true, false)
    else
      match entry with
      | some (some p) => (decide (p = oldPos), true)
      | some none => (true, true)
      | none => (false, false)

/-- The key was last written as payload `q` at `pos`: it has no collision-table
entry, the hash-tree slot of its hash holds `q`'s meta and `pos`, the data log
holds the record at `pos`, and the data log meets no I/O failure. -/
def WrittenAt (b : Bucket) (ki : KeyInfo) (q : Payload) (pos : Position) : Prop :=
  b.collisons.get ki.KeyHash ki.StringKey = none ∧
  b.htree.slots ki.KeyHash = some (q.toMeta, pos) ∧
  (∀ op, b.datas.fault op = none) ∧
  b.datas.GetRecordByPos pos = (some ⟨ki.Key, q⟩, none)


/-! ## Definitions for the statistics, replay and recovery claims -/

/-- One call of `GCFileState.add`: its four arguments. -/
structure AddCall where
  size : Nat
  isRetained : Bool
  isDeleted : Bool
  sizeBroken : Nat
deriving DecidableEq, Repr

/-- The statistics after a sequence of `add` calls, in order. -/
def GCFileState.addAll (s : GCFileState) (calls : List AddCall) : GCFileState :=
  calls.foldl (fun s c => s.add c.size c.isRetained c.isDeleted c.sizeBroken) s


/-- The key `[7]` stored with version 0: one `getset` with version 0 on the
empty bucket; its record lies at chunk 0, offset 0. -/
def zeroVerBucket : Bucket :=
  (emptyBucket.getset demoEnv (demoKey [7]) (demoPayload 0 [1])).1

/-- What a lookup result `(item, collision)` of the hint subsystem reports about
the exact key, with the stored version: `none` no entry, `some none` an entry
without position information, `some (some (v, p))` an entry with version `v`
and stored position `p`. -/
def lookupVersioned (r : Option HintItem × Bool) : Option (Option (Int × Position)) :=
  if r.2 then some (r.1.map (fun it => (it.Ver, decodePos it.Pos))) else none

/-- The exact key looked up in the collision table and then in the in-memory
buffer of the hint subsystem, with the stored version. -/
def exactVersioned (b : Bucket) (keyhash : Nat) (key : Bytes) :
    Option (Option (Int × Position)) :=
  match lookupVersioned (b.hints.collisions keyhash key) with
  | some e => some e
  | none => lookupVersioned (b.hints.getItemCollision keyhash key)

/-- The tombstone flag as the specification words it, for a given reading
`deleted` of "the version counts as deleted": decided on the hash-tree meta
when the tree position equals `oldPos`, on the exact-key entry when one with a
stored position is found, and false in the not-found, no-position and no-entry
cases. -/
def tombstoneRule (deleted : Int → Bool) (tree : Option (Int × Position))
    (entry : Option (Option (Int × Position))) (oldPos : Position) : Bool :=
  match tree with
  | none => false
  | some (v, pos) =>
    if pos = oldPos then deleted v
    else
      match entry with
      | some (some (w, _)) => deleted w
      | some none => false
      | none => false

/-- Modelled from the spec: a hint segment as its reader (`hintFileReader`,
missing from the sources) yields it: the recorded maximal offset, the entries
in file order, and the error that ends the reading, if any. -/
structure hintFile where
  maxOffset : Nat
  items : List HintItem
  err : Option Error

/-- The loop of `Bucket.updateHtreeFromHint` over the entries the reader
yields. -/
def updateHtreeLoop (chunkID : Int) : List HintItem → HTree → HTree
  | [], tree => tree
  | item :: rest, tree =>
    if item.Ver > 0 then
      let ki := NewKeyInfoFromBytes item.Key item.Keyhash false
      let meta : Meta := ⟨item.Ver, item.Vhash⟩
      let pos : Position := ⟨chunkID, item.Pos⟩
      updateHtreeLoop chunkID rest (tree.set ki meta pos)
    else updateHtreeLoop chunkID rest tree

/-- Method `Bucket.updateHtreeFromHint`: the hint segment at `path` is given as what
its reader yields.  Returns the bucket, `maxoffset` and the error. -/
def Bucket.updateHtreeFromHint (bkt : Bucket) (chunkID : Int) (file : hintFile) :
    Bucket × Nat × Option Error :=
  ({ bkt with htree := updateHtreeLoop chunkID file.items bkt.htree }, file.maxOffset, file.err)


/-! ## The steps of one record of gc, named for the proofs -/

/-- The roll-over step of `gcRecord`: when the record does not fit behind the
writer offset, the destination advances and a writer is opened on it. -/
def gcRoll (E : Env) (s : Slot) (st : GCRun) : GCRun × Option Error :=
  if wrapU32 (E.Sizes s.record + st.w.offset) > wrapU32 E.DataFileMax then
    let gc := { st.gc with Dst := st.gc.Dst + 1 }
    let newPos := { st.newPos with ChunkID := gc.Dst }
    match st.bkt.datas.GetStreamWriter gc.Dst (decide (gc.Dst ≠ gc.Src)) with
    | (w, some err) =>
      ({ st with gc := { gc with Err := some err }, newPos := newPos, w := w }, some err)
    | (w, none) => ({ st with gc := gc, newPos := newPos, w := w }, none)
  else (st, none)

/-- The retain step of `gcRecord`: a retained record is appended and the index
is updated for its new position. -/
def gcKeep (E : Env) (s : Slot) (oldPos : Position) (isRetained isCollision : Bool)
    (st : GCRun) : GCRun × Option Error :=
  if isRetained then
    match st.w.Append E st.bkt.datas s.record with
    | (_, _, _, some err) => ({ st with gc := { st.gc with Err := some err } }, some err)
    | (ds, w, off, none) =>
      let newPos := { st.newPos with Offset := off }
      let bkt := { st.bkt with datas := ds }
      let keyinfo := NewKeyInfoFromBytes s.record.Key (E.getKeyHash s.record.Key) false
      let bkt := if isCollision then UpdateCollision bkt keyinfo oldPos newPos s.record
        else UpdateHtreePos bkt keyinfo oldPos newPos
      ({ st with bkt := bkt, w := w, newPos := newPos }, none)
  else (st, none)


/-- The audit entry `g2` differs from `g1` at most in `Dst` and `Err`, and the
way `Err` differs follows the returned error `err`: it is `err` when an error
is returned and it is left as it was otherwise. -/
def GCStep (g1 g2 : GCState) (err : Option Error) : Prop :=
  g2.Begin = g1.Begin ∧ g2.End = g1.End ∧ g2.Src = g1.Src ∧ g2.Running = g1.Running ∧
  g2.GCFileState = g1.GCFileState ∧
  g2.Err = (match err with
    | some e => some e
    | none => g1.Err)


/-- The start of one source chunk in `gcChunk`: fresh statistics and the cached
hint data of the chunk cleared. -/
def gcOpen (E : Env) (st : GCRun) : GCRun :=
  { st with
    fileState := GCFileState.zero
    bkt := { st.bkt with hints := E.ClearChunks st.bkt.hints st.gc.Src st.gc.Src } }

/-- The end of one source chunk in `gcChunk`: the destination is truncated to
what was written and the migrated source is deleted. -/
def gcClose (E : Env) (st : GCRun) : GCRun :=
  { st with
    bkt := { st.bkt with
      datas :=
        if st.gc.Src ≠ st.gc.Dst then
          ((st.bkt.datas.Truncate E st.gc.Dst st.w.offset).DeleteFile st.gc.Src)
        else st.bkt.datas.Truncate E st.gc.Dst st.w.offset } }


/-- The end chunk `gc` works with: the `if` at its entry. -/
def effectiveEnd (endChunkID newHead : Int) : Int :=
  if endChunkID < 0 ∨ endChunkID ≥ newHead then newHead - 1 else endChunkID

/-- The variables of `gc` when its outer loop starts, after `BeforeBucket`. -/
def gcStart (bkt1 : Bucket) (startChunkID endChunkID : Int) : GCRun :=
  ⟨bkt1, ⟨startChunkID, endChunkID, startChunkID, startChunkID, none, true, GCFileState.zero⟩,
    ⟨0, 0⟩, ⟨0, 0⟩, GCFileState.zero⟩


/-- A bucket for the compaction of a collision record.  Written in sequence:
`[9]` (chunk 0, offset 0), `[1, 2]` (chunk 0, offset 256), `[2, 1]` of the same
hash (chunk 1, offset 0), `[9]` again (chunk 1, offset 256) and `[5]` (chunk 2,
the head).  A full read of `[1, 2]` has filled the bucket's collision table, and
the hint subsystem's collision table holds both colliding keys at their
positions, as a merge leaves it. -/
def collisionGcBucket : Bucket :=
  let b := (((((emptyBucket.set demoEnv (demoKey [9]) (demoPayload 1 [10])).1.set demoEnv
    (demoKey [1, 2]) (demoPayload 1 [20])).1.set demoEnv
    (demoKey [2, 1]) (demoPayload 1 [30])).1.set demoEnv
    (demoKey [9]) (demoPayload 2 [11])).1.set demoEnv
    (demoKey [5]) (demoPayload 1 [50])).1
  let b := (b.get (demoKey [1, 2]) false).1
  { b with
    hints := { b.hints with
      collisions := fun h k =>
        if h = 3 ∧ k = [1, 2] then (some ⟨3, (⟨0, 256⟩ : Position).encode, 1, 20, [1, 2]⟩, true)
        else if h = 3 ∧ k = [2, 1] then
          (some ⟨3, (⟨1, 0⟩ : Position).encode, 1, 30, [2, 1]⟩, true)
        else (none, false) } }


/-! ## incr (bucket.go) -/

/-- Two's-complement wrap of an integer into the range of Go's `int`, taken as
64 bits wide. -/
def wrap64 (n : Int) : Int :=
  (n + 9223372036854775808) % 18446744073709551616 - 9223372036854775808

/-- Range predicate of the 64-bit `int`. -/
def isInt64 (n : Int) : Prop := -9223372036854775808 ≤ n ∧ n ≤ 9223372036854775807

instance (n : Int) : Decidable (isInt64 n) := by unfold isInt64; infer_instance

/-- The value of a run of ASCII decimal digits, read after the value `acc`;
`none` when a byte is not a digit. -/
def parseDigits : List Nat → Nat → Option Nat
  | [], acc => some acc
  | c :: rest, acc =>
    if 48 ≤ c ∧ c ≤ 57 then parseDigits rest (acc * 10 + (c - 48)) else none

/-- Go's `strconv.Atoi` for the 64-bit `int`: an optional sign `+` or `-`, at
least one decimal digit, and a value inside the range; `none` stands for the
syntax or range error. -/
def Atoi (s : Bytes) : Option Int :=
  let parsed : Option Int :=
    match s with
    | [] => none
    | 45 :: rest => if rest = [] then none else (parseDigits rest 0).map (fun n => -(n : Int))
    | 43 :: rest => if rest = [] then none else (parseDigits rest 0).map (fun n => (n : Int))
    | _ => (parseDigits s 0).map (fun n => (n : Int))
  match parsed with
  | some v => if isInt64 v then some v else none
  | none => none

/-- The decimal digits of a natural number in front of `acc`; the first argument
bounds the number of digits. -/
def natDigitsAux : Nat → Nat → List Nat → List Nat
  | 0, _, acc => acc
  | fuel + 1, n, acc =>
    if n < 10 then (48 + n) :: acc else natDigitsAux fuel (n / 10) ((48 + n % 10) :: acc)

/-- Go's `strconv.Itoa`: the decimal string of an integer. -/
def Itoa (n : Int) : Bytes :=
  if n < 0 then 45 :: natDigitsAux (n.natAbs + 1) n.natAbs []
  else natDigitsAux (n.toNat + 1) n.toNat []

/-- Method `Bucket.incr`: `now` is `time.Now().Unix()`.  Returns the bucket and the
result; `none` stands for the run-time panic of the assignment `payload.TS = ...`
through a nil `payload`. -/
def Bucket.incr (E : Env) (bkt : Bucket) (ki : KeyInfo) (value : Int) (now : Nat) :
    Option (Bucket × Int) :=
  match bkt.get ki false with
  | (bkt, _, _, some _) => some (bkt, 0)
  | (_, none, _, none) => none
  | (bkt, some payload, _, none) =>
    let s := payload.Value
    if payload.Flag ≠ E.FLAG_INCR then some (bkt, 0)
    else if s.length > 22 then some (bkt, 0)
    else
      match Atoi s with
      | none => some (bkt, 0)
      | some v =>
        let value := wrap64 (value + v)
        let s := Itoa value
        let payload := { payload with TS := wrapU32 now, Value := s }
        some ((bkt.set E ki payload).1, value)

/-- The key `[7]` stored as a counter: increment flag, value
`"9223372036854775807"`, the largest 64-bit `int`. -/
def counterBucket : Bucket :=
  (emptyBucket.set demoEnv (demoKey [7])
    { demoPayload 1 [57, 50, 50, 51, 51, 55, 50, 48, 51, 54, 56, 53, 52, 55, 55, 53, 56, 48, 55]
      with Flag := 516 }).1


/-! ## Snapshot selection of open (bucket.go) -/

/-- Modelled from the spec: `HintID.isLarger` (missing from the sources), the
strict order on (chunk, split): `id.isLarger(ck, sp)` tells that `(ck, sp)` is
larger than `id`.  With the opposite direction the initial id `{0, 0}` would
let no snapshot load. -/
def HintID.isLarger (id : HintID) (ck sp : Int) : Bool :=
  decide (ck > id.Chunk ∨ (ck = id.Chunk ∧ sp > id.Split))

/-- Modelled from the spec: `newHTree` (missing from the sources), the empty
hash-tree. -/
def newHTree : HTree := ⟨fun _ => none⟩

/-- The variables of the snapshot loop of `Bucket.open`: the tree id, the tree,
the snapshot files that were not removed, and the ids handed to `htree.load`,
both in the order of the loop. -/
structure OpenRun where
  htreeID : HintID
  htree : HTree
  kept : List (HintID × Option HTree)
  loads : List HintID

/-- The body of the snapshot loop of `Bucket.open` for one snapshot file: its id
and what `htree.load` makes of it (`none` when the load fails). -/
def openStep (maxdata : Int) (st : OpenRun) (f : HintID × Option HTree) : OpenRun :=
  if f.1.Chunk > maxdata then st
  else if st.htreeID.isLarger f.1.Chunk f.1.Split then
    match f.2 with
    | none =>
      { st with htreeID := ⟨0, 0⟩, htree := newHTree, kept := st.kept ++ [f],
                loads := st.loads ++ [f.1] }
    | some t =>
      { st with htree := t, htreeID := f.1, kept := st.kept ++ [f], loads := st.loads ++ [f.1] }
  else st

/-- The snapshot loop of `Bucket.open`, `for i := len(htrees) - 1; i >= 0; i--`,
over the files from the last to the first. -/
def openLoop (maxdata : Int) : List (HintID × Option HTree) → OpenRun → OpenRun
  | [], st => st
  | f :: rest, st => openLoop maxdata rest (openStep maxdata st f)

/-- The part of `Bucket.open` that selects the hash-tree snapshot: the tree starts
empty with id `{0, 0}`, the snapshot files (in the order of `getAllIndex`) are
visited from the last to the first.  Returns the bucket and the ids handed to
`htree.load`. -/
def Bucket.openHtree (bkt : Bucket) (maxdata : Int) : Bucket × List HintID :=
  let st := openLoop maxdata bkt.snapshots.reverse ⟨⟨0, 0⟩, newHTree, [], []⟩
  ({ bkt with htree := st.htree, htreeID := st.htreeID, snapshots := st.kept.reverse }, st.loads)

/-- The snapshots that can be loaded at all, newest first: chunk id within the
data chunks and id larger than `{0, 0}`. -/
def loadCandidates (maxdata : Int) (files : List (HintID × Option HTree)) :
    List (HintID × Option HTree) :=
  files.reverse.filter
    (fun f => decide (f.1.Chunk ≤ maxdata) && (⟨0, 0⟩ : HintID).isLarger f.1.Chunk f.1.Split)

/-- The snapshots whose load is attempted: the candidates that fail to load up
to the first that loads, and that one. -/
def loadAttempts (cands : List (HintID × Option HTree)) : List (HintID × Option HTree) :=
  cands.takeWhile (fun f => f.2.isNone) ++ (cands.find? (fun f => f.2.isSome)).toList

/-- A bucket with two snapshot files on disk: `{0, 1}`, which loads, and the newer
`{1, 0}`, which does not. -/
def twoSnapshotBucket : Bucket :=
  { emptyBucket with
    snapshots := [(⟨0, 1⟩, some ⟨fun h => if h = 7 then some (⟨1, 10⟩, ⟨0, 0⟩) else none⟩),
      (⟨1, 0⟩, none)] }


/-! ## The states the loops of gc pass through -/

/-- The writer is not ahead of a record read at offset `off`: the destination
chunk is not behind the source chunk, the writer writes to the destination
chunk, and when both chunks are the same its offset is at most `off`. -/
def WriterBehind (st : GCRun) (off : Nat) : Prop :=
  st.gc.Dst ≤ st.gc.Src ∧ st.w.chunk = st.gc.Dst ∧
  (st.gc.Dst = st.gc.Src → st.w.offset ≤ off)

/-- The records of a chunk as a sequential reader meets them: every record ends
at or before the maximal chunk size `mfs` that `gc` compares with, and every
record starts at or after the end of the records before it. -/
def ChunkLayout (E : Env) (slots : List Slot) : Prop :=
  (∀ s ∈ slots, s.offset + E.Sizes s.record ≤ wrapU32 E.DataFileMax) ∧
  slots.Pairwise (fun a b => a.offset + E.Sizes a.record ≤ b.offset)

instance (E : Env) (slots : List Slot) : Decidable (ChunkLayout E slots) := by
  unfold ChunkLayout; infer_instance

/-- The states of `gc` at the head of an iteration of its outer loop, from the
state `st0` in which the loop starts: `st0` itself, and the state after a chunk
that was processed without error, with `gc.Src` advanced. -/
inductive ChunkStart (E : Env) (st0 : GCRun) : GCRun → Prop where
  | start : ChunkStart E st0 st0
  | next (st st1 : GCRun) : ChunkStart E st0 st → st.gc.Src ≤ st.gc.End →
      gcChunk E st = (st1, none) →
      ChunkStart E st0 { st1 with gc := { st1.gc with Src := st1.gc.Src + 1 } }

/-- The states of `gc` in which the reader has just returned the record `s`: in
an iteration of the outer loop the reader and the writer were opened, and the
records `pre` before `s` were processed without error. -/
inductive RecordRead (E : Env) (st0 : GCRun) : GCRun → Slot → Prop where
  | mk (st sti : GCRun) (w : DataStreamWriter) (pre post : List Slot) (s : Slot) :
      ChunkStart E st0 st → st.gc.Src ≤ st.gc.End →
      st.bkt.datas.GetStreamReader st.gc.Src = (pre ++ s :: post, none) →
      st.bkt.datas.GetStreamWriter st.gc.Dst (decide (st.gc.Dst ≠ st.gc.Src)) = (w, none) →
      gcRecords E pre 0 { gcOpen E st with w := w } = (sti, none) →
      RecordRead E st0 sti s


/-- What holds at the head of every iteration of the outer loop of `gc` started
in `st0`: the destination is not ahead of the source, the range end is that of
`st0`, and the chunks from the source on are as in `st0`. -/
def LoopHead (st0 st : GCRun) : Prop :=
  st.gc.Dst ≤ st.gc.Src ∧ st.gc.End = st0.gc.End ∧ st0.gc.Src ≤ st.gc.Src ∧
  ∀ c, st.gc.Src ≤ c → st.bkt.datas.files c = st0.bkt.datas.files c

/-- The environment `demoEnv` with `conf.DataFileMax` set to `2^32`, which the
conversion `uint32(conf.DataFileMax)` in `gc` turns into 0. -/
def wideEnv : Env := { demoEnv with DataFileMax := 4294967296 }


/-- The bucket `fiveBucket` after `BeforeBucket` for a run of `gc` over the chunks
`[0, 1]`. -/
def fiveBucketPrepared : Bucket := (BeforeBucket demoEnv fiveBucket 0 1).getD fiveBucket


/-! ## Keys whose index entry is their own -/

/-- The key `[1, 2]` written with version 9 and then the key `[2, 1]` of the same
hash written with version 2: the hash-tree slot of the hash holds the meta and
the position of the record of `[2, 1]`. -/
def shadowedBucket : Bucket :=
  ((emptyBucket.set demoEnv (demoKey [1, 2]) (demoPayload 9 [10])).1.set demoEnv
    (demoKey [2, 1]) (demoPayload 2 [20])).1

/-- The key `[7]` stored live with version 2 and value `[1]`. -/
def liveBucket : Bucket := (emptyBucket.set demoEnv (demoKey [7]) (demoPayload 2 [1])).1

/-- The key is present with stored payload `q` at `pos`, which is what a full
`get` returns for it, and the version that a meta-only `get` reports for the key
(from its collision-table entry or else from the hash-tree slot of its hash,
without a look at the key of the record) is the version of `q`. -/
def PresentWith (b : Bucket) (ki : KeyInfo) (q : Payload) (pos : Position) : Prop :=
  (b.get ki false).2 = (some q, pos, none) ∧
  (b.get ki true).2.1.map (fun m => m.Ver) = some q.Ver

/-! ## Theorems -/

theorem wrap32_of_isInt32 {n : Int} (h : isInt32 n) : wrap32 n = n := by
  unfold isInt32 at h
  unfold wrap32
  omega

theorem abs32_eq_natAbs {n : Int} (h : isInt32 n) (hmin : n ≠ -2147483648) :
    abs32 n = (Int.natAbs n : Int) := by
  unfold isInt32 at h
  unfold abs32 wrap32
  split <;> omega

/-- C1 (counterexample): at the stored version `-2^31` the code accepts the
explicit version `1` although `|1| > |-2^31|` is false, turns a delete into
the live version `2^31-1`, and at `2^31-1` the auto-assigned `old+1` wraps. -/
theorem checkVer_rule_fails_at_int32_bounds :
    (checkVer (-2147483648) 1 = (1, true) ∧ reconcileRule (-2147483648) 1 = none) ∧
    (checkVer (-2147483648) (-1) = (2147483647, true) ∧
      reconcileRule (-2147483648) (-1) = some (-2147483649)) ∧
    (checkVer 2147483647 0 = (-2147483648, true) ∧
      reconcileRule 2147483647 0 = some 2147483648) := by
  decide

/-- C1 (amended): for `int32` versions, `checkVer` follows the reconciliation
rule whenever the result is representable: for `req = 0` when
`|old| ≤ 2^31-2`, for `req ≠ 0` when `old ≠ -2^31`.  An accepted write returns
the version of the rule, a rejected one returns the flag `false`. -/
theorem checkVer_follows_rule (old req : Int) (ho : isInt32 old) (hr : isInt32 req)
    (h0 : req = 0 → -2147483646 ≤ old ∧ old ≤ 2147483646)
    (h1 : req ≠ 0 → old ≠ -2147483648) :
    match reconcileRule old req with
    | some v => checkVer old req = (v, true)
    | none => (checkVer old req).2 = false := by
  unfold isInt32 at ho hr
  by_cases hz : req = 0
  · have hb := h0 hz
    subst hz
    by_cases hp : old > 0
    · simp [reconcileRule, checkVer, hp, wrap32]; omega
    · simp [reconcileRule, checkVer, hp, wrap32]; omega
  · have hm := h1 hz
    have ha : abs32 old = (Int.natAbs old : Int) := abs32_eq_natAbs ho hm
    by_cases hn : req < 0
    · simp only [reconcileRule, checkVer, if_neg hz, if_pos hn, ha]
      simp only [wrap32, Prod.mk.injEq, and_true]
      omega
    · have hrm : req ≠ -2147483648 := by omega
      have hb : abs32 req = (Int.natAbs req : Int) := abs32_eq_natAbs hr hrm
      by_cases hgt : Int.natAbs req > Int.natAbs old
      · have hle : ¬ ((Int.natAbs req : Int) ≤ (Int.natAbs old : Int)) := by omega
        simp only [reconcileRule, checkVer, if_neg hz, if_neg hn, ha, hb, if_pos hgt, if_neg hle]
      · have hle : (Int.natAbs req : Int) ≤ (Int.natAbs old : Int) := by omega
        simp only [reconcileRule, checkVer, if_neg hz, if_neg hn, ha, hb, if_neg hgt, if_pos hle]

/-- C1 (witness): the amended rule at `old = 5`, `req = 0`. -/
theorem checkVer_follows_rule_witness :
    match reconcileRule 5 0 with
    | some v => checkVer 5 0 = (v, true)
    | none => (checkVer 5 0).2 = false :=
  checkVer_follows_rule 5 0 (by decide) (by decide) (by decide) (by decide)


/-! ### The data log: a record is read back where it was written -/

theorem put_fault (E : Env) (ds : dataStore) (c : Int) (off : Nat) (rec : Record) :
    (ds.put E c off rec).fault = ds.fault := rfl

theorem put_read (E : Env) (ds : dataStore) (c : Int) (off : Nat) (rec : Record)
    (hr : ds.fault (IOp.readAt c off) = none) :
    (ds.put E c off rec).GetRecordByPos ⟨c, off⟩ = (some rec, none) := by
  have hA : ((ds.files c).filter
      (fun s => decide (s.offset < off ∧ s.offset + E.Sizes s.record ≤ off))).find?
      (fun s => decide (s.offset = off)) = none := by
    rw [List.find?_eq_none]
    intro s hs
    have h2 := (List.mem_filter.mp hs).2
    simp only [decide_eq_true_eq] at h2 ⊢
    omega
  have hf : (ds.put E c off rec).files c =
      (ds.files c).filter (fun s => decide (s.offset < off ∧ s.offset + E.Sizes s.record ≤ off)) ++
        ([⟨off, rec, 0⟩] ++
          (ds.files c).filter (fun s => decide (off < s.offset ∧ off + E.Sizes rec ≤ s.offset))) := by
    simp only [dataStore.put, if_true, List.append_assoc]
  simp only [dataStore.GetRecordByPos, put_fault, hr]
  rw [hf, List.find?_append, hA]
  simp [List.find?_cons]

theorem AppendRecord_fault (E : Env) (ds : dataStore) (rec : Record) :
    (ds.AppendRecord E rec).1.fault = ds.fault := by
  unfold dataStore.AppendRecord
  split
  · rfl
  · split <;> rfl

theorem AppendRecord_read (E : Env) (ds ds1 : dataStore) (rec : Record) (pos : Position)
    (h : ds.AppendRecord E rec = (ds1, pos, none))
    (hr : ds.fault (IOp.readAt pos.ChunkID pos.Offset) = none) :
    ds1.GetRecordByPos pos = (some rec, none) := by
  unfold dataStore.AppendRecord at h
  split at h
  · simp at h
  · split at h
    · simp only [Prod.mk.injEq, and_true] at h
      obtain ⟨h1, h2⟩ := h
      subst h1 h2
      exact put_read E _ _ _ rec hr
    · simp only [Prod.mk.injEq, and_true] at h
      obtain ⟨h1, h2⟩ := h
      subst h1 h2
      exact put_read E _ _ _ rec hr


/-! ### Meta-only reads -/

theorem get_absent (b : Bucket) (ki : KeyInfo) (memOnly : Bool)
    (hc : b.collisons.get ki.KeyHash ki.StringKey = none)
    (ht : b.htree.slots ki.KeyHash = none) :
    b.get ki memOnly = (b, none, ⟨0, 0⟩, none) := by
  simp [Bucket.get, HTree.get, hc, ht]

theorem get_memOnly_ctable (b : Bucket) (ki : KeyInfo) (it : HintItem)
    (hc : b.collisons.get ki.KeyHash ki.StringKey = some it) :
    b.get ki true =
      (b, some { Payload.zero with Ver := it.Ver, ValueHash := it.Vhash }, decodePos it.Pos, none) := by
  simp [Bucket.get, hc]

theorem get_memOnly_htree (b : Bucket) (ki : KeyInfo) (m : Meta) (p : Position)
    (hc : b.collisons.get ki.KeyHash ki.StringKey = none)
    (ht : b.htree.slots ki.KeyHash = some (m, p)) :
    b.get ki true = (b, some { Payload.zero with toMeta := m }, p, none) := by
  simp [Bucket.get, HTree.get, hc, ht]

theorem get_memOnly_shape (b : Bucket) (ki : KeyInfo) :
    ∃ po pos, b.get ki true = (b, po, pos, none) := by
  cases hc : b.collisons.get ki.KeyHash ki.StringKey with
  | some it => exact ⟨_, _, get_memOnly_ctable b ki it hc⟩
  | none =>
    cases ht : b.htree.slots ki.KeyHash with
    | none => exact ⟨_, _, get_absent b ki true hc ht⟩
    | some mp => exact ⟨_, _, get_memOnly_htree b ki mp.1 mp.2 hc ht⟩

theorem get_memOnly_of_payload (b : Bucket) (ki : KeyInfo) (p : Payload)
    (h : (b.get ki true).2.1 = some p) :
    ∃ pos, b.get ki true = (b, some p, pos, none) := by
  obtain ⟨po, pos, hg⟩ := get_memOnly_shape b ki
  rw [hg] at h
  simp only at h
  subst h
  exact ⟨pos, hg⟩

/-! ### getset on a present key -/

theorem getset_present (E : Env) (b : Bucket) (ki : KeyInfo) (v p : Payload)
    (h : (b.get ki true).2.1 = some p) :
    b.getset E ki v =
      if (checkVer p.Ver v.Ver).2 = false then (b, none)
      else if p.Ver > 1 ∧ E.Getvhash v.Value = p.ValueHash then (b, none)
      else ((b.set E ki { v with Ver := (checkVer p.Ver v.Ver).1 }).1, none) := by
  obtain ⟨pos, hg⟩ := get_memOnly_of_payload b ki p h
  simp only [Bucket.getset, hg]

theorem getset_absent (E : Env) (b : Bucket) (ki : KeyInfo) (v : Payload)
    (h : (b.get ki true).2.1 = none) :
    b.getset E ki v = ((b.set E ki v).1, none) := by
  obtain ⟨po, pos, hg⟩ := get_memOnly_shape b ki
  rw [hg] at h
  simp only at h
  subst h
  simp only [Bucket.getset, hg]


/-! ### set -/

theorem AppendRecord_error (E : Env) (ds ds1 : dataStore) (rec : Record) (pos : Position)
    (err : Error) (h : ds.AppendRecord E rec = (ds1, pos, some err)) : ds1 = ds := by
  unfold dataStore.AppendRecord at h
  split at h
  · simp only [Prod.mk.injEq] at h
    exact h.1.symm
  · split at h <;> simp at h

theorem set_ok (E : Env) (b : Bucket) (ki : KeyInfo) (v : Payload) (ds : dataStore)
    (pos : Position) (h : b.datas.AppendRecord E ⟨ki.Key, v.CalcValueHash E⟩ = (ds, pos, none)) :
    b.set E ki v =
      ({ b with
          datas := ds
          htree := b.htree.set ki (v.CalcValueHash E).toMeta pos
          hints := E.hintsSet b.hints ki (v.CalcValueHash E).toMeta pos (v.CalcValueHash E).RecSize },
        none) := by
  simp only [Bucket.set, h]

theorem set_error (E : Env) (b : Bucket) (ki : KeyInfo) (v : Payload) (ds : dataStore)
    (pos : Position) (err : Error)
    (h : b.datas.AppendRecord E ⟨ki.Key, v.CalcValueHash E⟩ = (ds, pos, some err)) :
    b.set E ki v = (b, some err) := by
  have hds := AppendRecord_error E _ _ _ _ _ h
  subst hds
  simp only [Bucket.set, h]

theorem set_collisons (E : Env) (b : Bucket) (ki : KeyInfo) (v : Payload) :
    (b.set E ki v).1.collisons = b.collisons := by
  rcases hap : b.datas.AppendRecord E ⟨ki.Key, v.CalcValueHash E⟩ with ⟨ds, pos, _ | err⟩
  · rw [set_ok E b ki v ds pos hap]
  · rw [set_error E b ki v ds pos err hap]

/-- After `set`, a meta-only read reports either what it reported before or the
version that was written. -/
theorem get_memOnly_after_set (E : Env) (b : Bucket) (ki : KeyInfo) (v p : Payload)
    (h : (b.get ki true).2.1 = some p) :
    ∃ q, ((b.set E ki v).1.get ki true).2.1 = some q ∧ (q.Ver = p.Ver ∨ q.Ver = v.Ver) := by
  cases hc : b.collisons.get ki.KeyHash ki.StringKey with
  | some it =>
    have hc1 : (b.set E ki v).1.collisons.get ki.KeyHash ki.StringKey = some it := by
      rw [set_collisons]; exact hc
    rw [get_memOnly_ctable b ki it hc] at h
    rw [get_memOnly_ctable _ ki it hc1]
    simp only [Option.some.injEq] at h
    exact ⟨_, rfl, Or.inl (by rw [← h])⟩
  | none =>
    have hc1 : (b.set E ki v).1.collisons.get ki.KeyHash ki.StringKey = none := by
      rw [set_collisons]; exact hc
    rcases hap : b.datas.AppendRecord E ⟨ki.Key, v.CalcValueHash E⟩ with ⟨ds, pos, _ | err⟩
    · rw [set_ok E b ki v ds pos hap]
      rw [set_ok E b ki v ds pos hap] at hc1
      rw [get_memOnly_htree _ ki (v.CalcValueHash E).toMeta pos hc1 (by simp [HTree.set])]
      exact ⟨_, rfl, Or.inr rfl⟩
    · rw [set_error E b ki v ds pos err hap]
      exact ⟨p, h, Or.inl rfl⟩

/-! ### Magnitudes -/

theorem checkVer_magnitude (old req : Int) (ho : isInt32 old) (hmin : old ≠ -2147483648)
    (hr : isInt32 req) (hacc : (checkVer old req).2 = true) :
    Int.natAbs old < Int.natAbs (checkVer old req).1 := by
  unfold isInt32 at ho hr
  have ha : abs32 old = (Int.natAbs old : Int) := abs32_eq_natAbs ho hmin
  unfold checkVer at hacc ⊢
  by_cases hz : req = 0
  · simp only [if_pos hz]
    by_cases hp : old > 0
    · simp only [if_pos hp, wrap32]; omega
    · simp only [if_neg hp, wrap32]; omega
  · by_cases hn : req < 0
    · simp only [if_neg hz, if_pos hn, ha, wrap32]; omega
    · have hb : abs32 req = (Int.natAbs req : Int) := abs32_eq_natAbs hr (by omega)
      simp only [if_neg hz, if_neg hn, ha, hb] at hacc ⊢
      by_cases hle : (Int.natAbs req : Int) ≤ (Int.natAbs old : Int)
      · rw [if_pos hle] at hacc
        exact absurd hacc (by decide)
      · simp only [if_neg hle]; omega

theorem checkVer_stale (old req : Int) (ho : isInt32 old) (hmin : old ≠ -2147483648)
    (hr : isInt32 req) (hpos : 0 < req) (hle : Int.natAbs req ≤ Int.natAbs old) :
    (checkVer old req).2 = false := by
  unfold isInt32 at ho hr
  have ha : abs32 old = (Int.natAbs old : Int) := abs32_eq_natAbs ho hmin
  have hb : abs32 req = (Int.natAbs req : Int) := abs32_eq_natAbs hr (by omega)
  have hz : ¬ req = 0 := by omega
  have hn : ¬ req < 0 := by omega
  have h2 : (Int.natAbs req : Int) ≤ (Int.natAbs old : Int) := by omega
  simp only [checkVer, if_neg hz, if_neg hn, ha, hb, if_pos h2]


/-! ### Reading back what was written -/

theorem AppendRecord_ok (E : Env) (ds : dataStore) (rec : Record)
    (hf : ds.fault IOp.appendRecord = none) :
    ∃ ds1 pos, ds.AppendRecord E rec = (ds1, pos, none) := by
  unfold dataStore.AppendRecord
  rw [hf]
  simp only
  split
  · exact ⟨_, _, rfl⟩
  · exact ⟨_, _, rfl⟩

theorem get_after_set (E : Env) (b : Bucket) (ki : KeyInfo) (v : Payload) (ds : dataStore)
    (pos : Position)
    (hc : b.collisons.get ki.KeyHash ki.StringKey = none)
    (happ : b.datas.AppendRecord E ⟨ki.Key, v.CalcValueHash E⟩ = (ds, pos, none))
    (hread : b.datas.fault (IOp.readAt pos.ChunkID pos.Offset) = none) :
    (b.set E ki v).1.get ki false = ((b.set E ki v).1, some (v.CalcValueHash E), pos, none) := by
  have hrd := AppendRecord_read E _ _ _ _ happ hread
  rw [set_ok E b ki v ds pos happ]
  simp [Bucket.get, Bucket.getRecordByPos, HTree.get, HTree.set, hc, hrd]

theorem set_written (E : Env) (b : Bucket) (ki : KeyInfo) (v : Payload)
    (hc : b.collisons.get ki.KeyHash ki.StringKey = none)
    (hio : ∀ op, b.datas.fault op = none) :
    ∃ pos, WrittenAt (b.set E ki v).1 ki (v.CalcValueHash E) pos := by
  obtain ⟨ds, pos, happ⟩ := AppendRecord_ok E b.datas ⟨ki.Key, v.CalcValueHash E⟩ (hio _)
  have hrd := AppendRecord_read E _ _ _ _ happ (hio _)
  have hfl : ds.fault = b.datas.fault := by
    have := AppendRecord_fault E b.datas ⟨ki.Key, v.CalcValueHash E⟩
    rw [happ] at this
    exact this
  refine ⟨pos, ?_⟩
  rw [set_ok E b ki v ds pos happ]
  refine ⟨hc, by simp [HTree.set], ?_, hrd⟩
  intro op
  show ds.fault op = none
  rw [hfl]
  exact hio op

theorem get_written_mem (b : Bucket) (ki : KeyInfo) (q : Payload) (pos : Position)
    (h : WrittenAt b ki q pos) :
    b.get ki true = (b, some { Payload.zero with toMeta := q.toMeta }, pos, none) :=
  get_memOnly_htree b ki q.toMeta pos h.1 h.2.1

theorem get_written_full (b : Bucket) (ki : KeyInfo) (q : Payload) (pos : Position)
    (h : WrittenAt b ki q pos) :
    b.get ki false = (b, some q, pos, none) := by
  obtain ⟨hc, ht, _, hrd⟩ := h
  simp [Bucket.get, Bucket.getRecordByPos, HTree.get, hc, ht, hrd]


/-! ### C2: the worked example of the specification -/

/-- C2 (the code at the failing input): the key `[7]` is absent from the empty
bucket.  `getset` with version 0 does not call `checkVer` for it and stores the
requested version 0 as it is, where `checkVer` with the old version 0 gives 1.
The second `getset` with version 0 therefore leaves version 1 (not 2) and the
delete that follows leaves version -2 (not -3).  The hint entry of the first
record has version 0, and the replay of a hint segment skips it: after a
restart the key would be absent again. -/
theorem getset_example_versions_off_by_one :
    (emptyBucket.collisons.get (demoKey [7]).KeyHash (demoKey [7]).StringKey = none ∧
      emptyBucket.htree.slots (demoKey [7]).KeyHash = none) ∧
    ((emptyBucket.getset demoEnv (demoKey [7]) (demoPayload 0 [1])).1.get (demoKey [7]) false).2.1.map
      (fun p => (p.Value, p.Ver)) = some ([1], 0) ∧
    checkVer 0 0 = (1, true) ∧
    ((((emptyBucket.getset demoEnv (demoKey [7]) (demoPayload 0 [1])).1.getset demoEnv
        (demoKey [7]) (demoPayload 0 [2])).1.get (demoKey [7]) false).2.1.map
          (fun p => (p.Value, p.Ver)) = some ([2], 1)) ∧
    (((((emptyBucket.getset demoEnv (demoKey [7]) (demoPayload 0 [1])).1.getset demoEnv
        (demoKey [7]) (demoPayload 0 [2])).1.getset demoEnv
          (demoKey [7]) (demoPayload (-1) [])).1.get (demoKey [7]) true).2.1.map
            (fun p => p.Ver) = some (-2)) ∧
    (emptyBucket.getset demoEnv (demoKey [7]) (demoPayload 0 [1])).1.hints.getItem 7 [7] false =
      (some ⟨7, 0, 0, 1, [7]⟩, 0, none) ∧
    (emptyBucket.updateHtreeFromHint 0 ⟨256, [⟨7, 0, 0, 1, [7]⟩], none⟩).1.htree.slots 7 = none := by
  decide

/-- What the failing input of C2 shows holds for every absent key: with a key
absent from the hash-tree and the collision table and a data log without I/O
failures, `getset` with version 0 twice and a full `get` return the second value
with version 1, and a further `getset` with version -1 and a meta-only `get`
report version -2, because the first write is stored with version 0. -/
theorem getset_example_versions (E : Env) (b : Bucket) (ki : KeyInfo) (pa pb pc : Payload)
    (hc : b.collisons.get ki.KeyHash ki.StringKey = none)
    (ht : b.htree.slots ki.KeyHash = none)
    (hio : ∀ op, b.datas.fault op = none)
    (ha : pa.Ver = 0) (hb : pb.Ver = 0) (hcv : pc.Ver = -1) :
    (∃ p pos, ((b.getset E ki pa).1.getset E ki pb).1.get ki false =
        (((b.getset E ki pa).1.getset E ki pb).1, some p, pos, none) ∧
        p.Value = pb.Value ∧ p.Ver = 1) ∧
    (∃ p pos, (((b.getset E ki pa).1.getset E ki pb).1.getset E ki pc).1.get ki true =
        ((((b.getset E ki pa).1.getset E ki pb).1.getset E ki pc).1, some p, pos, none) ∧
        p.Ver = -2) := by
  -- first write: the key is absent, the payload is stored with its own version
  have h1 : b.getset E ki pa = ((b.set E ki pa).1, none) :=
    getset_absent E b ki pa (by rw [get_absent b ki true hc ht])
  obtain ⟨pos1, w1⟩ := set_written E b ki pa hc hio
  rw [h1]
  -- second write: stored version 0, requested 0
  have g1 := get_written_mem _ ki _ pos1 w1
  have h2 := getset_present E (b.set E ki pa).1 ki pb _ (by rw [g1])
  have e2 : checkVer 0 0 = (1, true) := by decide
  simp only [Payload.CalcValueHash, ha, hb, e2] at h2
  simp only [gt_iff_lt, Bool.true_eq_false, if_false] at h2
  rw [if_neg (by intro hh; exact absurd hh.1 (by decide))] at h2
  obtain ⟨pos2, w2⟩ := set_written E (b.set E ki pa).1 ki { pb with Ver := 1 } w1.1 w1.2.2.1
  rw [h2]
  refine ⟨⟨_, pos2, get_written_full _ ki _ pos2 w2, rfl, rfl⟩, ?_⟩
  -- third write: stored version 1, requested -1
  have g2 := get_written_mem _ ki _ pos2 w2
  have h3 := getset_present E ((b.set E ki pa).1.set E ki { pb with Ver := 1 }).1 ki pc _
    (by rw [g2])
  have e3 : checkVer 1 (-1) = (-2, true) := by decide
  simp only [Payload.CalcValueHash, hcv, e3] at h3
  simp only [gt_iff_lt, Bool.true_eq_false, if_false] at h3
  rw [if_neg (by intro hh; exact absurd hh.1 (by decide))] at h3
  obtain ⟨pos3, w3⟩ := set_written E ((b.set E ki pa).1.set E ki { pb with Ver := 1 }).1 ki
    { pc with Ver := -2 } w2.1 w2.2.2.1
  rw [h3]
  exact ⟨_, pos3, get_written_mem _ ki _ pos3 w3, rfl⟩


/-! ### C3: version magnitudes -/

/-- A meta-only read that reports the version of `q` returns some payload with
that version. -/
theorem PresentWith.mem {b : Bucket} {ki : KeyInfo} {q : Payload} {pos : Position}
    (h : PresentWith b ki q pos) : ∃ m, (b.get ki true).2.1 = some m ∧ m.Ver = q.Ver := by
  obtain ⟨_, hs⟩ := h
  cases hm : (b.get ki true).2.1 with
  | none => rw [hm] at hs; simp at hs
  | some m =>
    rw [hm] at hs
    simp only [Option.map_some', Option.some.injEq] at hs
    exact ⟨m, rfl, hs⟩

/-- C3 (counterexample): three runs in which a magnitude goes backwards or stays
where a write should raise it.  (a) The key `[7]` is stored with version
`-2^31`; `getset` with the explicit version 1 is written and a full read
reports magnitude 1 after `2^31`.  (b) In `shadowedBucket` a full read of
`[1, 2]` reports version 9, while the meta-only read that `getset` consults
reports version 2, that of the colliding key `[2, 1]` in the hash-tree slot;
`getset` with the explicit version 5 is written and a full read reports 5 after
9.  (c) In `disambiguatedBucket` the key `[1, 2]` has a collision-table entry
and is stored with version 1; `getset` with version 9 appends a record of
version 9, and a full read still reports version 1, through the entry that
`set` does not update. -/
theorem getset_magnitude_goes_backwards :
    ((minVerBucket.get (demoKey [7]) false).2.1.map (fun p => p.Ver) = some (-2147483648) ∧
      ((minVerBucket.getset demoEnv (demoKey [7]) (demoPayload 1 [2])).1.get (demoKey [7])
        false).2.1.map (fun p => p.Ver) = some 1 ∧
      Int.natAbs 1 < Int.natAbs (-2147483648)) ∧
    ((shadowedBucket.get (demoKey [1, 2]) false).2.1.map (fun p => p.Ver) = some 9 ∧
      (shadowedBucket.get (demoKey [1, 2]) true).2.1.map (fun p => p.Ver) = some 2 ∧
      ((shadowedBucket.getset demoEnv (demoKey [1, 2]) (demoPayload 5 [50])).1.get
        (demoKey [1, 2]) false).2.1.map (fun p => p.Ver) = some 5) ∧
    ((disambiguatedBucket.collisons.get 3 [1, 2]).map (fun it => (it.Ver, decodePos it.Pos)) =
        some (1, ⟨0, 0⟩) ∧
      (disambiguatedBucket.get (demoKey [1, 2]) false).2.1.map (fun p => p.Ver) = some 1 ∧
      (disambiguatedBucket.get (demoKey [1, 2]) true).2.1.map (fun p => p.Ver) = some 1 ∧
      ((disambiguatedBucket.getset demoEnv (demoKey [1, 2]) (demoPayload 9 [11])).1.datas.files
        1).map (fun s => (s.offset, s.record.Key, s.record.Payload.Ver)) = [(0, [1, 2], 9)] ∧
      ((disambiguatedBucket.getset demoEnv (demoKey [1, 2]) (demoPayload 9 [11])).1.get
        (demoKey [1, 2]) false).2.1.map (fun p => p.Ver) = some 1) := by
  decide

/-- C3 (amended): let the key be present with stored payload `q` (a full read
returns it), let the meta-only read report the version of `q`, let the key have
no collision-table entry, let the versions be `int32` values and that of `q`
not `-2^31`, and let the reads of the data log meet no I/O failure.  Then
`getset` returns no error, a full read after the call returns a payload whose
version has a magnitude at least that of `q`, and either the bucket is left as
it was or the magnitude is strictly greater. -/
theorem getset_magnitude_monotone (E : Env) (b : Bucket) (ki : KeyInfo) (v q : Payload)
    (pos : Position) (h : PresentWith b ki q pos)
    (hc : b.collisons.get ki.KeyHash ki.StringKey = none)
    (ho : isInt32 q.Ver) (hmin : q.Ver ≠ -2147483648) (hr : isInt32 v.Ver)
    (hread : ∀ c o, b.datas.fault (IOp.readAt c o) = none) :
    (b.getset E ki v).2 = none ∧
    ∃ q1 pos1, ((b.getset E ki v).1.get ki false).2 = (some q1, pos1, none) ∧
      Int.natAbs q.Ver ≤ Int.natAbs q1.Ver ∧
      ((b.getset E ki v).1 = b ∨ Int.natAbs q.Ver < Int.natAbs q1.Ver) := by
  obtain ⟨m, hm, hmv⟩ := h.mem
  have hfull := h.1
  rw [getset_present E b ki v m hm, hmv]
  by_cases hv : (checkVer q.Ver v.Ver).2 = false
  · rw [if_pos hv]
    exact ⟨rfl, q, pos, hfull, le_refl _, Or.inl rfl⟩
  · rw [if_neg hv]
    by_cases hd : m.Ver > 1 ∧ E.Getvhash v.Value = m.ValueHash
    · rw [hmv] at hd
      rw [if_pos hd]
      exact ⟨rfl, q, pos, hfull, le_refl _, Or.inl rfl⟩
    · rw [hmv] at hd
      rw [if_neg hd]
      have hacc : (checkVer q.Ver v.Ver).2 = true := by
        cases hx : (checkVer q.Ver v.Ver).2
        · exact absurd hx hv
        · rfl
      have hmag := checkVer_magnitude q.Ver v.Ver ho hmin hr hacc
      refine ⟨rfl, ?_⟩
      rcases hap : b.datas.AppendRecord E
          ⟨ki.Key, ({ v with Ver := (checkVer q.Ver v.Ver).1 } : Payload).CalcValueHash E⟩
        with ⟨ds, pos1, _ | err⟩
      · have hg := get_after_set E b ki { v with Ver := (checkVer q.Ver v.Ver).1 } ds pos1 hc hap
          (hread _ _)
        refine ⟨({ v with Ver := (checkVer q.Ver v.Ver).1 } : Payload).CalcValueHash E, pos1,
          ?_, ?_, Or.inr ?_⟩
        · show ((b.set E ki { v with Ver := (checkVer q.Ver v.Ver).1 }).1.get ki false).2 = _
          rw [hg]
        · exact le_of_lt hmag
        · exact hmag
      · have hs := set_error E b ki { v with Ver := (checkVer q.Ver v.Ver).1 } ds pos1 err hap
        refine ⟨q, pos, ?_, le_refl _, Or.inl ?_⟩
        · show ((b.set E ki { v with Ver := (checkVer q.Ver v.Ver).1 }).1.get ki false).2 = _
          rw [hs]
          exact hfull
        · show (b.set E ki { v with Ver := (checkVer q.Ver v.Ver).1 }).1 = b
          rw [hs]

/-- C3 (witness): the key `[7]` stored as a tombstone of version -5, rewritten
with version 0. -/
theorem getset_magnitude_monotone_witness :
    PresentWith tombstoneBucket (demoKey [7]) ((demoPayload (-5) [1]).CalcValueHash demoEnv)
      ⟨0, 0⟩ ∧
    (tombstoneBucket.getset demoEnv (demoKey [7]) (demoPayload 0 [3])).2 = none ∧
    ∃ q1 pos1, ((tombstoneBucket.getset demoEnv (demoKey [7]) (demoPayload 0 [3])).1.get
        (demoKey [7]) false).2 = (some q1, pos1, none) ∧
      Int.natAbs ((demoPayload (-5) [1]).CalcValueHash demoEnv).Ver ≤ Int.natAbs q1.Ver ∧
      ((tombstoneBucket.getset demoEnv (demoKey [7]) (demoPayload 0 [3])).1 = tombstoneBucket ∨
        Int.natAbs ((demoPayload (-5) [1]).CalcValueHash demoEnv).Ver < Int.natAbs q1.Ver) :=
  ⟨⟨by decide, by decide⟩,
    getset_magnitude_monotone demoEnv tombstoneBucket (demoKey [7]) (demoPayload 0 [3])
      ((demoPayload (-5) [1]).CalcValueHash demoEnv) ⟨0, 0⟩ ⟨by decide, by decide⟩ (by decide)
      (by decide) (by decide) (by decide) (fun _ _ => rfl)⟩

/-! ### C4: stale explicit writes -/

/-- C4 (counterexample): two stale explicit writes that are applied.  (a) The key
`[7]` is stored with version `-2^31`; the explicit version 1 satisfies
`|1| ≤ |-2^31|`, yet `getset` appends a record and moves the hash-tree slot.
(b) In `shadowedBucket` the key `[1, 2]` is stored with version 9, while the
meta-only read that `getset` consults reports version 2, that of the colliding
key `[2, 1]`; the explicit version 5 satisfies `|5| ≤ |9|`, yet `getset` appends
a record and moves the hash-tree slot. -/
theorem getset_stale_write_applied :
    ((minVerBucket.get (demoKey [7]) false).2.1.map (fun p => p.Ver) = some (-2147483648) ∧
      Int.natAbs 1 ≤ Int.natAbs (-2147483648) ∧
      (minVerBucket.datas.files 0).length = 1 ∧
      ((minVerBucket.getset demoEnv (demoKey [7]) (demoPayload 1 [2])).1.datas.files 0).length
        = 2 ∧
      minVerBucket.htree.get (demoKey [7]) = (⟨-2147483648, 1⟩, ⟨0, 0⟩, true) ∧
      (minVerBucket.getset demoEnv (demoKey [7]) (demoPayload 1 [2])).1.htree.get (demoKey [7]) =
        (⟨1, 2⟩, ⟨0, 256⟩, true)) ∧
    ((shadowedBucket.get (demoKey [1, 2]) false).2.1.map (fun p => p.Ver) = some 9 ∧
      (shadowedBucket.get (demoKey [1, 2]) true).2.1.map (fun p => p.Ver) = some 2 ∧
      Int.natAbs 5 ≤ Int.natAbs 9 ∧
      shadowedBucket.datas.files 1 = [] ∧
      ((shadowedBucket.getset demoEnv (demoKey [1, 2]) (demoPayload 5 [50])).1.datas.files 1).map
        (fun s => (s.offset, s.record.Key, s.record.Payload.Ver)) = [(0, [1, 2], 5)] ∧
      shadowedBucket.htree.get (demoKey [1, 2]) = (⟨2, 20⟩, ⟨0, 256⟩, true) ∧
      (shadowedBucket.getset demoEnv (demoKey [1, 2]) (demoPayload 5 [50])).1.htree.get
        (demoKey [1, 2]) = (⟨5, 50⟩, ⟨1, 0⟩, true)) := by
  decide

/-- C4 (amended): let the key be present with stored payload `q` (a full read
returns it) of an `int32` version `old` other than `-2^31`, and let the
meta-only read report that version.  Then a `getset` with an `int32` version
`req > 0` and `|req| ≤ |old|` returns no error and leaves the whole bucket (data
log, hash-tree, hint subsystem, collision table) unchanged, so that a full read
still returns `q`. -/
theorem getset_stale_noop (E : Env) (b : Bucket) (ki : KeyInfo) (v q : Payload) (pos : Position)
    (h : PresentWith b ki q pos)
    (ho : isInt32 q.Ver) (hmin : q.Ver ≠ -2147483648) (hr : isInt32 v.Ver)
    (hpos : 0 < v.Ver) (hle : Int.natAbs v.Ver ≤ Int.natAbs q.Ver) :
    b.getset E ki v = (b, none) ∧
    ((b.getset E ki v).1.get ki false).2 = (some q, pos, none) := by
  obtain ⟨m, hm, hmv⟩ := h.mem
  have e : b.getset E ki v = (b, none) := by
    rw [getset_present E b ki v m hm, hmv,
      if_pos (checkVer_stale q.Ver v.Ver ho hmin hr hpos hle)]
  rw [e]
  exact ⟨rfl, h.1⟩

/-- C4 (witness): the tombstone of version -5 and the explicit version 3. -/
theorem getset_stale_noop_witness :
    PresentWith tombstoneBucket (demoKey [7]) ((demoPayload (-5) [1]).CalcValueHash demoEnv)
      ⟨0, 0⟩ ∧
    tombstoneBucket.getset demoEnv (demoKey [7]) (demoPayload 3 [9]) = (tombstoneBucket, none) ∧
    ((tombstoneBucket.getset demoEnv (demoKey [7]) (demoPayload 3 [9])).1.get (demoKey [7])
      false).2 = (some ((demoPayload (-5) [1]).CalcValueHash demoEnv), ⟨0, 0⟩, none) :=
  ⟨⟨by decide, by decide⟩,
    getset_stale_noop demoEnv tombstoneBucket (demoKey [7]) (demoPayload 3 [9])
      ((demoPayload (-5) [1]).CalcValueHash demoEnv) ⟨0, 0⟩ ⟨by decide, by decide⟩ (by decide)
      (by decide) (by decide) (by decide) (by decide)⟩

/-! ### C5: the duplicate-content skip -/

/-- C5 (counterexample): two accepted writes that the duplicate rule of the claim
decides the other way.  (a) The key `[7]` is a tombstone of version -5
(magnitude above 1) with value hash 1; a `getset` with version 0 and a value of
the same hash is written: a record is appended and the slot moves.  (b) In
`shadowedBucket` the key `[1, 2]` is stored with version 9 and value hash 10,
while the meta-only read that `getset` consults reports version 2 and value
hash 20, those of the colliding key `[2, 1]`; a `getset` with version 0 and a
value of hash 20, which differs from the stored hash 10, is skipped: no record
is appended and the slot stays. -/
theorem getset_duplicate_rule_fails :
    ((tombstoneBucket.get (demoKey [7]) false).2.1.map (fun p => (p.Ver, p.ValueHash)) =
        some (-5, 1) ∧
      demoEnv.Getvhash (demoPayload 0 [1]).Value = 1 ∧
      checkVer (-5) 0 = (6, true) ∧
      (tombstoneBucket.datas.files 0).length = 1 ∧
      ((tombstoneBucket.getset demoEnv (demoKey [7]) (demoPayload 0 [1])).1.datas.files 0).length
        = 2 ∧
      (tombstoneBucket.getset demoEnv (demoKey [7]) (demoPayload 0 [1])).1.htree.get
        (demoKey [7]) = (⟨6, 1⟩, ⟨0, 256⟩, true)) ∧
    ((shadowedBucket.get (demoKey [1, 2]) false).2.1.map (fun p => (p.Ver, p.ValueHash)) =
        some (9, 10) ∧
      (shadowedBucket.get (demoKey [1, 2]) true).2.1.map (fun p => (p.Ver, p.ValueHash)) =
        some (2, 20) ∧
      demoEnv.Getvhash (demoPayload 0 [20]).Value = 20 ∧
      checkVer 9 0 = (10, true) ∧ checkVer 2 0 = (3, true) ∧
      (shadowedBucket.getset demoEnv (demoKey [1, 2]) (demoPayload 0 [20])).1.datas.files 1 =
        shadowedBucket.datas.files 1 ∧
      (shadowedBucket.getset demoEnv (demoKey [1, 2]) (demoPayload 0 [20])).1.htree.get
        (demoKey [1, 2]) = shadowedBucket.htree.get (demoKey [1, 2]) ∧
      ((shadowedBucket.getset demoEnv (demoKey [1, 2]) (demoPayload 0 [20])).1.get
        (demoKey [1, 2]) false).2.1.map (fun p => (p.Ver, p.Value)) = some (9, [10])) := by
  decide

/-- C5 (amended): let the key be present with stored payload `q` (a full read
returns it) of version `old` and value hash `h`, let the meta-only read report
that version and that value hash, and let `checkVer` accept the `getset`.  If
`old > 1` (a live version above 1, not a magnitude) and the hash of the new
value equals `h`, `getset` returns success and leaves the bucket unchanged; in
every other accepted case, including every tombstone, it performs `set` with the
reconciled version and returns success. -/
theorem getset_duplicate_skip (E : Env) (b : Bucket) (ki : KeyInfo) (v q : Payload)
    (pos : Position) (h : PresentWith b ki q pos)
    (hh : (b.get ki true).2.1.map (fun m => m.ValueHash) = some q.ValueHash)
    (hacc : (checkVer q.Ver v.Ver).2 = true) :
    (q.Ver > 1 ∧ E.Getvhash v.Value = q.ValueHash → b.getset E ki v = (b, none)) ∧
    (¬ (q.Ver > 1 ∧ E.Getvhash v.Value = q.ValueHash) →
      b.getset E ki v = ((b.set E ki { v with Ver := (checkVer q.Ver v.Ver).1 }).1, none)) := by
  obtain ⟨m, hm, hmv⟩ := h.mem
  have hmh : m.ValueHash = q.ValueHash := by
    rw [hm] at hh
    simp only [Option.map_some', Option.some.injEq] at hh
    exact hh
  have e := getset_present E b ki v m hm
  rw [hmv, hmh, if_neg (by rw [hacc]; decide)] at e
  refine ⟨?_, ?_⟩
  · intro hd
    rw [e, if_pos hd]
  · intro hd
    rw [e, if_neg hd]

/-- C5 (witness): the key `[7]` stored live with version 2 and resubmitted with
the same value, which is skipped, and the tombstone of version -5 rewritten
with a value of the stored hash, which is written. -/
theorem getset_duplicate_skip_witness :
    (PresentWith liveBucket (demoKey [7]) ((demoPayload 2 [1]).CalcValueHash demoEnv) ⟨0, 0⟩ ∧
      liveBucket.getset demoEnv (demoKey [7]) (demoPayload 0 [1]) = (liveBucket, none)) ∧
    (PresentWith tombstoneBucket (demoKey [7]) ((demoPayload (-5) [1]).CalcValueHash demoEnv)
        ⟨0, 0⟩ ∧
      tombstoneBucket.getset demoEnv (demoKey [7]) (demoPayload 0 [1]) =
        ((tombstoneBucket.set demoEnv (demoKey [7])
          { demoPayload 0 [1] with
            Ver := (checkVer ((demoPayload (-5) [1]).CalcValueHash demoEnv).Ver
              (demoPayload 0 [1]).Ver).1 }).1, none)) :=
  ⟨⟨⟨by decide, by decide⟩,
      (getset_duplicate_skip demoEnv liveBucket (demoKey [7]) (demoPayload 0 [1])
        ((demoPayload 2 [1]).CalcValueHash demoEnv) ⟨0, 0⟩ ⟨by decide, by decide⟩ (by decide)
        (by decide)).1 (by decide)⟩,
    ⟨⟨by decide, by decide⟩,
      (getset_duplicate_skip demoEnv tombstoneBucket (demoKey [7]) (demoPayload 0 [1])
        ((demoPayload (-5) [1]).CalcValueHash demoEnv) ⟨0, 0⟩ ⟨by decide, by decide⟩ (by decide)
        (by decide)).2 (by decide)⟩⟩


/-! ### C6: write/read round trip -/

/-- C6 (the code at the failing input): the collision table of
`disambiguatedBucket` holds the key `[1, 2]` at chunk 0, offset 0, where its
record of version 1 lies.  `set` of a new payload appends the record at chunk
1, offset 0 and moves the hash-tree slot there, but it leaves the collision
table as it is, and the `get` that follows reads through the entry: it returns
value `[10]`, version 1 from offset 0 of chunk 0 instead of value `[11]`,
version 2 from the position at which `set` appended the record. -/
theorem set_get_reads_stale_collision_entry :
    (disambiguatedBucket.collisons.get 3 [1, 2]).map (fun it => decodePos it.Pos) =
      some ⟨0, 0⟩ ∧
    (disambiguatedBucket.datas.AppendRecord demoEnv
      ⟨[1, 2], (demoPayload 2 [11]).CalcValueHash demoEnv⟩).2 = (⟨1, 0⟩, none) ∧
    (disambiguatedBucket.set demoEnv (demoKey [1, 2]) (demoPayload 2 [11])).2 = none ∧
    (disambiguatedBucket.set demoEnv (demoKey [1, 2]) (demoPayload 2 [11])).1.htree.get
      (demoKey [1, 2]) = (⟨2, 11⟩, ⟨1, 0⟩, true) ∧
    ((disambiguatedBucket.set demoEnv (demoKey [1, 2]) (demoPayload 2 [11])).1.datas.GetRecordByPos
      ⟨1, 0⟩).1.map (fun r => (r.Key, r.Payload.Value, r.Payload.Ver)) = some ([1, 2], [11], 2) ∧
    ((disambiguatedBucket.set demoEnv (demoKey [1, 2]) (demoPayload 2 [11])).1.collisons.get 3
      [1, 2]).map (fun it => (it.Ver, decodePos it.Pos)) = some (1, ⟨0, 0⟩) ∧
    ((disambiguatedBucket.set demoEnv (demoKey [1, 2]) (demoPayload 2 [11])).1.get
      (demoKey [1, 2]) false).2 = (some (demoPayload 1 [10] |>.CalcValueHash demoEnv), ⟨0, 0⟩, none) := by
  decide

/-- Where the key has no collision-table entry the round trip holds: when the
append succeeds and the read of the appended position meets no I/O failure,
`set` followed by a full `get` returns a payload with the same value and
version, read from the position at which `set` appended the record. -/
theorem set_get_roundtrip (E : Env) (b : Bucket) (ki : KeyInfo) (v : Payload) (ds : dataStore)
    (pos : Position)
    (hc : b.collisons.get ki.KeyHash ki.StringKey = none)
    (happ : b.datas.AppendRecord E ⟨ki.Key, v.CalcValueHash E⟩ = (ds, pos, none))
    (hread : b.datas.fault (IOp.readAt pos.ChunkID pos.Offset) = none) :
    ∃ p, (b.set E ki v).1.get ki false = ((b.set E ki v).1, some p, pos, none) ∧
      p.Value = v.Value ∧ p.Ver = v.Ver :=
  ⟨v.CalcValueHash E, get_after_set E b ki v ds pos hc happ hread, rfl, rfl⟩


/-! ### C7: collision disambiguation in get -/

/-- C7 (the code at the failing input): in `collidingBucket` the slot of hash 3
points at chunk 0, offset 256, where the record of `[2, 1]` lies, and the hint
subsystem finds `[1, 2]` at chunk 0, offset 0.  A full `get` of `[1, 2]` returns
the record stored at offset 0 and enters `[1, 2]` at offset 0, but it enters
`[2, 1]` at offset 0 as well, not at offset 256 where its record was read. -/
theorem get_enters_other_key_at_query_position :
    collidingBucket.htree.get (demoKey [1, 2]) = (⟨1, 20⟩, ⟨0, 256⟩, true) ∧
    (collidingBucket.datas.GetRecordByPos ⟨0, 256⟩).1.map (fun r => r.Key) = some [2, 1] ∧
    collidingBucket.hints.getItem 3 [1, 2] false = (some ⟨3, 0, 1, 10, [1, 2]⟩, 0, none) ∧
    (collidingBucket.get (demoKey [1, 2]) false).2 =
      (some ((demoPayload 1 [10]).CalcValueHash demoEnv), ⟨0, 0⟩, none) ∧
    ((collidingBucket.get (demoKey [1, 2]) false).1.collisons.get 3 [1, 2]).map
      (fun it => decodePos it.Pos) = some ⟨0, 0⟩ ∧
    ((collidingBucket.get (demoKey [1, 2]) false).1.collisons.get 3 [2, 1]).map
      (fun it => (it.Ver, it.Vhash, decodePos it.Pos)) = some (1, 20, ⟨0, 0⟩) := by
  decide

/-! ### C8: relocation by gc -/

/-- C8 (the code at the failing input): `gc` over chunks `[1, 1]` of `fiveBucket`
returns without error and keeps the records of `[3]` and `[4]` in chunk 1 at
offsets 0 and 256, but moves their hash-tree slots to chunk 0 (`newPos.ChunkID`
is still 0, it is assigned only when the destination rolls over); the data log
holds the record of `[1]` at the position the slot of `[3]` now names. -/
theorem gc_from_chunk_one_points_slots_at_chunk_zero :
    fiveBucket.datas.newHead = 2 ∧
    fiveBucket.htree.get (demoKey [3]) = (⟨1, 30⟩, ⟨1, 0⟩, true) ∧
    (gc demoEnv fiveBucket 1 1).map (fun r => r.2) = some none ∧
    (gc demoEnv fiveBucket 1 1).map (fun r => r.1.GCHistory.map (fun g => (g.Begin, g.End, g.Dst)))
      = some [(1, 1, 1)] ∧
    (gc demoEnv fiveBucket 1 1).map
      (fun r => (r.1.datas.files 1).map (fun s => (s.offset, s.record.Key)))
      = some [(0, [3]), (256, [4])] ∧
    (gc demoEnv fiveBucket 1 1).map (fun r => r.1.htree.get (demoKey [3]))
      = some (⟨1, 30⟩, ⟨0, 0⟩, true) ∧
    (gc demoEnv fiveBucket 1 1).map (fun r => r.1.htree.get (demoKey [4]))
      = some (⟨1, 40⟩, ⟨0, 256⟩, true) ∧
    (gc demoEnv fiveBucket 1 1).map
      (fun r => (r.1.datas.GetRecordByPos ⟨0, 0⟩).1.map (fun x => x.Key)) = some (some [1]) := by
  decide

/-! ### C9: the liveness decision -/

/-- C9: `ShouldRetainRecord` decides `(retain, isCollision)` by the rule of the
specification: key not found in the hash-tree `(true, false)`; found at
`oldPos` `(true, false)`; found elsewhere, by the exact-key entry of the
collision table or else of the in-memory buffer: with a stored position
`(stored position == oldPos, true)`, without position information
`(true, true)`, no entry in either `(false, false)`. -/
theorem ShouldRetainRecord_follows_rule (E : Env) (b : Bucket) (rec : Record) (oldPos : Position) :
    ((ShouldRetainRecord E b rec oldPos).1, (ShouldRetainRecord E b rec oldPos).2.1) =
      retainRule ((b.htree.slots (E.getKeyHash rec.Key)).map (fun mp => mp.2))
        (exactEntry b (E.getKeyHash rec.Key) rec.Key) oldPos := by
  cases hs : b.htree.slots (E.getKeyHash rec.Key) with
  | none => simp [ShouldRetainRecord, retainRule, HTree.get, hs]
  | some mp =>
    obtain ⟨m, p⟩ := mp
    by_cases hp : p = oldPos
    · simp [ShouldRetainRecord, retainRule, HTree.get, hs, hp]
    · rcases hcol : b.hints.collisions (E.getKeyHash rec.Key) rec.Key with ⟨it, _ | _⟩
      · rcases hbuf : b.hints.getItemCollision (E.getKeyHash rec.Key) rec.Key with ⟨it2, _ | _⟩
        · simp [ShouldRetainRecord, retainRule, exactEntry, lookupEntry, HTree.get, hs, hp, hcol,
            hbuf]
        · cases it2 <;>
            simp [ShouldRetainRecord, retainRule, exactEntry, lookupEntry, HTree.get, hs, hp,
              hcol, hbuf]
      · cases it <;>
          simp [ShouldRetainRecord, retainRule, exactEntry, lookupEntry, HTree.get, hs, hp, hcol]

/-! ### C10: the guard of UpdateHtreePos -/

theorem UpdateHtreePos_present (b : Bucket) (ki : KeyInfo) (m : Meta) (p oldPos newPos : Position)
    (hs : b.htree.slots ki.KeyHash = some (m, p)) :
    UpdateHtreePos b ki oldPos newPos =
      if p = oldPos then { b with htree := b.htree.set ki m newPos } else b := by
  by_cases hp : p = oldPos <;> simp [UpdateHtreePos, HTree.get, hs, hp]

/-- C10 (the code at the failing input): the hash-tree of `emptyBucket` has no
slot for the key `[7]`; `UpdateHtreePos` with `oldPos = {0, 0}` compares the
zero position that `htree.get` leaves for a key it did not find, and creates a
slot with zero meta at `newPos`.  In `gc` over chunk 0 of `reopenedBucket` the
same happens to the tombstone at offset 0 whose key the tree does not hold. -/
theorem UpdateHtreePos_creates_slot_for_absent_key :
    emptyBucket.htree.get (demoKey [7]) = (⟨0, 0⟩, ⟨0, 0⟩, false) ∧
    (UpdateHtreePos emptyBucket (demoKey [7]) ⟨0, 0⟩ ⟨1, 256⟩).htree.get (demoKey [7]) =
      (⟨0, 0⟩, ⟨1, 256⟩, true) ∧
    reopenedBucket.htree.get (demoKey [7]) = (⟨0, 0⟩, ⟨0, 0⟩, false) ∧
    ShouldRetainRecord demoEnv reopenedBucket ⟨[7], demoPayload (-1) []⟩ ⟨0, 0⟩ =
      (true, false, false) ∧
    (gc demoEnv reopenedBucket 0 0).map (fun r => (r.2, r.1.htree.get (demoKey [7]))) =
      some (none, (⟨0, 0⟩, ⟨0, 0⟩, true)) := by
  decide


/-! ### The loops of gc: range fields and iteration bound -/

theorem gcRecord_Src_End (E : Env) (s : Slot) (st : GCRun) :
    (gcRecord E s st).1.gc.Src = st.gc.Src ∧ (gcRecord E s st).1.gc.End = st.gc.End := by
  unfold gcRecord
  simp only
  split
  · rename_i st1 err hroll
    split at hroll
    · split at hroll
      · simp only [Prod.mk.injEq] at hroll
        rw [← hroll.1]
        exact ⟨rfl, rfl⟩
      · simp at hroll
    · simp at hroll
  · rename_i st1 hroll
    have h1 : st1.gc.Src = st.gc.Src ∧ st1.gc.End = st.gc.End := by
      split at hroll
      · split at hroll
        · simp at hroll
        · simp only [Prod.mk.injEq, and_true] at hroll
          rw [← hroll]
          exact ⟨rfl, rfl⟩
      · simp only [Prod.mk.injEq, and_true] at hroll
        rw [← hroll]
        exact ⟨rfl, rfl⟩
    split
    · rename_i st2 err hk
      split at hk
      · split at hk
        · simp only [Prod.mk.injEq] at hk
          rw [← hk.1]
          exact h1
        · simp at hk
      · simp at hk
    · rename_i st2 hk
      have h2 : st2.gc.Src = st1.gc.Src ∧ st2.gc.End = st1.gc.End := by
        split at hk
        · split at hk
          · simp at hk
          · simp only [Prod.mk.injEq, and_true] at hk
            rw [← hk]
            exact ⟨rfl, rfl⟩
        · simp only [Prod.mk.injEq, and_true] at hk
          rw [← hk]
          exact ⟨rfl, rfl⟩
      exact ⟨h2.1.trans h1.1, h2.2.trans h1.2⟩

theorem gcRecords_Src_End (E : Env) (slots : List Slot) :
    ∀ (n : Nat) (st : GCRun), (gcRecords E slots n st).1.gc.Src = st.gc.Src ∧
      (gcRecords E slots n st).1.gc.End = st.gc.End := by
  induction slots with
  | nil =>
    intro n st
    unfold gcRecords
    split <;> exact ⟨rfl, rfl⟩
  | cons s rest ih =>
    intro n st
    unfold gcRecords
    split
    · exact ⟨rfl, rfl⟩
    · have h1 := gcRecord_Src_End E s st
      split
      · rename_i st1 err hr
        rw [hr] at h1
        exact h1
      · rename_i st1 hr
        rw [hr] at h1
        exact ⟨(ih _ _).1.trans h1.1, (ih _ _).2.trans h1.2⟩

theorem gcChunk_Src_End (E : Env) (st : GCRun) :
    (gcChunk E st).1.gc.Src = st.gc.Src ∧ (gcChunk E st).1.gc.End = st.gc.End := by
  unfold gcChunk
  simp only
  split
  · exact ⟨rfl, rfl⟩
  · split
    · exact ⟨rfl, rfl⟩
    · rename_i w hw
      split
      · rename_i st1 err hr
        have e1 := congrArg (fun x => x.1.gc.Src) hr
        have e2 := congrArg (fun x => x.1.gc.End) hr
        simp only at e1 e2
        constructor
        · rw [← e1]; exact (gcRecords_Src_End E _ _ _).1
        · rw [← e2]; exact (gcRecords_Src_End E _ _ _).2
      · rename_i st1 hr
        have e1 := congrArg (fun x => x.1.gc.Src) hr
        have e2 := congrArg (fun x => x.1.gc.End) hr
        simp only at e1 e2
        constructor
        · show st1.gc.Src = st.gc.Src
          rw [← e1]; exact (gcRecords_Src_End E _ _ _).1
        · show st1.gc.End = st.gc.End
          rw [← e2]; exact (gcRecords_Src_End E _ _ _).2

/-- The iteration bound of the outer loop is not felt: any two bounds of at
least `gc.End - gc.Src + 1` give the same run. -/
theorem gcChunks_fuel (E : Env) :
    ∀ (f1 f2 : Nat) (st : GCRun), (st.gc.End - st.gc.Src + 1).toNat ≤ f1 →
      (st.gc.End - st.gc.Src + 1).toNat ≤ f2 → gcChunks E f1 st = gcChunks E f2 st := by
  intro f1
  induction f1 with
  | zero =>
    intro f2 st h1 _
    have hgt : ¬ st.gc.Src ≤ st.gc.End := by omega
    cases f2 with
    | zero => rfl
    | succ f2 => simp only [gcChunks, if_neg hgt]
  | succ f1 ih =>
    intro f2 st h1 h2
    by_cases hle : st.gc.Src ≤ st.gc.End
    · cases f2 with
      | zero => omega
      | succ f2 =>
        simp only [gcChunks, if_pos hle]
        have hc := gcChunk_Src_End E st
        rcases hch : gcChunk E st with ⟨st1, _ | err⟩
        · rw [hch] at hc
          simp only at hc ⊢
          apply ih
          · simp only [hc.1, hc.2]; omega
          · simp only [hc.1, hc.2]; omega
        · rfl
    · cases f2 with
      | zero => simp only [gcChunks, if_neg hle]
      | succ f2 => simp only [gcChunks, if_neg hle]

/-- When no merge is running `gc` returns. -/
theorem gc_returns (E : Env) (bkt : Bucket) (startChunkID endChunkID : Int)
    (hm : (bkt.hints.state ||| E.HintStateGC) &&& E.HintStateMerge = 0) :
    ∃ r, gc E bkt startChunkID endChunkID = some r := by
  simp [gc, BeforeBucket, hm]

/-! ### C19: per-chunk statistics -/

theorem add_fields (s : GCFileState) (sz : Nat) (ret del : Bool) (br : Nat) :
    (s.add sz ret del br).NumBefore = s.NumBefore + 1 ∧
    (s.add sz ret del br).SizeBefore = (s.SizeBefore + (sz + br)) % 4294967296 ∧
    (s.add sz ret del br).NumReleased = s.NumReleased + (if ret then 0 else 1) ∧
    (s.add sz ret del br).SizeReleased =
      (s.SizeReleased + ((if ret then 0 else sz) + br)) % 4294967296 ∧
    (s.add sz ret del br).NumReleasedDeleted =
      s.NumReleasedDeleted + (if (!ret && del) then 1 else 0) ∧
    (s.add sz ret del br).SizeBroken = (s.SizeBroken + br) % 4294967296 := by
  cases ret <;> cases del <;> simp [GCFileState.add, wrapU32] <;> omega

theorem addAll_fields (calls : List AddCall) :
    ∀ s : GCFileState, s.SizeBefore < 4294967296 → s.SizeReleased < 4294967296 →
      s.SizeBroken < 4294967296 →
      (s.addAll calls).NumBefore = s.NumBefore + (calls.length : Int) ∧
      (s.addAll calls).SizeBefore =
        (s.SizeBefore + (calls.map (fun c => c.size + c.sizeBroken)).sum) % 4294967296 ∧
      (s.addAll calls).NumReleased =
        s.NumReleased + ((calls.filter (fun c => !c.isRetained)).length : Int) ∧
      (s.addAll calls).SizeReleased =
        (s.SizeReleased + (((calls.filter (fun c => !c.isRetained)).map (fun c => c.size)).sum +
          (calls.map (fun c => c.sizeBroken)).sum)) % 4294967296 ∧
      (s.addAll calls).NumReleasedDeleted =
        s.NumReleasedDeleted +
          ((calls.filter (fun c => !c.isRetained && c.isDeleted)).length : Int) ∧
      (s.addAll calls).SizeBroken =
        (s.SizeBroken + (calls.map (fun c => c.sizeBroken)).sum) % 4294967296 := by
  induction calls with
  | nil =>
    intro s h1 h2 h3
    have e : s.addAll [] = s := rfl
    rw [e]
    simp only [List.length_nil, List.map_nil, List.sum_nil, List.filter_nil, Nat.cast_zero,
      add_zero, Nat.add_zero]
    refine ⟨trivial, ?_, trivial, ?_, trivial, ?_⟩ <;> omega
  | cons c rest ih =>
    intro s h1 h2 h3
    obtain ⟨sz, ret, del, br⟩ := c
    have hstep : s.addAll (⟨sz, ret, del, br⟩ :: rest) = (s.add sz ret del br).addAll rest := rfl
    rw [hstep]
    obtain ⟨a1, a2, a3, a4, a5, a6⟩ := add_fields s sz ret del br
    obtain ⟨i1, i2, i3, i4, i5, i6⟩ := ih (s.add sz ret del br)
      (by rw [a2]; exact Nat.mod_lt _ (by decide)) (by rw [a4]; exact Nat.mod_lt _ (by decide))
      (by rw [a6]; exact Nat.mod_lt _ (by decide))
    rw [i1, i2, i3, i4, i5, i6, a1, a2, a3, a4, a5, a6]
    cases ret <;> cases del <;>
    · simp only [List.length_cons, List.map_cons, List.sum_cons, List.filter_cons,
        Bool.not_true, Bool.not_false, Bool.false_and, Bool.true_and, Bool.false_eq_true,
        if_false, if_true, Nat.cast_add, Nat.cast_one]
      refine ⟨?_, ?_, ?_, ?_, ?_, ?_⟩ <;> omega

/-- C19: starting from the zero `GCFileState`, a sequence of `add` calls leaves
`NumBefore` = number of calls, `SizeBefore` = sum of `size + sizeBroken`,
`NumReleased` = number of non-retained calls, `SizeReleased` = sum of the sizes
of the non-retained calls plus all broken sizes, `NumReleasedDeleted` = number
of non-retained deleted calls, `SizeBroken` = sum of the broken sizes (sizes
modulo `2^32`), and `NumReleasedDeleted ≤ NumReleased ≤ NumBefore`. -/
theorem addAll_statistics (calls : List AddCall) :
    (GCFileState.zero.addAll calls).NumBefore = (calls.length : Int) ∧
    (GCFileState.zero.addAll calls).SizeBefore =
      (calls.map (fun c => c.size + c.sizeBroken)).sum % 4294967296 ∧
    (GCFileState.zero.addAll calls).NumReleased =
      ((calls.filter (fun c => !c.isRetained)).length : Int) ∧
    (GCFileState.zero.addAll calls).SizeReleased =
      (((calls.filter (fun c => !c.isRetained)).map (fun c => c.size)).sum +
        (calls.map (fun c => c.sizeBroken)).sum) % 4294967296 ∧
    (GCFileState.zero.addAll calls).NumReleasedDeleted =
      ((calls.filter (fun c => !c.isRetained && c.isDeleted)).length : Int) ∧
    (GCFileState.zero.addAll calls).SizeBroken =
      (calls.map (fun c => c.sizeBroken)).sum % 4294967296 ∧
    (GCFileState.zero.addAll calls).NumReleasedDeleted ≤
      (GCFileState.zero.addAll calls).NumReleased ∧
    (GCFileState.zero.addAll calls).NumReleased ≤ (GCFileState.zero.addAll calls).NumBefore := by
  obtain ⟨i1, i2, i3, i4, i5, i6⟩ :=
    addAll_fields calls GCFileState.zero (by decide) (by decide) (by decide)
  have z1 : GCFileState.zero.NumBefore = 0 := rfl
  have z2 : GCFileState.zero.SizeBefore = 0 := rfl
  have z3 : GCFileState.zero.NumReleased = 0 := rfl
  have z4 : GCFileState.zero.SizeReleased = 0 := rfl
  have z5 : GCFileState.zero.NumReleasedDeleted = 0 := rfl
  have z6 : GCFileState.zero.SizeBroken = 0 := rfl
  rw [z1, zero_add] at i1
  rw [z2, Nat.zero_add] at i2
  rw [z3, zero_add] at i3
  rw [z4, Nat.zero_add] at i4
  rw [z5, zero_add] at i5
  rw [z6, Nat.zero_add] at i6
  refine ⟨i1, i2, i3, i4, i5, i6, ?_, ?_⟩
  · rw [i5, i3]
    have hsub : (calls.filter (fun c => !c.isRetained && c.isDeleted)).length ≤
        (calls.filter (fun c => !c.isRetained)).length := by
      apply List.Sublist.length_le
      apply List.monotone_filter_right
      intro c hc
      simp only [Bool.and_eq_true] at hc
      exact hc.1
    exact_mod_cast hsub
  · rw [i3, i1]
    exact_mod_cast List.length_filter_le _ _


/-! ### C17: hint replay -/

theorem updateHtreeLoop_eq_foldl (c : Int) (items : List HintItem) :
    ∀ tree : HTree, updateHtreeLoop c items tree =
      (items.filter (fun it => decide (it.Ver > 0))).foldl
        (fun t it => t.set (NewKeyInfoFromBytes it.Key it.Keyhash false) ⟨it.Ver, it.Vhash⟩
          ⟨c, it.Pos⟩) tree := by
  induction items with
  | nil => intro tree; rfl
  | cons it rest ih =>
    intro tree
    by_cases hv : it.Ver > 0
    · simp only [updateHtreeLoop, if_pos hv, List.filter_cons, decide_eq_true hv, if_true,
        List.foldl_cons]
      exact ih _
    · simp only [updateHtreeLoop, if_neg hv, List.filter_cons, decide_eq_false hv,
        Bool.false_eq_true, if_false]
      exact ih _

/-- C17: `updateHtreeFromHint` on a hint segment of chunk `c` leaves the
hash-tree equal to the fold, in file order, of `set` over the entries with
version > 0, each set to (version, value hash, position `{c, entry offset}`)
under its key; entries with version ≤ 0 are skipped, nothing else in the bucket
changes, and the maximal offset and the reader's error are returned. -/
theorem updateHtreeFromHint_is_fold_of_live_entries (bkt : Bucket) (c : Int) (file : hintFile) :
    (bkt.updateHtreeFromHint c file).1.htree =
      (file.items.filter (fun it => decide (it.Ver > 0))).foldl
        (fun t it => t.set (NewKeyInfoFromBytes it.Key it.Keyhash false) ⟨it.Ver, it.Vhash⟩
          ⟨c, it.Pos⟩) bkt.htree ∧
    (bkt.updateHtreeFromHint c file).1 =
      { bkt with htree := (bkt.updateHtreeFromHint c file).1.htree } ∧
    (bkt.updateHtreeFromHint c file).2 = (file.maxOffset, file.err) :=
  ⟨updateHtreeLoop_eq_foldl c file.items bkt.htree, rfl, rfl⟩

/-! ### C18: the tombstone flag of the liveness decision -/

/-- C18 (counterexample): the key `[7]` is stored with version 0 and the
hash-tree points at its record (chunk 0, offset 0); `ShouldRetainRecord`
decides on that version and reports `isDeleted = false`, although 0 is
non-positive. -/
theorem ShouldRetainRecord_version_zero_not_deleted :
    zeroVerBucket.htree.get (demoKey [7]) = (⟨0, 1⟩, ⟨0, 0⟩, true) ∧
    ShouldRetainRecord demoEnv zeroVerBucket ⟨[7], demoPayload 0 [1]⟩ ⟨0, 0⟩ =
      (true, false, false) ∧
    tombstoneRule (fun v => decide (v ≤ 0))
      ((zeroVerBucket.htree.slots (demoEnv.getKeyHash [7])).map (fun mp => (mp.1.Ver, mp.2)))
      (exactVersioned zeroVerBucket (demoEnv.getKeyHash [7]) [7]) ⟨0, 0⟩ = true := by
  decide

/-- C18 (amended): the `isDeleted` result of `ShouldRetainRecord` is true exactly
when the stored version it decides on is negative (`v < 0`): the hash-tree meta
when the tree position equals the original position of the record, the
exact-key entry when one with a stored position is found; it is false in the
not-found, no-position and no-entry cases. -/
theorem ShouldRetainRecord_deleted_iff_negative (E : Env) (b : Bucket) (rec : Record)
    (oldPos : Position) :
    (ShouldRetainRecord E b rec oldPos).2.2 =
      tombstoneRule (fun v => decide (v < 0))
        ((b.htree.slots (E.getKeyHash rec.Key)).map (fun mp => (mp.1.Ver, mp.2)))
        (exactVersioned b (E.getKeyHash rec.Key) rec.Key) oldPos := by
  cases hs : b.htree.slots (E.getKeyHash rec.Key) with
  | none => simp [ShouldRetainRecord, tombstoneRule, HTree.get, hs]
  | some mp =>
    obtain ⟨m, p⟩ := mp
    by_cases hp : p = oldPos
    · simp [ShouldRetainRecord, tombstoneRule, HTree.get, hs, hp]
    · rcases hcol : b.hints.collisions (E.getKeyHash rec.Key) rec.Key with ⟨it, _ | _⟩
      · rcases hbuf : b.hints.getItemCollision (E.getKeyHash rec.Key) rec.Key with ⟨it2, _ | _⟩
        · simp [ShouldRetainRecord, tombstoneRule, exactVersioned, lookupVersioned, HTree.get,
            hs, hp, hcol, hbuf]
        · cases it2 <;>
            simp [ShouldRetainRecord, tombstoneRule, exactVersioned, lookupVersioned, HTree.get,
              hs, hp, hcol, hbuf]
      · cases it <;>
          simp [ShouldRetainRecord, tombstoneRule, exactVersioned, lookupVersioned, HTree.get,
            hs, hp, hcol]


/-! ### One record of gc, step by step -/

theorem gcRecord_eq (E : Env) (s : Slot) (st : GCRun) :
    gcRecord E s st =
      match gcRoll E s st with
      | (st1, some err) => (st1, some err)
      | (st1, none) =>
        match gcKeep E s ⟨st.gc.Src, s.offset⟩
            (ShouldRetainRecord E st1.bkt s.record ⟨st.gc.Src, s.offset⟩).1
            (ShouldRetainRecord E st1.bkt s.record ⟨st.gc.Src, s.offset⟩).2.1 st1 with
        | (st2, some err) => (st2, some err)
        | (st2, none) =>
          ({ st2 with
              fileState :=
                st2.fileState.add (E.Sizes s.record)
                  (ShouldRetainRecord E st1.bkt s.record ⟨st.gc.Src, s.offset⟩).1
                  (ShouldRetainRecord E st1.bkt s.record ⟨st.gc.Src, s.offset⟩).2.2 s.broken },
            none) := by
  rfl

/-- The three outcomes of the roll-over step. -/
theorem gcRoll_cases (E : Env) (s : Slot) (st : GCRun) :
    (¬ wrapU32 (E.Sizes s.record + st.w.offset) > wrapU32 E.DataFileMax ∧
      gcRoll E s st = (st, none)) ∨
    (wrapU32 (E.Sizes s.record + st.w.offset) > wrapU32 E.DataFileMax ∧
      ∃ w, st.bkt.datas.GetStreamWriter (st.gc.Dst + 1) (decide (st.gc.Dst + 1 ≠ st.gc.Src)) =
          (w, none) ∧
        gcRoll E s st =
          ({ st with gc := { st.gc with Dst := st.gc.Dst + 1 },
                     newPos := { st.newPos with ChunkID := st.gc.Dst + 1 }, w := w }, none)) ∨
    (wrapU32 (E.Sizes s.record + st.w.offset) > wrapU32 E.DataFileMax ∧
      ∃ w err, st.bkt.datas.GetStreamWriter (st.gc.Dst + 1) (decide (st.gc.Dst + 1 ≠ st.gc.Src)) =
          (w, some err) ∧
        gcRoll E s st =
          ({ st with gc := { st.gc with Dst := st.gc.Dst + 1, Err := some err },
                     newPos := { st.newPos with ChunkID := st.gc.Dst + 1 }, w := w }, some err)) := by
  unfold gcRoll
  by_cases hc : wrapU32 (E.Sizes s.record + st.w.offset) > wrapU32 E.DataFileMax
  · rw [if_pos hc]
    rcases hw : st.bkt.datas.GetStreamWriter (st.gc.Dst + 1) (decide (st.gc.Dst + 1 ≠ st.gc.Src))
      with ⟨w, _ | err⟩
    · exact Or.inr (Or.inl ⟨hc, w, rfl, by simp only [hw]⟩)
    · exact Or.inr (Or.inr ⟨hc, w, err, rfl, by simp only [hw]⟩)
  · rw [if_neg hc]
    exact Or.inl ⟨hc, rfl⟩

/-- The three outcomes of the retain step. -/
theorem gcKeep_cases (E : Env) (s : Slot) (oldPos : Position) (isRetained isCollision : Bool)
    (st : GCRun) :
    (isRetained = false ∧ gcKeep E s oldPos isRetained isCollision st = (st, none)) ∨
    (isRetained = true ∧
      ∃ ds w off, st.w.Append E st.bkt.datas s.record = (ds, w, off, none) ∧
        gcKeep E s oldPos isRetained isCollision st =
          ({ st with
              bkt := if isCollision then
                  UpdateCollision { st.bkt with datas := ds }
                    (NewKeyInfoFromBytes s.record.Key (E.getKeyHash s.record.Key) false) oldPos
                    { st.newPos with Offset := off } s.record
                else
                  UpdateHtreePos { st.bkt with datas := ds }
                    (NewKeyInfoFromBytes s.record.Key (E.getKeyHash s.record.Key) false) oldPos
                    { st.newPos with Offset := off },
              w := w, newPos := { st.newPos with Offset := off } }, none)) ∨
    (isRetained = true ∧
      ∃ ds w off err, st.w.Append E st.bkt.datas s.record = (ds, w, off, some err) ∧
        gcKeep E s oldPos isRetained isCollision st =
          ({ st with gc := { st.gc with Err := some err } }, some err)) := by
  unfold gcKeep
  cases isRetained with
  | false => exact Or.inl ⟨rfl, by simp⟩
  | true =>
    rcases ha : st.w.Append E st.bkt.datas s.record with ⟨ds, w, off, _ | err⟩
    · exact Or.inr (Or.inl ⟨rfl, ds, w, off, rfl, by simp only [if_true, ha]⟩)
    · exact Or.inr (Or.inr ⟨rfl, ds, w, off, err, rfl, by simp only [if_true, ha]⟩)


/-! ### The audit entry along the loops of gc -/

theorem GCStep.refl (g : GCState) : GCStep g g none := ⟨rfl, rfl, rfl, rfl, rfl, rfl⟩

theorem GCStep.trans {g1 g2 g3 : GCState} {err : Option Error} (h1 : GCStep g1 g2 none)
    (h2 : GCStep g2 g3 err) : GCStep g1 g3 err := by
  obtain ⟨a1, a2, a3, a4, a5, a6⟩ := h1
  obtain ⟨b1, b2, b3, b4, b5, b6⟩ := h2
  refine ⟨b1.trans a1, b2.trans a2, b3.trans a3, b4.trans a4, b5.trans a5, ?_⟩
  cases err with
  | none => exact b6.trans a6
  | some e => exact b6

theorem gcRoll_step (E : Env) (s : Slot) (st : GCRun) :
    GCStep st.gc (gcRoll E s st).1.gc (gcRoll E s st).2 := by
  rcases gcRoll_cases E s st with ⟨_, h⟩ | ⟨_, w, _, h⟩ | ⟨_, w, err, _, h⟩ <;> rw [h] <;>
    exact ⟨rfl, rfl, rfl, rfl, rfl, rfl⟩

theorem gcKeep_step (E : Env) (s : Slot) (oldPos : Position) (r c : Bool) (st : GCRun) :
    GCStep st.gc (gcKeep E s oldPos r c st).1.gc (gcKeep E s oldPos r c st).2 := by
  rcases gcKeep_cases E s oldPos r c st with ⟨_, h⟩ | ⟨_, ds, w, off, _, h⟩ |
    ⟨_, ds, w, off, err, _, h⟩ <;> rw [h] <;> exact ⟨rfl, rfl, rfl, rfl, rfl, rfl⟩

theorem gcRecord_step (E : Env) (s : Slot) (st : GCRun) :
    GCStep st.gc (gcRecord E s st).1.gc (gcRecord E s st).2 := by
  rw [gcRecord_eq]
  have h1 := gcRoll_step E s st
  rcases hr : gcRoll E s st with ⟨st1, _ | err⟩
  · rw [hr] at h1
    have h2 := gcKeep_step E s ⟨st.gc.Src, s.offset⟩
      (ShouldRetainRecord E st1.bkt s.record ⟨st.gc.Src, s.offset⟩).1
      (ShouldRetainRecord E st1.bkt s.record ⟨st.gc.Src, s.offset⟩).2.1 st1
    rcases hk : gcKeep E s ⟨st.gc.Src, s.offset⟩
      (ShouldRetainRecord E st1.bkt s.record ⟨st.gc.Src, s.offset⟩).1
      (ShouldRetainRecord E st1.bkt s.record ⟨st.gc.Src, s.offset⟩).2.1 st1 with ⟨st2, _ | err⟩
    · rw [hk] at h2
      simp only [hk]
      exact GCStep.trans h1 h2
    · rw [hk] at h2
      simp only [hk]
      exact GCStep.trans h1 h2
  · rw [hr] at h1
    exact h1

theorem gcRecords_step (E : Env) (slots : List Slot) :
    ∀ (n : Nat) (st : GCRun),
      GCStep st.gc (gcRecords E slots n st).1.gc (gcRecords E slots n st).2 := by
  induction slots with
  | nil =>
    intro n st
    unfold gcRecords
    split <;> exact ⟨rfl, rfl, rfl, rfl, rfl, rfl⟩
  | cons s rest ih =>
    intro n st
    unfold gcRecords
    split
    · exact ⟨rfl, rfl, rfl, rfl, rfl, rfl⟩
    · have h1 := gcRecord_step E s st
      rcases hr : gcRecord E s st with ⟨st1, _ | err⟩
      · rw [hr] at h1
        exact GCStep.trans h1 (ih (n + 1) st1)
      · rw [hr] at h1
        exact h1

/-- The outcomes of one source chunk: the reader fails to open, the writer fails
to open, or the records are processed and, without error, the chunk is closed. -/
theorem gcChunk_cases (E : Env) (st : GCRun) :
    (∃ r err, st.bkt.datas.GetStreamReader st.gc.Src = (r, some err) ∧
      gcChunk E st =
        ({ gcOpen E st with gc := { st.gc with Err := some err } }, some err)) ∨
    (∃ r w err, st.bkt.datas.GetStreamReader st.gc.Src = (r, none) ∧
      st.bkt.datas.GetStreamWriter st.gc.Dst (decide (st.gc.Dst ≠ st.gc.Src)) = (w, some err) ∧
      gcChunk E st =
        ({ gcOpen E st with w := w, gc := { st.gc with Err := some err } }, some err)) ∨
    (∃ r w, st.bkt.datas.GetStreamReader st.gc.Src = (r, none) ∧
      st.bkt.datas.GetStreamWriter st.gc.Dst (decide (st.gc.Dst ≠ st.gc.Src)) = (w, none) ∧
      gcChunk E st =
        match gcRecords E r 0 { gcOpen E st with w := w } with
        | (st1, some err) => (st1, some err)
        | (st1, none) => (gcClose E st1, none)) := by
  rcases hr : st.bkt.datas.GetStreamReader st.gc.Src with ⟨r, _ | err⟩
  · rcases hw : st.bkt.datas.GetStreamWriter st.gc.Dst (decide (st.gc.Dst ≠ st.gc.Src))
      with ⟨w, _ | err⟩
    · refine Or.inr (Or.inr ⟨r, w, rfl, rfl, ?_⟩)
      simp only [gcChunk, hr, hw, gcOpen, gcClose]
    · refine Or.inr (Or.inl ⟨r, w, err, rfl, rfl, ?_⟩)
      simp only [gcChunk, hr, hw, gcOpen]
  · refine Or.inl ⟨r, err, rfl, ?_⟩
    simp only [gcChunk, hr, gcOpen]

theorem gcChunk_step (E : Env) (st : GCRun) :
    GCStep st.gc (gcChunk E st).1.gc (gcChunk E st).2 := by
  rcases gcChunk_cases E st with ⟨r, err, _, h⟩ | ⟨r, w, err, _, _, h⟩ | ⟨r, w, _, _, h⟩
  · rw [h]; exact ⟨rfl, rfl, rfl, rfl, rfl, rfl⟩
  · rw [h]; exact ⟨rfl, rfl, rfl, rfl, rfl, rfl⟩
  · rw [h]
    have h1 := gcRecords_step E r 0 { gcOpen E st with w := w }
    rcases hk : gcRecords E r 0 { gcOpen E st with w := w } with ⟨st1, _ | err⟩
    · rw [hk] at h1
      exact h1
    · rw [hk] at h1
      exact h1


/-- The audit entry after the outer loop: the range is left as it was, `Err` is
the returned error, an error leaves `Src` inside the range, and a run without
error that had enough iterations leaves `Src` behind `End`. -/
theorem gcChunks_audit (E : Env) :
    ∀ (fuel : Nat) (st : GCRun),
      (gcChunks E fuel st).1.gc.Begin = st.gc.Begin ∧
      (gcChunks E fuel st).1.gc.End = st.gc.End ∧
      (gcChunks E fuel st).1.gc.Running = st.gc.Running ∧
      (gcChunks E fuel st).1.gc.Err =
        (match (gcChunks E fuel st).2 with
          | some e => some e
          | none => st.gc.Err) ∧
      st.gc.Src ≤ (gcChunks E fuel st).1.gc.Src ∧
      (∀ e, (gcChunks E fuel st).2 = some e →
        (gcChunks E fuel st).1.gc.Src ≤ (gcChunks E fuel st).1.gc.End) ∧
      ((gcChunks E fuel st).2 = none → (st.gc.End - st.gc.Src + 1).toNat ≤ fuel →
        (gcChunks E fuel st).1.gc.End < (gcChunks E fuel st).1.gc.Src) := by
  intro fuel
  induction fuel with
  | zero =>
    intro st
    refine ⟨rfl, rfl, rfl, rfl, le_refl _, ?_, ?_⟩
    · intro e he
      exact absurd he (by simp [gcChunks])
    · intro _ hf
      show st.gc.End < st.gc.Src
      omega
  | succ fuel ih =>
    intro st
    by_cases hle : st.gc.Src ≤ st.gc.End
    · have hs := gcChunk_step E st
      rcases hc : gcChunk E st with ⟨st1, _ | err⟩
      · rw [hc] at hs
        obtain ⟨s1, s2, s3, s4, _, s6⟩ := hs
        simp only at s1 s2 s3 s4 s6
        have e : gcChunks E (fuel + 1) st =
            gcChunks E fuel { st1 with gc := { st1.gc with Src := st1.gc.Src + 1 } } := by
          simp only [gcChunks, if_pos hle, hc]
        rw [e]
        obtain ⟨i1, i2, i3, i4, i5, i6, i7⟩ :=
          ih { st1 with gc := { st1.gc with Src := st1.gc.Src + 1 } }
        simp only at i1 i2 i3 i4 i5 i6 i7
        refine ⟨i1.trans s1, i2.trans s2, i3.trans s4, ?_, ?_, i6, ?_⟩
        · rw [i4]
          generalize (gcChunks E fuel
            { st1 with gc := { st1.gc with Src := st1.gc.Src + 1 } }).2 = x
          cases x with
          | none => exact s6
          | some e => rfl
        · exact le_trans (by omega : st.gc.Src ≤ st1.gc.Src + 1) i5
        · intro hn hf
          apply i7 hn
          rw [s2, s3]
          omega
      · rw [hc] at hs
        obtain ⟨s1, s2, s3, s4, _, s6⟩ := hs
        simp only at s1 s2 s3 s4 s6
        have e : gcChunks E (fuel + 1) st = (st1, some err) := by
          simp only [gcChunks, if_pos hle, hc]
        rw [e]
        refine ⟨s1, s2, s4, s6, ?_, ?_, ?_⟩
        · show st.gc.Src ≤ st1.gc.Src
          omega
        · intro _ _
          show st1.gc.Src ≤ st1.gc.End
          omega
        · intro hn
          exact absurd hn (by simp)
    · have e : gcChunks E (fuel + 1) st = (st, none) := by
        simp only [gcChunks, if_neg hle]
      rw [e]
      refine ⟨rfl, rfl, rfl, rfl, le_refl _, ?_, ?_⟩
      · intro e he
        exact absurd he (by simp)
      · intro _ _
        show st.gc.End < st.gc.Src
        omega


/-! ### The whole run of gc -/

theorem gc_shape (E : Env) (bkt : Bucket) (startChunkID endChunkID : Int) (b1 : Bucket)
    (err : Option Error) (h : gc E bkt startChunkID endChunkID = some (b1, err)) :
    ∃ bkt1, BeforeBucket E bkt startChunkID (effectiveEnd endChunkID bkt.datas.newHead) =
        some bkt1 ∧
      err = (gcChunks E (effectiveEnd endChunkID bkt.datas.newHead - startChunkID + 1).toNat
        (gcStart bkt1 startChunkID (effectiveEnd endChunkID bkt.datas.newHead))).2 ∧
      b1 = { AfterBucket E (gcChunks E
          (effectiveEnd endChunkID bkt.datas.newHead - startChunkID + 1).toNat
          (gcStart bkt1 startChunkID (effectiveEnd endChunkID bkt.datas.newHead))).1.bkt with
        GCHistory := bkt.GCHistory ++
          [{ (gcChunks E (effectiveEnd endChunkID bkt.datas.newHead - startChunkID + 1).toNat
            (gcStart bkt1 startChunkID (effectiveEnd endChunkID bkt.datas.newHead))).1.gc with
            Running := false }] } := by
  unfold gc at h
  simp only at h
  rcases hb : BeforeBucket E bkt startChunkID (effectiveEnd endChunkID bkt.datas.newHead)
    with _ | bkt1
  · simp only [effectiveEnd] at hb
    simp [hb] at h
  · simp only [effectiveEnd] at hb
    simp only [hb, Option.some.injEq, Prod.mk.injEq] at h
    exact ⟨bkt1, rfl, h.2.symm, h.1.symm⟩

/-! ### C12: the effective range -/

/-- C12 (counterexample): with head chunk 2 and the requested end -1, `gc` sets
`gc.End` to 1, while `min(-1, head - 1)` is -1. -/
theorem gc_negative_end_means_head_minus_one :
    fiveBucket.datas.newHead = 2 ∧
    (gc demoEnv fiveBucket 0 (-1)).map (fun r => r.1.GCHistory.map (fun g => g.End)) =
      some [1] ∧
    min (-1 : Int) (fiveBucket.datas.newHead - 1) = -1 := by
  decide

/-- C12 (amended): for every requested end chunk and every head chunk id, a run
of `gc` that returns has `gc.End = head - 1` when the requested end is negative
and `gc.End = min(requested_end, head - 1)` otherwise; in both cases
`gc.End < head`, so the head chunk is not among the source chunks. -/
theorem gc_effective_end (E : Env) (bkt : Bucket) (startChunkID endChunkID : Int) (b1 : Bucket)
    (err : Option Error) (h : gc E bkt startChunkID endChunkID = some (b1, err)) :
    ∃ g, b1.GCHistory = bkt.GCHistory ++ [g] ∧ g.Begin = startChunkID ∧
      g.End = (if endChunkID < 0 then bkt.datas.newHead - 1
        else min endChunkID (bkt.datas.newHead - 1)) ∧
      g.End < bkt.datas.newHead := by
  obtain ⟨bkt1, _, _, hb⟩ := gc_shape E bkt startChunkID endChunkID b1 err h
  obtain ⟨a1, a2, _⟩ := gcChunks_audit E
    (effectiveEnd endChunkID bkt.datas.newHead - startChunkID + 1).toNat
    (gcStart bkt1 startChunkID (effectiveEnd endChunkID bkt.datas.newHead))
  subst hb
  refine ⟨_, rfl, a1, ?_, ?_⟩
  · show (gcChunks E _ _).1.gc.End = _
    rw [a2]
    show effectiveEnd endChunkID bkt.datas.newHead = _
    unfold effectiveEnd
    split_ifs <;> omega
  · show (gcChunks E _ _).1.gc.End < _
    rw [a2]
    show effectiveEnd endChunkID bkt.datas.newHead < _
    unfold effectiveEnd
    split_ifs <;> omega

/-- C12 (witness): the run over chunks `[0, 5]` of `fiveBucket`, cut to `[0, 1]`. -/
theorem gc_effective_end_witness :
    ∃ b1 err, gc demoEnv fiveBucket 0 5 = some (b1, err) ∧
      ∃ g, b1.GCHistory = fiveBucket.GCHistory ++ [g] ∧ g.Begin = 0 ∧
        g.End = (if (5 : Int) < 0 then fiveBucket.datas.newHead - 1
          else min 5 (fiveBucket.datas.newHead - 1)) ∧
        g.End < fiveBucket.datas.newHead := by
  obtain ⟨r, hr⟩ := gc_returns demoEnv fiveBucket 0 5 (by decide)
  exact ⟨r.1, r.2, hr, gc_effective_end demoEnv fiveBucket 0 5 r.1 r.2 hr⟩


/-! ### C13: failures and the deferred calls -/

theorem andNot_and (a b : Nat) : andNot a b &&& b = 0 := by
  apply Nat.eq_of_testBit_eq
  intro i
  simp only [andNot, Nat.testBit_and, Nat.testBit_xor, Nat.zero_testBit]
  cases a.testBit i <;> cases b.testBit i <;> rfl

theorem gcChunk_reader_fault (E : Env) (st : GCRun) (e : Error)
    (h : st.bkt.datas.fault (IOp.openReader st.gc.Src) = some e) :
    (gcChunk E st).2 = some e := by
  simp [gcChunk, dataStore.GetStreamReader, h]

theorem gcChunk_writer_fault (E : Env) (st : GCRun) (e : Error)
    (h0 : st.bkt.datas.fault (IOp.openReader st.gc.Src) = none)
    (h : st.bkt.datas.fault (IOp.openWriter st.gc.Dst) = some e) :
    (gcChunk E st).2 = some e := by
  simp [gcChunk, dataStore.GetStreamReader, dataStore.GetStreamWriter, h0, h]

theorem gcRecords_next_fault (E : Env) (slots : List Slot) (n : Nat) (st : GCRun) (e : Error)
    (h : st.bkt.datas.fault (IOp.next st.gc.Src n) = some e) :
    (gcRecords E slots n st).2 = some e := by
  cases slots <;> simp [gcRecords, h]

theorem gcRecord_roll_fault (E : Env) (s : Slot) (st : GCRun) (e : Error)
    (hfull : wrapU32 (E.Sizes s.record + st.w.offset) > wrapU32 E.DataFileMax)
    (h : st.bkt.datas.fault (IOp.openWriter (st.gc.Dst + 1)) = some e) :
    (gcRecord E s st).2 = some e := by
  have hr : (gcRoll E s st).2 = some e := by
    simp [gcRoll, hfull, dataStore.GetStreamWriter, h]
  rw [gcRecord_eq]
  rcases hx : gcRoll E s st with ⟨st1, _ | err⟩
  · rw [hx] at hr
    exact absurd hr (by simp)
  · rw [hx] at hr
    exact hr

theorem gcRecord_append_fault (E : Env) (s : Slot) (st st1 : GCRun) (e : Error)
    (hroll : gcRoll E s st = (st1, none))
    (hret : (ShouldRetainRecord E st1.bkt s.record ⟨st.gc.Src, s.offset⟩).1 = true)
    (h : st1.bkt.datas.fault (IOp.append st1.w.chunk st1.w.offset) = some e) :
    (gcRecord E s st).2 = some e := by
  rw [gcRecord_eq, hroll]
  simp [gcKeep, hret, DataStreamWriter.Append, h]

theorem gcRecords_stops (E : Env) (s : Slot) (rest : List Slot) (n : Nat) (st st1 : GCRun)
    (e : Error) (h0 : st.bkt.datas.fault (IOp.next st.gc.Src n) = none)
    (h : gcRecord E s st = (st1, some e)) :
    gcRecords E (s :: rest) n st = (st1, some e) := by
  simp [gcRecords, h0, h]

theorem gcChunk_stops (E : Env) (st st1 : GCRun) (r : List Slot) (w : DataStreamWriter)
    (e : Error) (hr : st.bkt.datas.GetStreamReader st.gc.Src = (r, none))
    (hw : st.bkt.datas.GetStreamWriter st.gc.Dst (decide (st.gc.Dst ≠ st.gc.Src)) = (w, none))
    (h : gcRecords E r 0 { gcOpen E st with w := w } = (st1, some e)) :
    gcChunk E st = (st1, some e) := by
  rcases gcChunk_cases E st with ⟨r2, err, h1, _⟩ | ⟨r2, w2, err, _, h2, _⟩ | ⟨r2, w2, h1, h2, h3⟩
  · rw [hr] at h1
    simp at h1
  · rw [hw] at h2
    simp at h2
  · rw [hr] at h1
    rw [hw] at h2
    simp only [Prod.mk.injEq, and_true] at h1 h2
    subst h1 h2
    rw [h3, h]

theorem gcChunks_stops (E : Env) (fuel : Nat) (st st1 : GCRun) (e : Error)
    (hle : st.gc.Src ≤ st.gc.End) (h : gcChunk E st = (st1, some e)) :
    gcChunks E (fuel + 1) st = (st1, some e) := by
  simp only [gcChunks, if_pos hle, h]


theorem AfterBucket_facts (E : Env) (b : Bucket) :
    (AfterBucket E b).hints.state &&& E.HintStateGC = 0 ∧
    (AfterBucket E b).hints.maxDumpableChunkID = E.MAX_CHUNK_ID ∧
    (AfterBucket E b).htreeID = (AfterBucket E b).hints.maxDumpedHintID :=
  ⟨andNot_and _ _, rfl, rfl⟩

/-- C13: every run of `gc` that returns has appended one audit entry whose `Err`
is the returned error (nil when `gc` returns nil) and whose `Running` is false;
`AfterBucket` has run: the GC flag of the hint subsystem is cleared, its dump
restriction is `MAX_CHUNK_ID` and the hash-tree id is the latest dumped hint
id; an error leaves `gc.Src` inside the range (the remaining chunks are not
processed), a run without error leaves it behind `gc.End`.  The returned error
is the one of the outer loop, and each failing data-log operation ends the
loops with its error: opening the stream reader, opening the writer (at the
start of a chunk or at a roll-over), reading the next record, appending; an
error of one record ends the chunk and an error of one chunk ends the run. -/
theorem gc_failure_semantics (E : Env) (bkt : Bucket) (startChunkID endChunkID : Int)
    (b1 : Bucket) (err : Option Error)
    (h : gc E bkt startChunkID endChunkID = some (b1, err)) :
    (∃ g, b1.GCHistory = bkt.GCHistory ++ [g] ∧ g.Err = err ∧ g.Running = false ∧
      (∀ e, err = some e → g.Src ≤ g.End) ∧ (err = none → g.End < g.Src)) ∧
    b1.hints.state &&& E.HintStateGC = 0 ∧
    b1.hints.maxDumpableChunkID = E.MAX_CHUNK_ID ∧
    b1.htreeID = b1.hints.maxDumpedHintID ∧
    (∃ bkt1, BeforeBucket E bkt startChunkID (effectiveEnd endChunkID bkt.datas.newHead) =
        some bkt1 ∧
      err = (gcChunks E (effectiveEnd endChunkID bkt.datas.newHead - startChunkID + 1).toNat
        (gcStart bkt1 startChunkID (effectiveEnd endChunkID bkt.datas.newHead))).2) ∧
    (∀ (st : GCRun) (e : Error), st.bkt.datas.fault (IOp.openReader st.gc.Src) = some e →
      (gcChunk E st).2 = some e) ∧
    (∀ (st : GCRun) (e : Error), st.bkt.datas.fault (IOp.openReader st.gc.Src) = none →
      st.bkt.datas.fault (IOp.openWriter st.gc.Dst) = some e → (gcChunk E st).2 = some e) ∧
    (∀ (slots : List Slot) (n : Nat) (st : GCRun) (e : Error),
      st.bkt.datas.fault (IOp.next st.gc.Src n) = some e →
      (gcRecords E slots n st).2 = some e) ∧
    (∀ (s : Slot) (st : GCRun) (e : Error),
      wrapU32 (E.Sizes s.record + st.w.offset) > wrapU32 E.DataFileMax →
      st.bkt.datas.fault (IOp.openWriter (st.gc.Dst + 1)) = some e →
      (gcRecord E s st).2 = some e) ∧
    (∀ (s : Slot) (st st1 : GCRun) (e : Error), gcRoll E s st = (st1, none) →
      (ShouldRetainRecord E st1.bkt s.record ⟨st.gc.Src, s.offset⟩).1 = true →
      st1.bkt.datas.fault (IOp.append st1.w.chunk st1.w.offset) = some e →
      (gcRecord E s st).2 = some e) ∧
    (∀ (s : Slot) (rest : List Slot) (n : Nat) (st st1 : GCRun) (e : Error),
      st.bkt.datas.fault (IOp.next st.gc.Src n) = none → gcRecord E s st = (st1, some e) →
      gcRecords E (s :: rest) n st = (st1, some e)) ∧
    (∀ (st st1 : GCRun) (r : List Slot) (w : DataStreamWriter) (e : Error),
      st.bkt.datas.GetStreamReader st.gc.Src = (r, none) →
      st.bkt.datas.GetStreamWriter st.gc.Dst (decide (st.gc.Dst ≠ st.gc.Src)) = (w, none) →
      gcRecords E r 0 { gcOpen E st with w := w } = (st1, some e) →
      gcChunk E st = (st1, some e)) ∧
    (∀ (fuel : Nat) (st st1 : GCRun) (e : Error), st.gc.Src ≤ st.gc.End →
      gcChunk E st = (st1, some e) → gcChunks E (fuel + 1) st = (st1, some e)) := by
  obtain ⟨bkt1, hbefore, herr, hb⟩ := gc_shape E bkt startChunkID endChunkID b1 err h
  obtain ⟨_, a2, a3, a4, _, a6, a7⟩ := gcChunks_audit E
    (effectiveEnd endChunkID bkt.datas.newHead - startChunkID + 1).toNat
    (gcStart bkt1 startChunkID (effectiveEnd endChunkID bkt.datas.newHead))
  obtain ⟨f1, f2, f3⟩ := AfterBucket_facts E (gcChunks E
    (effectiveEnd endChunkID bkt.datas.newHead - startChunkID + 1).toNat
    (gcStart bkt1 startChunkID (effectiveEnd endChunkID bkt.datas.newHead))).1.bkt
  rw [← herr] at a4 a6 a7
  subst hb
  refine ⟨⟨_, rfl, ?_, rfl, ?_, ?_⟩, f1, f2, f3, ⟨bkt1, hbefore, herr⟩,
    gcChunk_reader_fault E, gcChunk_writer_fault E, gcRecords_next_fault E,
    gcRecord_roll_fault E, gcRecord_append_fault E, gcRecords_stops E, gcChunk_stops E,
    gcChunks_stops E⟩
  · show (gcChunks E _ _).1.gc.Err = err
    rw [a4]
    cases err with
    | none => rfl
    | some e => rfl
  · intro e he
    exact a6 e he
  · intro hn
    exact a7 hn (le_refl _)

/-- C13 (witness): the run over chunks `[1, 1]` of `fiveBucket`. -/
theorem gc_failure_semantics_witness :
    ∃ b1 err, gc demoEnv fiveBucket 1 1 = some (b1, err) ∧
      (∃ g, b1.GCHistory = fiveBucket.GCHistory ++ [g] ∧ g.Err = err ∧ g.Running = false ∧
        (∀ e, err = some e → g.Src ≤ g.End) ∧ (err = none → g.End < g.Src)) ∧
      b1.hints.state &&& demoEnv.HintStateGC = 0 ∧
      b1.hints.maxDumpableChunkID = demoEnv.MAX_CHUNK_ID ∧
      b1.htreeID = b1.hints.maxDumpedHintID := by
  obtain ⟨r, hr⟩ := gc_returns demoEnv fiveBucket 1 1 (by decide)
  obtain ⟨h1, h2, h3, h4, _⟩ := gc_failure_semantics demoEnv fiveBucket 1 1 r.1 r.2 hr
  exact ⟨r.1, r.2, hr, h1, h2, h3, h4⟩


/-! ### C11: relocation of a collision record -/

/-- C11 (the code at the failing input): in `collisionGcBucket` the record of
`[1, 2]` at chunk 0, offset 256 is retained as a collision case.  `gc` over
chunk 0 drops the superseded record of `[9]` and appends the record of `[1, 2]`
at offset 0, but `UpdateCollision` has an empty body: both collision tables
still hold offset 256 for the key, where no record starts any more, and a full
`get` of `[1, 2]` finds nothing. -/
theorem gc_leaves_collision_entry_at_old_position :
    (collisionGcBucket.datas.files 0).map (fun s => (s.offset, s.record.Key)) =
      [(0, [9]), (256, [1, 2])] ∧
    ShouldRetainRecord demoEnv collisionGcBucket
      ⟨[1, 2], (demoPayload 1 [20]).CalcValueHash demoEnv⟩ ⟨0, 256⟩ = (true, true, false) ∧
    (gc demoEnv collisionGcBucket 0 0).map (fun r => r.2) = some none ∧
    (gc demoEnv collisionGcBucket 0 0).map
      (fun r => (r.1.datas.files 0).map (fun s => (s.offset, s.record.Key))) =
      some [(0, [1, 2])] ∧
    (gc demoEnv collisionGcBucket 0 0).map
      (fun r => (r.1.hints.collisions 3 [1, 2]).1.map (fun it => decodePos it.Pos)) =
      some (some ⟨0, 256⟩) ∧
    (gc demoEnv collisionGcBucket 0 0).map
      (fun r => (r.1.collisons.get 3 [1, 2]).map (fun it => decodePos it.Pos)) =
      some (some ⟨0, 256⟩) ∧
    (gc demoEnv collisionGcBucket 0 0).map (fun r => (r.1.get (demoKey [1, 2]) false).2) =
      some (none, ⟨0, 256⟩, none) := by
  decide


/-! ### C14 and C15: incr -/

/-- A read changes at most the collision table. -/
theorem get_frame (b : Bucket) (ki : KeyInfo) (memOnly : Bool) :
    ∃ c, (b.get ki memOnly).1 = { b with collisons := c } := by
  unfold Bucket.get
  simp only
  split
  · exact ⟨_, rfl⟩
  · split
    · split <;> exact ⟨_, rfl⟩
    · split
      · exact ⟨_, rfl⟩
      · exact ⟨_, rfl⟩
      · split
        · exact ⟨_, rfl⟩
        · split
          · exact ⟨_, rfl⟩
          · exact ⟨_, rfl⟩
          · split <;> exact ⟨_, rfl⟩

theorem incr_no_payload (E : Env) (b : Bucket) (ki : KeyInfo) (value : Int) (now : Nat)
    (pos : Position) (h : (b.get ki false).2 = (none, pos, none)) :
    b.incr E ki value now = none := by
  rcases hg : b.get ki false with ⟨b1, po, pos1, err⟩
  rw [hg] at h
  simp only [Prod.mk.injEq] at h
  obtain ⟨h1, _, h3⟩ := h
  subst h1 h3
  simp only [Bucket.incr, hg]

/-- C14 (the code at the failing input): the key `[7]` is absent from the empty
bucket, `get` returns no payload and no error, and `incr` does not complete: it
assigns `payload.TS` through the nil payload. -/
theorem incr_absent_key_panics :
    (emptyBucket.get (demoKey [7]) false).2 = (none, ⟨0, 0⟩, none) ∧
    emptyBucket.incr demoEnv (demoKey [7]) 1 0 = none :=
  ⟨by decide, incr_no_payload demoEnv emptyBucket (demoKey [7]) 1 0 ⟨0, 0⟩ (by decide)⟩

/-- C15 (counterexample): the counter `[7]` holds `"9223372036854775807"`; `incr`
by 1 returns `-9223372036854775808` and writes its decimal string, not
`n + delta = 9223372036854775808`. -/
theorem incr_wraps_at_int_max :
    (counterBucket.get (demoKey [7]) false).2.1.map (fun p => (p.Flag, Atoi p.Value)) =
      some (516, some 9223372036854775807) ∧
    (counterBucket.incr demoEnv (demoKey [7]) 1 0).map (fun r => r.2) =
      some (-9223372036854775808) ∧
    (counterBucket.incr demoEnv (demoKey [7]) 1 0).map
      (fun r => (r.1.get (demoKey [7]) false).2.1.map (fun p => p.Value)) =
      some (some (Itoa (-9223372036854775808))) ∧
    (9223372036854775807 : Int) + 1 ≠ -9223372036854775808 := by
  decide

/-- C15 (amended): for a key whose stored payload `p` has a flag other than the
increment flag, or a value that `Atoi` rejects (no decimal integer of the
64-bit `int` range), or a value longer than 22 bytes, `incr` returns 0 on the
bucket that `get` left, whose data log, hash-tree and hint subsystem are
unchanged; otherwise, for the stored decimal value `n`, it performs `set` with
the decimal string of `n + delta` wrapped to 64 bits and a fresh time stamp and
returns that number, which is `n + delta` whenever `n + delta` is
representable. -/
theorem incr_rejects_or_adds (E : Env) (b : Bucket) (ki : KeyInfo) (delta : Int) (now : Nat)
    (p : Payload) (pos : Position) (hget : (b.get ki false).2 = (some p, pos, none)) :
    ((b.get ki false).1.datas = b.datas ∧ (b.get ki false).1.htree = b.htree ∧
      (b.get ki false).1.hints = b.hints) ∧
    ((p.Flag ≠ E.FLAG_INCR ∨ Atoi p.Value = none ∨ p.Value.length > 22) →
      b.incr E ki delta now = some ((b.get ki false).1, 0)) ∧
    (∀ n : Int, p.Flag = E.FLAG_INCR → p.Value.length ≤ 22 → Atoi p.Value = some n →
      b.incr E ki delta now =
        some (((b.get ki false).1.set E ki
          { p with TS := wrapU32 now, Value := Itoa (wrap64 (delta + n)) }).1,
          wrap64 (delta + n)) ∧
      (isInt64 (delta + n) → wrap64 (delta + n) = delta + n)) := by
  refine ⟨?_, ?_, ?_⟩
  · obtain ⟨c, hc⟩ := get_frame b ki false
    rw [hc]
    exact ⟨rfl, rfl, rfl⟩
  · intro hrej
    rcases hg : b.get ki false with ⟨b1, po, pos1, err⟩
    rw [hg] at hget
    simp only [Prod.mk.injEq] at hget
    obtain ⟨h1, _, h3⟩ := hget
    subst h1 h3
    simp only [Bucket.incr, hg]
    by_cases hf : p.Flag ≠ E.FLAG_INCR
    · simp only [if_pos hf]
    · rw [if_neg hf]
      by_cases hl : p.Value.length > 22
      · simp only [if_pos hl]
      · rw [if_neg hl]
        rcases hrej with h | h | h
        · exact absurd h hf
        · simp only [h]
        · exact absurd h hl
  · intro n hf hl ha
    refine ⟨?_, ?_⟩
    · rcases hg : b.get ki false with ⟨b1, po, pos1, err⟩
      rw [hg] at hget
      simp only [Prod.mk.injEq] at hget
      obtain ⟨h1, _, h3⟩ := hget
      subst h1 h3
      have hl2 : ¬ p.Value.length > 22 := by omega
      simp only [Bucket.incr, hg, ne_eq, hf, not_true_eq_false, if_false, if_neg hl2, ha]
    · intro hr
      unfold isInt64 at hr
      unfold wrap64
      omega

/-- C15 (witness): the counter `[7]` decremented by 7. -/
theorem incr_rejects_or_adds_witness :
    ((counterBucket.get (demoKey [7]) false).1.datas = counterBucket.datas ∧
      (counterBucket.get (demoKey [7]) false).1.htree = counterBucket.htree ∧
      (counterBucket.get (demoKey [7]) false).1.hints = counterBucket.hints) ∧
    counterBucket.incr demoEnv (demoKey [7]) (-7) 0 =
      some (((counterBucket.get (demoKey [7]) false).1.set demoEnv (demoKey [7])
        { ({ demoPayload 1
              [57, 50, 50, 51, 51, 55, 50, 48, 51, 54, 56, 53, 52, 55, 55, 53, 56, 48, 55]
              with Flag := 516 } : Payload).CalcValueHash demoEnv with
          TS := wrapU32 0, Value := Itoa (wrap64 (-7 + 9223372036854775807)) }).1,
        wrap64 (-7 + 9223372036854775807)) ∧
    wrap64 (-7 + 9223372036854775807) = -7 + 9223372036854775807 := by
  obtain ⟨h1, _, h3⟩ := incr_rejects_or_adds demoEnv counterBucket (demoKey [7]) (-7) 0
    (({ demoPayload 1
        [57, 50, 50, 51, 51, 55, 50, 48, 51, 54, 56, 53, 52, 55, 55, 53, 56, 48, 55]
        with Flag := 516 } : Payload).CalcValueHash demoEnv) ⟨0, 0⟩ (by decide)
  obtain ⟨h4, h5⟩ := h3 9223372036854775807 (by decide) (by decide) (by decide)
  exact ⟨h1, h4, h5 (by decide)⟩


/-! ### C16: snapshot selection in open -/

theorem isLarger_asymm (a b : HintID) (h : a.isLarger b.Chunk b.Split = true) :
    b.isLarger a.Chunk a.Split = false := by
  simp only [HintID.isLarger, decide_eq_true_eq, decide_eq_false_iff_not] at h ⊢
  omega

/-- After a successful load nothing older is touched but removed. -/
theorem openLoop_after_load (maxdata : Int) (d : List (HintID × Option HTree)) :
    ∀ st : OpenRun, (∀ f ∈ d, st.htreeID.isLarger f.1.Chunk f.1.Split = false) →
      openLoop maxdata d st = st := by
  induction d with
  | nil => intro st _; rfl
  | cons f rest ih =>
    intro st h
    have hf := h f (List.mem_cons_self _ _)
    have hstep : openStep maxdata st f = st := by
      unfold openStep
      split
      · rfl
      · rw [hf]; rfl
    simp only [openLoop, hstep]
    exact ih st (fun g hg => h g (List.mem_cons_of_mem _ hg))

theorem openLoop_before_load (maxdata : Int) (d : List (HintID × Option HTree)) :
    ∀ (kept : List (HintID × Option HTree)) (loads : List HintID),
      d.Pairwise (fun a b => b.1.isLarger a.1.Chunk a.1.Split = true) →
      openLoop maxdata d ⟨⟨0, 0⟩, newHTree, kept, loads⟩ =
        ⟨(match (d.filter (fun f => decide (f.1.Chunk ≤ maxdata) &&
              (⟨0, 0⟩ : HintID).isLarger f.1.Chunk f.1.Split)).find? (fun f => f.2.isSome) with
            | some f => f.1
            | none => ⟨0, 0⟩),
          (match (d.filter (fun f => decide (f.1.Chunk ≤ maxdata) &&
              (⟨0, 0⟩ : HintID).isLarger f.1.Chunk f.1.Split)).find? (fun f => f.2.isSome) with
            | some (_, some t) => t
            | some (_, none) => newHTree
            | none => newHTree),
          kept ++ loadAttempts (d.filter (fun f => decide (f.1.Chunk ≤ maxdata) &&
              (⟨0, 0⟩ : HintID).isLarger f.1.Chunk f.1.Split)),
          loads ++ (loadAttempts (d.filter (fun f => decide (f.1.Chunk ≤ maxdata) &&
              (⟨0, 0⟩ : HintID).isLarger f.1.Chunk f.1.Split))).map (fun f => f.1)⟩ := by
  induction d with
  | nil =>
    intro kept loads _
    simp [openLoop, loadAttempts]
  | cons f rest ih =>
    intro kept loads hs
    rw [List.pairwise_cons] at hs
    obtain ⟨hf, hrest⟩ := hs
    by_cases hin : f.1.Chunk > maxdata
    · have hstep : openStep maxdata ⟨⟨0, 0⟩, newHTree, kept, loads⟩ f =
          ⟨⟨0, 0⟩, newHTree, kept, loads⟩ := by
        simp only [openStep, if_pos hin]
      have hc : (decide (f.1.Chunk ≤ maxdata) &&
          (⟨0, 0⟩ : HintID).isLarger f.1.Chunk f.1.Split) = false := by
        have : ¬ f.1.Chunk ≤ maxdata := by omega
        simp [this]
      simp only [openLoop, hstep, List.filter_cons, hc, Bool.false_eq_true, if_false]
      exact ih kept loads hrest
    · by_cases hl : (⟨0, 0⟩ : HintID).isLarger f.1.Chunk f.1.Split = true
      · have hc : (decide (f.1.Chunk ≤ maxdata) &&
            (⟨0, 0⟩ : HintID).isLarger f.1.Chunk f.1.Split) = true := by
          have : f.1.Chunk ≤ maxdata := by omega
          simp [this, hl]
        obtain ⟨id, c⟩ := f
        cases c with
        | none =>
          have hstep : openStep maxdata ⟨⟨0, 0⟩, newHTree, kept, loads⟩ (id, none) =
              ⟨⟨0, 0⟩, newHTree, kept ++ [(id, none)], loads ++ [id]⟩ := by
            simp only [openStep, if_neg hin]
            simp only at hl
            simp only [hl, if_true]
          simp only [openLoop, hstep, List.filter_cons, hc, if_true]
          rw [ih (kept ++ [(id, none)]) (loads ++ [id]) hrest]
          simp [loadAttempts, List.takeWhile_cons, List.find?_cons, List.append_assoc]
        | some t =>
          have hstep : openStep maxdata ⟨⟨0, 0⟩, newHTree, kept, loads⟩ (id, some t) =
              ⟨id, t, kept ++ [(id, some t)], loads ++ [id]⟩ := by
            simp only [openStep, if_neg hin]
            simp only at hl
            simp only [hl, if_true]
          simp only [openLoop, hstep, List.filter_cons, hc, if_true]
          rw [openLoop_after_load maxdata rest _
            (fun g hg => isLarger_asymm g.1 id (hf g hg))]
          simp [loadAttempts, List.takeWhile_cons, List.find?_cons]
      · have hl2 : (⟨0, 0⟩ : HintID).isLarger f.1.Chunk f.1.Split = false := by
          cases hx : (⟨0, 0⟩ : HintID).isLarger f.1.Chunk f.1.Split
          · rfl
          · exact absurd hx hl
        have hstep : openStep maxdata ⟨⟨0, 0⟩, newHTree, kept, loads⟩ f =
            ⟨⟨0, 0⟩, newHTree, kept, loads⟩ := by
          simp only [openStep, if_neg hin, hl2, Bool.false_eq_true, if_false]
        have hc : (decide (f.1.Chunk ≤ maxdata) &&
            (⟨0, 0⟩ : HintID).isLarger f.1.Chunk f.1.Split) = false := by
          simp [hl2]
        simp only [openLoop, hstep, List.filter_cons, hc, Bool.false_eq_true, if_false]
        exact ih kept loads hrest


theorem loadAttempts_subset (cands : List (HintID × Option HTree)) :
    ∀ f ∈ loadAttempts cands, f ∈ cands := by
  intro f hf
  simp only [loadAttempts, List.mem_append, Option.mem_toList, Option.mem_def] at hf
  rcases hf with hf | hf
  · exact (List.takeWhile_sublist _).subset hf
  · exact List.mem_of_find?_eq_some hf

/-- C16 (counterexample): with the snapshot files `{0, 1}` (loads) and `{1, 0}`
(does not load) and data chunks up to 1, `open` hands both to `htree.load`,
newest first, and ends with the tree and the id of the older snapshot
`{0, 1}`, not with the empty tree and id `{0, 0}`. -/
theorem open_loads_older_snapshot_after_failed_load :
    (twoSnapshotBucket.openHtree 1).2 = [⟨1, 0⟩, ⟨0, 1⟩] ∧
    (twoSnapshotBucket.openHtree 1).1.htreeID = ⟨0, 1⟩ ∧
    (twoSnapshotBucket.openHtree 1).1.htree.slots 7 = some (⟨1, 10⟩, ⟨0, 0⟩) ∧
    (twoSnapshotBucket.openHtree 1).1.snapshots.map (fun f => f.1) = [⟨0, 1⟩, ⟨1, 0⟩] := by
  decide

/-- C16 (amended): for snapshot files in ascending order of their ids and the
highest data chunk id `maxdata`, `open` removes every snapshot whose chunk id
exceeds `maxdata`; going from the newest to the oldest of the others that are
larger than `{0, 0}` it attempts to load each until one loads: the snapshots
whose load fails are tried in turn and stay on disk, the first that loads gives
the tree and the tree id, and everything older is removed without being loaded;
if none loads the tree is empty with id `{0, 0}`. -/
theorem openHtree_selects (bkt : Bucket) (maxdata : Int)
    (hs : bkt.snapshots.Pairwise (fun a b => a.1.isLarger b.1.Chunk b.1.Split = true)) :
    (bkt.openHtree maxdata).2 =
      (loadAttempts (loadCandidates maxdata bkt.snapshots)).map (fun f => f.1) ∧
    (bkt.openHtree maxdata).1.snapshots =
      (loadAttempts (loadCandidates maxdata bkt.snapshots)).reverse ∧
    (bkt.openHtree maxdata).1.htreeID =
      (match (loadCandidates maxdata bkt.snapshots).find? (fun f => f.2.isSome) with
        | some f => f.1
        | none => ⟨0, 0⟩) ∧
    (bkt.openHtree maxdata).1.htree =
      (match (loadCandidates maxdata bkt.snapshots).find? (fun f => f.2.isSome) with
        | some (_, some t) => t
        | some (_, none) => newHTree
        | none => newHTree) ∧
    (∀ f ∈ (bkt.openHtree maxdata).1.snapshots, f.1.Chunk ≤ maxdata) := by
  have hd : bkt.snapshots.reverse.Pairwise
      (fun a b => b.1.isLarger a.1.Chunk a.1.Split = true) := by
    rw [List.pairwise_reverse]
    exact hs
  have hrun := openLoop_before_load maxdata bkt.snapshots.reverse [] [] hd
  have e1 : (bkt.openHtree maxdata).2 =
      (openLoop maxdata bkt.snapshots.reverse ⟨⟨0, 0⟩, newHTree, [], []⟩).loads := rfl
  have e2 : (bkt.openHtree maxdata).1.snapshots =
      (openLoop maxdata bkt.snapshots.reverse ⟨⟨0, 0⟩, newHTree, [], []⟩).kept.reverse := rfl
  have e3 : (bkt.openHtree maxdata).1.htreeID =
      (openLoop maxdata bkt.snapshots.reverse ⟨⟨0, 0⟩, newHTree, [], []⟩).htreeID := rfl
  have e4 : (bkt.openHtree maxdata).1.htree =
      (openLoop maxdata bkt.snapshots.reverse ⟨⟨0, 0⟩, newHTree, [], []⟩).htree := rfl
  rw [e1, e2, e3, e4, hrun]
  simp only [List.nil_append]
  refine ⟨rfl, rfl, rfl, rfl, ?_⟩
  intro f hf
  rw [List.mem_reverse] at hf
  have hc := loadAttempts_subset _ f hf
  have hc2 := (List.mem_filter.mp hc).2
  simp only [Bool.and_eq_true, decide_eq_true_eq] at hc2
  exact hc2.1

/-- C16 (witness): the selection on `twoSnapshotBucket`. -/
theorem openHtree_selects_witness :
    (twoSnapshotBucket.openHtree 1).2 =
      (loadAttempts (loadCandidates 1 twoSnapshotBucket.snapshots)).map (fun f => f.1) ∧
    (twoSnapshotBucket.openHtree 1).1.snapshots =
      (loadAttempts (loadCandidates 1 twoSnapshotBucket.snapshots)).reverse ∧
    (twoSnapshotBucket.openHtree 1).1.htreeID =
      (match (loadCandidates 1 twoSnapshotBucket.snapshots).find? (fun f => f.2.isSome) with
        | some f => f.1
        | none => ⟨0, 0⟩) ∧
    (twoSnapshotBucket.openHtree 1).1.htree =
      (match (loadCandidates 1 twoSnapshotBucket.snapshots).find? (fun f => f.2.isSome) with
        | some (_, some t) => t
        | some (_, none) => newHTree
        | none => newHTree) ∧
    (∀ f ∈ (twoSnapshotBucket.openHtree 1).1.snapshots, f.1.Chunk ≤ 1) :=
  openHtree_selects twoSnapshotBucket 1 (by decide)


/-! ### C20: the writer is never ahead of the reader -/

theorem GetStreamWriter_ok (ds : dataStore) (c : Int) (app : Bool) (w : DataStreamWriter)
    (h : ds.GetStreamWriter c app = (w, none)) :
    w.chunk = c ∧ w.offset = (if app then ds.filesizes c else 0) := by
  unfold dataStore.GetStreamWriter at h
  split at h
  · simp at h
  · simp only [Prod.mk.injEq, and_true] at h
    rw [← h]
    exact ⟨rfl, rfl⟩

theorem GetStreamWriter_error (ds : dataStore) (c : Int) (app : Bool) (w : DataStreamWriter)
    (err : Error) (h : ds.GetStreamWriter c app = (w, some err)) :
    w.chunk = c ∧ w.offset = 0 := by
  unfold dataStore.GetStreamWriter at h
  split at h
  · simp only [Prod.mk.injEq] at h
    rw [← h.1]
    exact ⟨rfl, rfl⟩
  · simp at h

theorem wrapU32_lt (n : Nat) : wrapU32 n < 4294967296 := Nat.mod_lt _ (by decide)

theorem gcRoll_behind (E : Env) (s : Slot) (st : GCRun) (hb : WriterBehind st s.offset)
    (hmax : s.offset + E.Sizes s.record ≤ wrapU32 E.DataFileMax) :
    WriterBehind (gcRoll E s st).1 s.offset ∧ (gcRoll E s st).1.bkt = st.bkt ∧
    (gcRoll E s st).1.gc.Src = st.gc.Src := by
  obtain ⟨h1, h2, h3⟩ := hb
  have hm := wrapU32_lt E.DataFileMax
  have hlt : st.gc.Dst = st.gc.Src →
      ¬ wrapU32 (E.Sizes s.record + st.w.offset) > wrapU32 E.DataFileMax := by
    intro heq
    have := h3 heq
    unfold wrapU32 at hmax hm ⊢
    omega
  rcases gcRoll_cases E s st with ⟨_, h⟩ | ⟨hc, w, hw, h⟩ | ⟨hc, w, err, hw, h⟩
  · rw [h]
    exact ⟨⟨h1, h2, h3⟩, rfl, rfl⟩
  · rw [h]
    have hne : st.gc.Dst ≠ st.gc.Src := fun heq => hlt heq hc
    obtain ⟨w1, w2⟩ := GetStreamWriter_ok _ _ _ _ hw
    refine ⟨⟨?_, w1, ?_⟩, rfl, rfl⟩
    · show st.gc.Dst + 1 ≤ st.gc.Src
      omega
    · intro heq
      have heq2 : st.gc.Dst + 1 = st.gc.Src := heq
      show w.offset ≤ s.offset
      rw [w2]
      simp [heq2]
  · rw [h]
    have hne : st.gc.Dst ≠ st.gc.Src := fun heq => hlt heq hc
    obtain ⟨w1, w2⟩ := GetStreamWriter_error _ _ _ _ _ hw
    refine ⟨⟨?_, w1, ?_⟩, rfl, rfl⟩
    · show st.gc.Dst + 1 ≤ st.gc.Src
      omega
    · intro _
      show w.offset ≤ s.offset
      omega

theorem put_files_other (E : Env) (ds : dataStore) (c c2 : Int) (off : Nat) (rec : Record)
    (h : c2 ≠ c) : (ds.put E c off rec).files c2 = ds.files c2 := by
  simp [dataStore.put, h]

theorem UpdateHtreePos_datas (b : Bucket) (ki : KeyInfo) (oldPos newPos : Position) :
    (UpdateHtreePos b ki oldPos newPos).datas = b.datas := by
  unfold UpdateHtreePos
  simp only
  split <;> rfl

theorem gcKeep_behind (E : Env) (s : Slot) (oldPos : Position) (r c : Bool) (st : GCRun)
    (hb : WriterBehind st s.offset)
    (hmax : s.offset + E.Sizes s.record ≤ wrapU32 E.DataFileMax) :
    WriterBehind (gcKeep E s oldPos r c st).1 (s.offset + E.Sizes s.record) ∧
    (gcKeep E s oldPos r c st).1.gc.Src = st.gc.Src ∧
    (∀ c2, c2 ≠ st.w.chunk →
      (gcKeep E s oldPos r c st).1.bkt.datas.files c2 = st.bkt.datas.files c2) := by
  obtain ⟨h1, h2, h3⟩ := hb
  have hm := wrapU32_lt E.DataFileMax
  rcases gcKeep_cases E s oldPos r c st with ⟨_, h⟩ | ⟨_, ds, w, off, ha, h⟩ |
    ⟨_, ds, w, off, err, _, h⟩
  · rw [h]
    exact ⟨⟨h1, h2, fun heq => le_trans (h3 heq) (Nat.le_add_right _ _)⟩, rfl, fun _ _ => rfl⟩
  · rw [h]
    unfold DataStreamWriter.Append at ha
    split at ha
    · simp at ha
    · simp only [Prod.mk.injEq, and_true] at ha
      obtain ⟨a1, a2, a3⟩ := ha
      refine ⟨⟨h1, ?_, ?_⟩, rfl, ?_⟩
      · show w.chunk = st.gc.Dst
        rw [← a2]
        exact h2
      · intro heq
        have := h3 heq
        show w.offset ≤ s.offset + E.Sizes s.record
        rw [← a2]
        show wrapU32 (st.w.offset + E.Sizes s.record) ≤ s.offset + E.Sizes s.record
        unfold wrapU32 at hmax hm ⊢
        omega
      · intro c2 hc2
        have hd : ds.files c2 = st.bkt.datas.files c2 := by
          rw [← a1]
          exact put_files_other E _ _ _ _ _ hc2
        cases c with
        | true => exact hd
        | false =>
          show (UpdateHtreePos _ _ _ _).datas.files c2 = _
          rw [UpdateHtreePos_datas]
          exact hd
  · rw [h]
    exact ⟨⟨h1, h2, fun heq => le_trans (h3 heq) (Nat.le_add_right _ _)⟩, rfl, fun _ _ => rfl⟩


theorem WriterBehind.mono {st : GCRun} {a b : Nat} (h : WriterBehind st a) (hab : a ≤ b) :
    WriterBehind st b :=
  ⟨h.1, h.2.1, fun heq => le_trans (h.2.2 heq) hab⟩

/-- One record of `gc`, read while the writer is not ahead of it: the writer is
not ahead of the end of the record afterwards, with or without error, and no
chunk behind the source chunk is written. -/
theorem gcRecord_behind (E : Env) (s : Slot) (st : GCRun) (hb : WriterBehind st s.offset)
    (hmax : s.offset + E.Sizes s.record ≤ wrapU32 E.DataFileMax) :
    WriterBehind (gcRecord E s st).1 (s.offset + E.Sizes s.record) ∧
    (gcRecord E s st).1.gc.Src = st.gc.Src ∧
    (∀ c2, st.gc.Src < c2 → (gcRecord E s st).1.bkt.datas.files c2 = st.bkt.datas.files c2) := by
  obtain ⟨r1, r2, r3⟩ := gcRoll_behind E s st hb hmax
  rw [gcRecord_eq]
  rcases hr : gcRoll E s st with ⟨st1, _ | err⟩
  · rw [hr] at r1 r2 r3
    simp only at r1 r2 r3
    obtain ⟨k1, k2, k3⟩ := gcKeep_behind E s ⟨st.gc.Src, s.offset⟩
      (ShouldRetainRecord E st1.bkt s.record ⟨st.gc.Src, s.offset⟩).1
      (ShouldRetainRecord E st1.bkt s.record ⟨st.gc.Src, s.offset⟩).2.1 st1 r1 hmax
    have hfr : ∀ c2, st.gc.Src < c2 → c2 ≠ st1.w.chunk := by
      intro c2 hc2 heq
      have h1 := r1.1
      have h2 := r1.2.1
      omega
    rcases hk : gcKeep E s ⟨st.gc.Src, s.offset⟩
      (ShouldRetainRecord E st1.bkt s.record ⟨st.gc.Src, s.offset⟩).1
      (ShouldRetainRecord E st1.bkt s.record ⟨st.gc.Src, s.offset⟩).2.1 st1 with ⟨st2, _ | err⟩
    · rw [hk] at k1 k2 k3
      simp only at k1 k2 k3
      simp only [hk]
      refine ⟨k1, k2.trans r3, ?_⟩
      intro c2 hc2
      show st2.bkt.datas.files c2 = _
      rw [k3 c2 (hfr c2 hc2), r2]
    · rw [hk] at k1 k2 k3
      simp only at k1 k2 k3
      simp only [hk]
      refine ⟨k1, k2.trans r3, ?_⟩
      intro c2 hc2
      show st2.bkt.datas.files c2 = _
      rw [k3 c2 (hfr c2 hc2), r2]
  · rw [hr] at r1 r2 r3
    simp only at r1 r2 r3
    refine ⟨r1.mono (Nat.le_add_right _ _), r3, ?_⟩
    intro c2 _
    show st1.bkt.datas.files c2 = _
    rw [r2]

/-- The inner loop of `gc` over records laid out in order, entered with the
writer not ahead of `off` and all records at or after `off`: afterwards, with
or without error, the writer is not ahead of any bound that lies at or after
`off` and the end of every record, and no chunk behind the source is written. -/
theorem gcRecords_behind (E : Env) (slots : List Slot) :
    ∀ (n : Nat) (st : GCRun) (off bound : Nat), WriterBehind st off →
      (∀ s ∈ slots, off ≤ s.offset ∧ s.offset + E.Sizes s.record ≤ wrapU32 E.DataFileMax) →
      slots.Pairwise (fun a b => a.offset + E.Sizes a.record ≤ b.offset) →
      off ≤ bound → (∀ s ∈ slots, s.offset + E.Sizes s.record ≤ bound) →
      WriterBehind (gcRecords E slots n st).1 bound ∧
      (gcRecords E slots n st).1.gc.Src = st.gc.Src ∧
      (∀ c2, st.gc.Src < c2 →
        (gcRecords E slots n st).1.bkt.datas.files c2 = st.bkt.datas.files c2) := by
  induction slots with
  | nil =>
    intro n st off bound hb _ _ hob _
    unfold gcRecords
    split
    · exact ⟨hb.mono hob, rfl, fun _ _ => rfl⟩
    · exact ⟨hb.mono hob, rfl, fun _ _ => rfl⟩
  | cons s rest ih =>
    intro n st off bound hb hs hp hob hbd
    have hs0 := hs s (List.mem_cons_self _ _)
    rw [List.pairwise_cons] at hp
    unfold gcRecords
    split
    · exact ⟨hb.mono hob, rfl, fun _ _ => rfl⟩
    · obtain ⟨g1, g2, g3⟩ := gcRecord_behind E s st (hb.mono hs0.1) hs0.2
      rcases hr : gcRecord E s st with ⟨st1, _ | err⟩
      · rw [hr] at g1 g2 g3
        simp only at g1 g2 g3
        simp only
        obtain ⟨i1, i2, i3⟩ := ih (n + 1) st1 (s.offset + E.Sizes s.record) bound g1
          (fun r hrm => ⟨hp.1 r hrm, (hs r (List.mem_cons_of_mem _ hrm)).2⟩) hp.2
          (hbd s (List.mem_cons_self _ _)) (fun r hrm => hbd r (List.mem_cons_of_mem _ hrm))
        refine ⟨i1, i2.trans g2, ?_⟩
        intro c2 hc2
        rw [i3 c2 (by omega), g3 c2 hc2]
      · rw [hr] at g1 g2 g3
        simp only at g1 g2 g3
        simp only
        exact ⟨g1.mono (hbd s (List.mem_cons_self _ _)), g2, g3⟩


theorem GetStreamReader_ok (ds : dataStore) (c : Int) (r : List Slot)
    (h : ds.GetStreamReader c = (r, none)) : r = ds.files c := by
  unfold dataStore.GetStreamReader at h
  split at h
  · simp at h
  · simp only [Prod.mk.injEq, and_true] at h
    exact h.symm

/-- The writer that `gcChunk` opens is not ahead of offset 0. -/
theorem gcOpen_behind (E : Env) (st : GCRun) (w : DataStreamWriter) (h0 : st.gc.Dst ≤ st.gc.Src)
    (hw : st.bkt.datas.GetStreamWriter st.gc.Dst (decide (st.gc.Dst ≠ st.gc.Src)) = (w, none)) :
    WriterBehind { gcOpen E st with w := w } 0 := by
  obtain ⟨w1, w2⟩ := GetStreamWriter_ok _ _ _ _ hw
  refine ⟨h0, w1, ?_⟩
  intro heq
  have heq2 : st.gc.Dst = st.gc.Src := heq
  show w.offset ≤ 0
  rw [w2]
  simp [heq2]

theorem gcClose_frame (E : Env) (st : GCRun) (hd : st.gc.Dst ≤ st.gc.Src) (c2 : Int)
    (hc : st.gc.Src < c2) : (gcClose E st).bkt.datas.files c2 = st.bkt.datas.files c2 := by
  have h1 : c2 ≠ st.gc.Dst := by omega
  have h2 : c2 ≠ st.gc.Src := by omega
  unfold gcClose
  by_cases hne : st.gc.Src ≠ st.gc.Dst
  · simp [hne, dataStore.Truncate, dataStore.DeleteFile, h1, h2]
  · simp [hne, dataStore.Truncate, h1]

/-- One source chunk of `gc` whose records are laid out in order, entered with
the destination not ahead of the source: the destination is not ahead of the
source afterwards, with or without error, and no chunk behind the source is
written. -/
theorem gcChunk_behind (E : Env) (st : GCRun) (h0 : st.gc.Dst ≤ st.gc.Src)
    (hl : ChunkLayout E (st.bkt.datas.files st.gc.Src)) :
    (gcChunk E st).1.gc.Dst ≤ (gcChunk E st).1.gc.Src ∧
    (gcChunk E st).1.gc.Src = st.gc.Src ∧
    (∀ c2, st.gc.Src < c2 → (gcChunk E st).1.bkt.datas.files c2 = st.bkt.datas.files c2) := by
  rcases gcChunk_cases E st with ⟨r, err, _, h⟩ | ⟨r, w, err, _, _, h⟩ | ⟨r, w, hr, hw, h⟩
  · rw [h]
    exact ⟨h0, rfl, fun _ _ => rfl⟩
  · rw [h]
    exact ⟨h0, rfl, fun _ _ => rfl⟩
  · rw [h]
    have hrf := GetStreamReader_ok _ _ _ hr
    rw [← hrf] at hl
    obtain ⟨b1, b2, b3⟩ := gcRecords_behind E r 0 { gcOpen E st with w := w } 0
      (wrapU32 E.DataFileMax) (gcOpen_behind E st w h0 hw)
      (fun s hs => ⟨Nat.zero_le _, hl.1 s hs⟩) hl.2 (Nat.zero_le _) hl.1
    rcases hk : gcRecords E r 0 { gcOpen E st with w := w } with ⟨st1, _ | err⟩
    · rw [hk] at b1 b2 b3
      simp only at b1 b2 b3
      simp only
      refine ⟨b1.1, b2, ?_⟩
      intro c2 hc2
      rw [gcClose_frame E st1 b1.1 c2 (by rw [b2]; exact hc2)]
      exact b3 c2 hc2
    · rw [hk] at b1 b2 b3
      simp only at b1 b2 b3
      simp only
      exact ⟨b1.1, b2, b3⟩


theorem LoopHead_next (E : Env) (st0 st : GCRun)
    (hl : ∀ c, st0.gc.Src ≤ c → c ≤ st0.gc.End → ChunkLayout E (st0.bkt.datas.files c))
    (hh : LoopHead st0 st) (hle : st.gc.Src ≤ st.gc.End) :
    (gcChunk E st).1.gc.Dst ≤ (gcChunk E st).1.gc.Src ∧
    LoopHead st0 { (gcChunk E st).1 with
      gc := { (gcChunk E st).1.gc with Src := (gcChunk E st).1.gc.Src + 1 } } := by
  obtain ⟨h1, h2, h3, h4⟩ := hh
  have hlay : ChunkLayout E (st.bkt.datas.files st.gc.Src) := by
    rw [h4 _ (le_refl _)]
    exact hl _ h3 (by omega)
  obtain ⟨c1, c2, c3⟩ := gcChunk_behind E st h1 hlay
  obtain ⟨_, s2, _⟩ := gcChunk_step E st
  refine ⟨c1, ?_, ?_, ?_, ?_⟩
  · show (gcChunk E st).1.gc.Dst ≤ (gcChunk E st).1.gc.Src + 1
    omega
  · show (gcChunk E st).1.gc.End = st0.gc.End
    rw [s2, h2]
  · show st0.gc.Src ≤ (gcChunk E st).1.gc.Src + 1
    omega
  · intro c hc
    have hc2 : (gcChunk E st).1.gc.Src + 1 ≤ c := hc
    show (gcChunk E st).1.bkt.datas.files c = _
    rw [c3 c (by omega)]
    exact h4 c (by omega)

theorem LoopHead.start (st0 : GCRun) (h0 : st0.gc.Dst ≤ st0.gc.Src) : LoopHead st0 st0 :=
  ⟨h0, rfl, le_refl _, fun _ _ => rfl⟩

theorem ChunkStart_LoopHead (E : Env) (st0 : GCRun) (h0 : st0.gc.Dst ≤ st0.gc.Src)
    (hl : ∀ c, st0.gc.Src ≤ c → c ≤ st0.gc.End → ChunkLayout E (st0.bkt.datas.files c))
    (st : GCRun) (hs : ChunkStart E st0 st) : LoopHead st0 st := by
  induction hs with
  | start => exact LoopHead.start st0 h0
  | next st st1 _ hle hc ih =>
    have h := (LoopHead_next E st0 st hl ih hle).2
    rw [hc] at h
    exact h

/-- The outer loop of `gc`, entered at a loop head: the destination is not ahead
of the source when it ends, with or without error. -/
theorem gcChunks_behind (E : Env) (st0 : GCRun)
    (hl : ∀ c, st0.gc.Src ≤ c → c ≤ st0.gc.End → ChunkLayout E (st0.bkt.datas.files c)) :
    ∀ (fuel : Nat) (st : GCRun), LoopHead st0 st →
      (gcChunks E fuel st).1.gc.Dst ≤ (gcChunks E fuel st).1.gc.Src := by
  intro fuel
  induction fuel with
  | zero =>
    intro st hh
    exact hh.1
  | succ fuel ih =>
    intro st hh
    by_cases hle : st.gc.Src ≤ st.gc.End
    · obtain ⟨n1, n2⟩ := LoopHead_next E st0 st hl hh hle
      rcases hc : gcChunk E st with ⟨st1, _ | err⟩
      · rw [hc] at n1 n2
        have e : gcChunks E (fuel + 1) st =
            gcChunks E fuel { st1 with gc := { st1.gc with Src := st1.gc.Src + 1 } } := by
          simp only [gcChunks, if_pos hle, hc]
        rw [e]
        exact ih _ n2
      · rw [hc] at n1
        have e : gcChunks E (fuel + 1) st = (st1, some err) := by
          simp only [gcChunks, if_pos hle, hc]
        rw [e]
        exact n1
    · have e : gcChunks E (fuel + 1) st = (st, none) := by
        simp only [gcChunks, if_neg hle]
      rw [e]
      exact hh.1

/-- A record that `gc` has just read: the writer is not ahead of it, neither
before nor after the roll-over step, and after the record is processed the
writer is not ahead of its end. -/
theorem RecordRead_behind (E : Env) (st0 : GCRun) (h0 : st0.gc.Dst ≤ st0.gc.Src)
    (hl : ∀ c, st0.gc.Src ≤ c → c ≤ st0.gc.End → ChunkLayout E (st0.bkt.datas.files c))
    (sti : GCRun) (s : Slot) (hr : RecordRead E st0 sti s) :
    WriterBehind sti s.offset ∧ WriterBehind (gcRoll E s sti).1 s.offset ∧
    WriterBehind (gcRecord E s sti).1 (s.offset + E.Sizes s.record) := by
  cases hr with
  | mk st sti w pre post s hs hle hrd hw hp =>
    obtain ⟨h1, h2, h3, h4⟩ := ChunkStart_LoopHead E st0 h0 hl st hs
    have hlay : ChunkLayout E (pre ++ s :: post) := by
      rw [GetStreamReader_ok _ _ _ hrd, h4 _ (le_refl _)]
      exact hl _ h3 (by omega)
    obtain ⟨l1, l2⟩ := hlay
    rw [List.pairwise_append] at l2
    obtain ⟨p1, _, p3⟩ := l2
    have hsm : s ∈ pre ++ s :: post := by simp
    have hb := (gcRecords_behind E pre 0 { gcOpen E st with w := w } 0 s.offset
      (gcOpen_behind E st w h1 hw)
      (fun r hrm => ⟨Nat.zero_le _, l1 r (List.mem_append_left _ hrm)⟩) p1 (Nat.zero_le _)
      (fun r hrm => p3 r hrm s (List.mem_cons_self _ _))).1
    rw [hp] at hb
    exact ⟨hb, (gcRoll_behind E s sti hb (l1 s hsm)).1, (gcRecord_behind E s sti hb (l1 s hsm)).1⟩

theorem BeforeBucket_datas (E : Env) (bkt bkt1 : Bucket) (a b : Int)
    (h : BeforeBucket E bkt a b = some bkt1) : bkt1.datas = bkt.datas := by
  unfold BeforeBucket at h
  simp only at h
  split at h
  · simp at h
  · simp only [Option.some.injEq] at h
    rw [← h]
    rfl


/-- C20 (counterexample): with `conf.DataFileMax = 2^32` the value `gc` compares
with is `uint32(2^32) = 0`.  Chunk 0 of `reopenedBucket` holds one record of 256
bytes at offset 0, which ends before `DataFileMax`; the writers and the append
are those of the claim.  When `gc` over `[0, 0]` reads the record, the roll-over
advances the destination, and the body of the outer loop ends with `gc.Src = 0`
and `gc.Dst = 1`: the destination is ahead of the source. -/
theorem gc_destination_ahead_when_max_exceeds_uint32 :
    wideEnv.DataFileMax = 4294967296 ∧ wrapU32 wideEnv.DataFileMax = 0 ∧
    reopenedBucket.datas.files 0 = [⟨0, ⟨[7], demoPayload (-1) []⟩, 0⟩] ∧
    (∀ s ∈ reopenedBucket.datas.files 0,
      s.offset + wideEnv.Sizes s.record ≤ wideEnv.DataFileMax) ∧
    (BeforeBucket wideEnv reopenedBucket 0 0).map (fun bkt1 =>
      ((gcRoll wideEnv ⟨0, ⟨[7], demoPayload (-1) []⟩, 0⟩ (gcStart bkt1 0 0)).1.gc.Src,
       (gcRoll wideEnv ⟨0, ⟨[7], demoPayload (-1) []⟩, 0⟩ (gcStart bkt1 0 0)).1.gc.Dst,
       (gcChunk wideEnv (gcStart bkt1 0 0)).1.gc.Src,
       (gcChunk wideEnv (gcStart bkt1 0 0)).1.gc.Dst,
       (gcChunk wideEnv (gcStart bkt1 0 0)).2)) = some (0, 1, 0, 1, none) ∧
    (gc wideEnv reopenedBucket 0 0).map (fun r => (r.1.GCHistory.map (fun g => (g.End, g.Dst)), r.2)) =
      some ([(0, 1)], none) := by
  decide

/-- C20 (amended): let every record of every source chunk of a `gc` run end at
or before `uint32(conf.DataFileMax)`, the value `gc` compares with, and start at
or after the end of the records the reader returned before it.  Then, with the
writers of the claim (a writer opened on the chunk being read starts at offset
0, a writer in append mode at the length of the destination, an append advances
by the record size): at the head of every iteration of the outer loop
`gc.Dst ≤ gc.Src`; when a record has just been read, the writer writes to chunk
`gc.Dst ≤ gc.Src` and, if `gc.Dst = gc.Src`, its offset is at most the offset of
the record, before and after the roll-over step, and at most the end of the
record after the record is processed; and the audit entry of a run that
returns, with or without error, has `Dst ≤ Src`. -/
theorem gc_writer_never_ahead (E : Env) (bkt : Bucket) (startChunkID endChunkID : Int)
    (hl : ∀ c, startChunkID ≤ c → c ≤ effectiveEnd endChunkID bkt.datas.newHead →
      ChunkLayout E (bkt.datas.files c)) :
    (∀ bkt1,
      BeforeBucket E bkt startChunkID (effectiveEnd endChunkID bkt.datas.newHead) = some bkt1 →
      (∀ st, ChunkStart E (gcStart bkt1 startChunkID
          (effectiveEnd endChunkID bkt.datas.newHead)) st → st.gc.Dst ≤ st.gc.Src) ∧
      (∀ sti s, RecordRead E (gcStart bkt1 startChunkID
          (effectiveEnd endChunkID bkt.datas.newHead)) sti s →
        WriterBehind sti s.offset ∧ WriterBehind (gcRoll E s sti).1 s.offset ∧
        WriterBehind (gcRecord E s sti).1 (s.offset + E.Sizes s.record))) ∧
    (∀ b1 err, gc E bkt startChunkID endChunkID = some (b1, err) →
      ∃ g, b1.GCHistory = bkt.GCHistory ++ [g] ∧ g.Dst ≤ g.Src) := by
  have key : ∀ bkt1,
      BeforeBucket E bkt startChunkID (effectiveEnd endChunkID bkt.datas.newHead) = some bkt1 →
      ∀ c, (gcStart bkt1 startChunkID (effectiveEnd endChunkID bkt.datas.newHead)).gc.Src ≤ c →
        c ≤ (gcStart bkt1 startChunkID (effectiveEnd endChunkID bkt.datas.newHead)).gc.End →
        ChunkLayout E ((gcStart bkt1 startChunkID
          (effectiveEnd endChunkID bkt.datas.newHead)).bkt.datas.files c) := by
    intro bkt1 hb c h1 h2
    show ChunkLayout E (bkt1.datas.files c)
    rw [BeforeBucket_datas E bkt bkt1 _ _ hb]
    exact hl c h1 h2
  refine ⟨?_, ?_⟩
  · intro bkt1 hb
    refine ⟨?_, ?_⟩
    · intro st hs
      exact (ChunkStart_LoopHead E _ (le_refl _) (key bkt1 hb) st hs).1
    · intro sti s hr
      exact RecordRead_behind E _ (le_refl _) (key bkt1 hb) sti s hr
  · intro b1 err h
    obtain ⟨bkt1, hb, _, hb1⟩ := gc_shape E bkt startChunkID endChunkID b1 err h
    subst hb1
    exact ⟨_, rfl, gcChunks_behind E _ (key bkt1 hb) _ _ (LoopHead.start _ (le_refl _))⟩


theorem fiveBucket_layout :
    ∀ c, (0 : Int) ≤ c → c ≤ effectiveEnd 1 fiveBucket.datas.newHead →
      ChunkLayout demoEnv (fiveBucket.datas.files c) := by
  intro c h1 h2
  have h3 : effectiveEnd 1 fiveBucket.datas.newHead = 1 := by decide
  rw [h3] at h2
  have h4 : c = 0 ∨ c = 1 := by omega
  rcases h4 with rfl | rfl <;> decide

/-- The second record of chunk 0 of `fiveBucket` as `gc` over `[0, 1]` reads it:
the first record was retained and the writer stands at offset 256. -/
theorem fiveBucket_second_record :
    ∃ sti s, BeforeBucket demoEnv fiveBucket 0 (effectiveEnd 1 fiveBucket.datas.newHead) =
        some fiveBucketPrepared ∧
      RecordRead demoEnv (gcStart fiveBucketPrepared 0
        (effectiveEnd 1 fiveBucket.datas.newHead)) sti s ∧
      s.offset = 256 ∧ sti.gc.Src = 0 ∧ sti.gc.Dst = 0 ∧ sti.w.offset = 256 := by
  refine ⟨(gcRecords demoEnv [⟨0, ⟨[1], { demoPayload 1 [10] with ValueHash := 10 }⟩, 0⟩] 0
      { gcOpen demoEnv (gcStart fiveBucketPrepared 0
          (effectiveEnd 1 fiveBucket.datas.newHead)) with w := ⟨0, 0⟩ }).1,
    ⟨256, ⟨[2], { demoPayload 1 [20] with ValueHash := 20 }⟩, 0⟩, rfl, ?_, rfl, ?_, ?_, ?_⟩
  · refine RecordRead.mk _ _ ⟨0, 0⟩ [⟨0, ⟨[1], { demoPayload 1 [10] with ValueHash := 10 }⟩, 0⟩] [] _
      (ChunkStart.start) (by decide) (by decide) (by decide) (Prod.ext rfl (by decide))
  · decide
  · decide
  · decide

/-- C20 (witness): `gc` over the chunks `[0, 1]` of `fiveBucket`, whose records
of 256 bytes lie at the offsets 0 and 256 of chunks of at most 512 bytes. -/
theorem gc_writer_never_ahead_witness :
    (∀ c, (0 : Int) ≤ c → c ≤ effectiveEnd 1 fiveBucket.datas.newHead →
      ChunkLayout demoEnv (fiveBucket.datas.files c)) ∧
    ((∀ bkt1,
      BeforeBucket demoEnv fiveBucket 0 (effectiveEnd 1 fiveBucket.datas.newHead) = some bkt1 →
      (∀ st, ChunkStart demoEnv (gcStart bkt1 0
          (effectiveEnd 1 fiveBucket.datas.newHead)) st → st.gc.Dst ≤ st.gc.Src) ∧
      (∀ sti s, RecordRead demoEnv (gcStart bkt1 0
          (effectiveEnd 1 fiveBucket.datas.newHead)) sti s →
        WriterBehind sti s.offset ∧ WriterBehind (gcRoll demoEnv s sti).1 s.offset ∧
        WriterBehind (gcRecord demoEnv s sti).1 (s.offset + demoEnv.Sizes s.record))) ∧
    (∀ b1 err, gc demoEnv fiveBucket 0 1 = some (b1, err) →
      ∃ g, b1.GCHistory = fiveBucket.GCHistory ++ [g] ∧ g.Dst ≤ g.Src)) :=
  ⟨fiveBucket_layout, gc_writer_never_ahead demoEnv fiveBucket 0 1 fiveBucket_layout⟩


end store
